import Mathlib

/-! # Concurrent counter benchmark (`performance_issues_examples/concurrency_issues.go`)

The three strategies `testConcurrencyMethod1` (global lock), `testConcurrencyMethod2`
(sharded lock) and `testConcurrencyMethod3` (channel funnel) are embedded as
interleaving transition systems: a state holds the shared memory, the program
counter and locals of the calling goroutine and of every spawned goroutine, and
one step executes one statement of one goroutine.  A goroutine that is blocked
(on a held mutex, on `wg.Wait`, on a channel) has no step.  An execution is a
list of goroutine identifiers, the order in which the scheduler lets them run.

Go `int` is 64 bits wide; the additions on `j`, on the counters and on the totals
go through `wrap64`; the loop variable `i` of the caller, bounded by the literal
10, is a natural number.  An increment `x.value++` is two steps, a load and a
store.  Wall-clock time is not modelled: `time.Sleep` is a step without effect
and the elapsed-time lines are recorded without their value.  The largest
capacity for which the runtime allocates a channel is a parameter, `limit`, of
the channel funnel (`stepOn`, `execOn`): `make(chan int, n)` panics for `n < 0`
and for `n > limit`.  Its `step` and `exec` are the instance in which every
capacity of type `int` is granted.
-/

namespace PerformanceExamples

/-- Largest value of a Go `int` (64 bits). -/
def maxInt : Int := 9223372036854775807

/-- Two's-complement wrap-around of a 64-bit Go `int`. -/
def wrap64 (x : Int) : Int :=
  (x + 9223372036854775808) % 18446744073709551616 - 9223372036854775808

/-- Source: `type CounterExample struct { value int }`. -/
structure CounterExample where
  value : Int
deriving DecidableEq

/-- The package-level variables `mutexExample` (`true` = locked) and `counterExample`. -/
structure Globals where
  mutexExample : Bool
  counterExample : CounterExample
deriving DecidableEq

/-- Lines written to standard output. -/
inductive Event where
  /-- `fmt.Println("测试不同的并发方法...")` -/
  | banner
  /-- `fmt.Printf("最终计数器值: %d\n", v)` -/
  | count (v : Int)
  /-- `fmt.Printf("方法k (...): %v\n", durationk)`; the duration itself is not modelled -/
  | elapsed (k : Nat)
deriving DecidableEq

/-- Goroutine identifiers: the caller, the `k`-th goroutine started by the
spawn loop, and the aggregator goroutine of the channel funnel. -/
inductive Tid where
  | main
  | worker (k : Nat)
  | aggregator
deriving DecidableEq

/-- Runs a schedule: the goroutines named in it take one step each, in order;
`none` when the schedule asks a goroutine to run that cannot. -/
def runSchedule {σ : Type} (step : σ → Tid → Option σ) (s : σ) : List Tid → Option σ
  | [] => some s
  | t :: ts =>
    match step s t with
    | some s1 => runSchedule step s1 ts
    | none => none

/-! ## `testConcurrencyMethod1`: one global lock -/

namespace testConcurrencyMethod1

/-- Program counter of a worker goroutine (source lines 51-62). -/
inductive WPc where
  /-- line 54, `j < iterations/10` -/
  | loopTest
  /-- line 56, `mutexExample.Lock()` -/
  | lock
  /-- line 57, `counterExample.value++`: load -/
  | read
  /-- line 57, `counterExample.value++`: store -/
  | write
  /-- line 59, `time.Sleep(time.Nanosecond)` -/
  | sleep
  /-- line 60, `mutexExample.Unlock()` -/
  | unlock
  /-- line 54, `j++` -/
  | incr
  /-- line 52, deferred `wg.Done()` -/
  | done
  /-- the goroutine has returned -/
  | dead
deriving DecidableEq

/-- A worker goroutine: program counter, loop variable `j` and the value loaded by
the increment. -/
structure Worker where
  pc : WPc
  j : Int
  tmp : Int
deriving DecidableEq

/-- Program counter of the calling goroutine (source lines 46-66). -/
inductive MPc where
  /-- line 49, `i < 10` -/
  | loopTest
  /-- line 50, `wg.Add(1)` -/
  | add
  /-- line 51, `go func() ...` -/
  | go
  /-- line 49, `i++` -/
  | incr
  /-- line 65, `wg.Wait()` -/
  | wait
  /-- line 66, `fmt.Printf(..., counterExample.value)` -/
  | print
  /-- the function has returned -/
  | ret
deriving DecidableEq

/-- State of one call of `testConcurrencyMethod1`. -/
structure State where
  g : Globals
  out : List Event
  panicked : Bool
  wg : Nat
  i : Nat
  pc : MPc
  workers : List Worker
deriving DecidableEq

/-- State on entry: globals and output as the caller left them. -/
def init (g : Globals) (out : List Event) : State :=
  { g := g, out := out, panicked := false, wg := 0, i := 0, pc := .loopTest, workers := [] }

/-- One statement of the calling goroutine. -/
def mainStep (s : State) : Option State :=
  match s.pc with
  | .loopTest => if s.i < 10 then some { s with pc := .add } else some { s with pc := .wait }
  | .add => some { s with wg := s.wg + 1, pc := .go }
  | .go => some { s with workers := s.workers ++ [{ pc := .loopTest, j := 0, tmp := 0 }], pc := .incr }
  | .incr => some { s with i := s.i + 1, pc := .loopTest }
  | .wait => if s.wg = 0 then some { s with pc := .print } else none
  | .print => some { s with out := s.out ++ [.count s.g.counterExample.value], pc := .ret }
  | .ret => none

/-- One statement of worker `k`, whose current state is `w`. -/
def workerStep (iterations : Int) (s : State) (k : Nat) (w : Worker) : Option State :=
  match w.pc with
  | .loopTest =>
    if w.j < Int.tdiv iterations 10 then
      some { s with workers := s.workers.set k { w with pc := .lock } }
    else
      some { s with workers := s.workers.set k { w with pc := .done } }
  | .lock =>
    if s.g.mutexExample then none
    else some { s with g := { s.g with mutexExample := true },
                       workers := s.workers.set k { w with pc := .read } }
  | .read =>
    some { s with workers := s.workers.set k { w with pc := .write, tmp := s.g.counterExample.value } }
  | .write =>
    some { s with g := { s.g with counterExample := { value := wrap64 (w.tmp + 1) } },
                  workers := s.workers.set k { w with pc := .sleep } }
  | .sleep => some { s with workers := s.workers.set k { w with pc := .unlock } }
  | .unlock =>
    if s.g.mutexExample then
      some { s with g := { s.g with mutexExample := false },
                    workers := s.workers.set k { w with pc := .incr } }
    else some { s with panicked := true }
  | .incr => some { s with workers := s.workers.set k { w with pc := .loopTest, j := wrap64 (w.j + 1) } }
  | .done =>
    if s.wg = 0 then some { s with panicked := true }
    else some { s with wg := s.wg - 1, workers := s.workers.set k { w with pc := .dead } }
  | .dead => none

/-- The scheduler runs goroutine `t` for one statement; `none` when `t` cannot run
(blocked, returned, not started, or the process has crashed). -/
def step (iterations : Int) (s : State) (t : Tid) : Option State :=
  if s.panicked then none
  else
    match t with
    | .main => mainStep s
    | .worker k =>
      match s.workers[k]? with
      | some w => workerStep iterations s k w
      | none => none
    | .aggregator => none

/-- The state after the schedule `sched`, started in `s`. -/
def exec (iterations : Int) (s : State) (sched : List Tid) : Option State :=
  runSchedule (step iterations) s sched

end testConcurrencyMethod1

/-! ## `testConcurrencyMethod2`: one lock and one counter per worker -/

namespace testConcurrencyMethod2

/-- Program counter of a worker goroutine (source lines 78-88). -/
inductive WPc where
  /-- line 81, `j < iterations/10` -/
  | loopTest
  /-- line 83, `mutexes[id].Lock()` -/
  | lock
  /-- line 84, `counters[id].value++`: load -/
  | read
  /-- line 84, `counters[id].value++`: store -/
  | write
  /-- line 85, `time.Sleep(time.Nanosecond)` -/
  | sleep
  /-- line 86, `mutexes[id].Unlock()` -/
  | unlock
  /-- line 81, `j++` -/
  | incr
  /-- line 79, deferred `wg.Done()` -/
  | done
  /-- the goroutine has returned -/
  | dead
deriving DecidableEq

/-- A worker goroutine: program counter, the parameter `id`, loop variable `j`
and the value loaded by the increment. -/
structure Worker where
  pc : WPc
  id : Nat
  j : Int
  tmp : Int
deriving DecidableEq

/-- Program counter of the calling goroutine (source lines 71-98). -/
inductive MPc where
  /-- line 76, `i < 10` -/
  | loopTest
  /-- line 77, `wg.Add(1)` -/
  | add
  /-- line 78, `go func(id int) ... (i)` -/
  | go
  /-- line 76, `i++` -/
  | incr
  /-- line 91, `wg.Wait()` -/
  | wait
  /-- lines 94-95, `total := 0` and `i := 0` -/
  | sumInit
  /-- line 95, `i < 10` -/
  | sumTest
  /-- line 96, `total += counters[i].value` -/
  | sumAdd
  /-- line 95, `i++` -/
  | sumIncr
  /-- line 98, `fmt.Printf(..., total)` -/
  | print
  /-- the function has returned -/
  | ret
deriving DecidableEq

/-- State of one call of `testConcurrencyMethod2`; `counters` and `mutexes` are
the two local arrays of length 10. -/
structure State where
  g : Globals
  out : List Event
  panicked : Bool
  wg : Nat
  i : Nat
  total : Int
  pc : MPc
  counters : List CounterExample
  mutexes : List Bool
  workers : List Worker
deriving DecidableEq

/-- State on entry: both arrays hold zero values. -/
def init (g : Globals) (out : List Event) : State :=
  { g := g, out := out, panicked := false, wg := 0, i := 0, total := 0, pc := .loopTest,
    counters := List.replicate 10 { value := 0 }, mutexes := List.replicate 10 false,
    workers := [] }

/-- One statement of the calling goroutine. -/
def mainStep (s : State) : Option State :=
  match s.pc with
  | .loopTest => if s.i < 10 then some { s with pc := .add } else some { s with pc := .wait }
  | .add => some { s with wg := s.wg + 1, pc := .go }
  | .go =>
    some { s with workers := s.workers ++ [{ pc := .loopTest, id := s.i, j := 0, tmp := 0 }],
                  pc := .incr }
  | .incr => some { s with i := s.i + 1, pc := .loopTest }
  | .wait => if s.wg = 0 then some { s with pc := .sumInit } else none
  | .sumInit => some { s with total := 0, i := 0, pc := .sumTest }
  | .sumTest => if s.i < 10 then some { s with pc := .sumAdd } else some { s with pc := .print }
  | .sumAdd =>
    match s.counters[s.i]? with
    | some c => some { s with total := wrap64 (s.total + c.value), pc := .sumIncr }
    | none => some { s with panicked := true }
  | .sumIncr => some { s with i := s.i + 1, pc := .sumTest }
  | .print => some { s with out := s.out ++ [.count s.total], pc := .ret }
  | .ret => none

/-- One statement of worker `k`, whose current state is `w`.  An array index out
of range is a run-time panic. -/
def workerStep (iterations : Int) (s : State) (k : Nat) (w : Worker) : Option State :=
  match w.pc with
  | .loopTest =>
    if w.j < Int.tdiv iterations 10 then
      some { s with workers := s.workers.set k { w with pc := .lock } }
    else
      some { s with workers := s.workers.set k { w with pc := .done } }
  | .lock =>
    match s.mutexes[w.id]? with
    | some true => none
    | some false =>
      some { s with mutexes := s.mutexes.set w.id true,
                    workers := s.workers.set k { w with pc := .read } }
    | none => some { s with panicked := true }
  | .read =>
    match s.counters[w.id]? with
    | some c => some { s with workers := s.workers.set k { w with pc := .write, tmp := c.value } }
    | none => some { s with panicked := true }
  | .write =>
    if w.id < s.counters.length then
      some { s with counters := s.counters.set w.id { value := wrap64 (w.tmp + 1) },
                    workers := s.workers.set k { w with pc := .sleep } }
    else some { s with panicked := true }
  | .sleep => some { s with workers := s.workers.set k { w with pc := .unlock } }
  | .unlock =>
    match s.mutexes[w.id]? with
    | some true =>
      some { s with mutexes := s.mutexes.set w.id false,
                    workers := s.workers.set k { w with pc := .incr } }
    | _ => some { s with panicked := true }
  | .incr => some { s with workers := s.workers.set k { w with pc := .loopTest, j := wrap64 (w.j + 1) } }
  | .done =>
    if s.wg = 0 then some { s with panicked := true }
    else some { s with wg := s.wg - 1, workers := s.workers.set k { w with pc := .dead } }
  | .dead => none

/-- The scheduler runs goroutine `t` for one statement; `none` when `t` cannot run. -/
def step (iterations : Int) (s : State) (t : Tid) : Option State :=
  if s.panicked then none
  else
    match t with
    | .main => mainStep s
    | .worker k =>
      match s.workers[k]? with
      | some w => workerStep iterations s k w
      | none => none
    | .aggregator => none

/-- The state after the schedule `sched`, started in `s`. -/
def exec (iterations : Int) (s : State) (sched : List Tid) : Option State :=
  runSchedule (step iterations) s sched

end testConcurrencyMethod2

/-! ## `testConcurrencyMethod3`: workers send to one aggregator over a channel -/

namespace testConcurrencyMethod3

/-- The channel `increments`: queued values, capacity and the closed flag. -/
structure Chan where
  buf : List Int
  cap : Int
  closed : Bool
deriving DecidableEq

/-- Program counter of the aggregator goroutine (source lines 108-115). -/
inductive APc where
  /-- line 110, `inc := range increments`: receive, or leave the loop -/
  | recv
  /-- line 111, `total += inc` -/
  | add
  /-- line 113, `fmt.Printf(..., total)` -/
  | print
  /-- line 114, `done <- true` -/
  | sendDone
  /-- the goroutine has returned -/
  | dead
deriving DecidableEq

/-- The aggregator goroutine: program counter, its private `total` and the
value just received. -/
structure Agg where
  pc : APc
  total : Int
  inc : Int
deriving DecidableEq

/-- Program counter of a producer goroutine (source lines 122-129). -/
inductive WPc where
  /-- line 125, `j < iterations/10` -/
  | loopTest
  /-- line 126, `increments <- 1` -/
  | send
  /-- line 127, `time.Sleep(time.Nanosecond)` -/
  | sleep
  /-- line 125, `j++` -/
  | incr
  /-- line 123, deferred `wg.Done()` -/
  | done
  /-- the goroutine has returned -/
  | dead
deriving DecidableEq

/-- A producer goroutine: program counter and loop variable `j`. -/
structure Worker where
  pc : WPc
  j : Int
deriving DecidableEq

/-- Program counter of the calling goroutine (source lines 104-134). -/
inductive MPc where
  /-- line 104, `increments := make(chan int, iterations)` -/
  | mkInc
  /-- line 105, `done := make(chan bool)` -/
  | mkDone
  /-- line 108, `go func() ...` (the aggregator) -/
  | goAgg
  /-- line 120, `i < 10` -/
  | loopTest
  /-- line 121, `wg.Add(1)` -/
  | add
  /-- line 122, `go func() ...` (a producer) -/
  | go
  /-- line 120, `i++` -/
  | incr
  /-- line 132, `wg.Wait()` -/
  | wait
  /-- line 133, `close(increments)` -/
  | close
  /-- line 134, `<-done` -/
  | recvDone
  /-- the function has returned -/
  | ret
deriving DecidableEq

/-- State of one call of `testConcurrencyMethod3`.  The channel `done` is
unbuffered and carries one message, so it has no state of its own: its one
exchange is the joint step of `Agg` at `sendDone` and the caller at `recvDone`. -/
structure State where
  g : Globals
  out : List Event
  panicked : Bool
  wg : Nat
  i : Nat
  pc : MPc
  increments : Chan
  agg : Option Agg
  workers : List Worker
deriving DecidableEq

/-- State on entry. -/
def init (g : Globals) (out : List Event) : State :=
  { g := g, out := out, panicked := false, wg := 0, i := 0, pc := .mkInc,
    increments := { buf := [], cap := 0, closed := false }, agg := none, workers := [] }

/-- Upper bound of the capacities `make(chan int, size)` accepts on a 64-bit
platform: the Go runtime (`makechan`) panics with "makechan: size out of range"
when `size < 0` or when the buffer, `size` elements of 8 bytes each, is larger
than `maxAlloc - hchanSize` bytes, where `maxAlloc` is `2 ^ 48` and `hchanSize`
is 96. -/
def maxChanCap : Int := (2 ^ 48 - 96) / 8

/-- One statement of the calling goroutine on a runtime that allocates channel
buffers of capacity up to `limit` (at most `maxChanCap`; less when the machine
has less memory to give).  `make` with a negative size or with a size above
`limit`, and `close` of a closed channel, end the process (a run-time panic or
a fatal error of the allocator); `<-done` has no step of its own, it completes
with the aggregator's send. -/
def mainStepOn (limit : Int) (iterations : Int) (s : State) : Option State :=
  match s.pc with
  | .mkInc =>
    if iterations < 0 ∨ limit < iterations then some { s with panicked := true }
    else some { s with increments := { buf := [], cap := iterations, closed := false },
                       pc := .mkDone }
  | .mkDone => some { s with pc := .goAgg }
  | .goAgg => some { s with agg := some { pc := .recv, total := 0, inc := 0 }, pc := .loopTest }
  | .loopTest => if s.i < 10 then some { s with pc := .add } else some { s with pc := .wait }
  | .add => some { s with wg := s.wg + 1, pc := .go }
  | .go => some { s with workers := s.workers ++ [{ pc := .loopTest, j := 0 }], pc := .incr }
  | .incr => some { s with i := s.i + 1, pc := .loopTest }
  | .wait => if s.wg = 0 then some { s with pc := .close } else none
  | .close =>
    if s.increments.closed then some { s with panicked := true }
    else some { s with increments := { s.increments with closed := true }, pc := .recvDone }
  | .recvDone => none
  | .ret => none

/-- One statement of producer `k`, whose current state is `w`.  A send on a
closed channel is a run-time panic; otherwise the value is queued when the
buffer has room, handed to the aggregator when that is waiting on an empty
buffer, and the producer is blocked in every other case. -/
def workerStep (iterations : Int) (s : State) (k : Nat) (w : Worker) : Option State :=
  match w.pc with
  | .loopTest =>
    if w.j < Int.tdiv iterations 10 then
      some { s with workers := s.workers.set k { w with pc := .send } }
    else
      some { s with workers := s.workers.set k { w with pc := .done } }
  | .send =>
    if s.increments.closed then some { s with panicked := true }
    else if (s.increments.buf.length : Int) < s.increments.cap then
      some { s with increments := { s.increments with buf := s.increments.buf ++ [1] },
                    workers := s.workers.set k { w with pc := .sleep } }
    else
      match s.increments.buf, s.agg with
      | [], some a =>
        if a.pc = .recv then
          some { s with agg := some { a with pc := .add, inc := 1 },
                        workers := s.workers.set k { w with pc := .sleep } }
        else none
      | _, _ => none
  | .sleep => some { s with workers := s.workers.set k { w with pc := .incr } }
  | .incr => some { s with workers := s.workers.set k { w with pc := .loopTest, j := wrap64 (w.j + 1) } }
  | .done =>
    if s.wg = 0 then some { s with panicked := true }
    else some { s with wg := s.wg - 1, workers := s.workers.set k { w with pc := .dead } }
  | .dead => none

/-- One statement of the aggregator `a`.  The receive takes the oldest queued
value; on an empty buffer it leaves the loop when the channel is closed and is
blocked otherwise.  The send on `done` needs the caller waiting at `<-done`. -/
def aggStep (s : State) (a : Agg) : Option State :=
  match a.pc with
  | .recv =>
    match s.increments.buf with
    | v :: rest =>
      some { s with increments := { s.increments with buf := rest },
                    agg := some { a with pc := .add, inc := v } }
    | [] =>
      if s.increments.closed then some { s with agg := some { a with pc := .print } }
      else none
  | .add => some { s with agg := some { a with pc := .recv, total := wrap64 (a.total + a.inc) } }
  | .print => some { s with out := s.out ++ [.count a.total], agg := some { a with pc := .sendDone } }
  | .sendDone =>
    if s.pc = .recvDone then some { s with agg := some { a with pc := .dead }, pc := .ret }
    else none
  | .dead => none

/-- The scheduler runs goroutine `t` for one statement, on a runtime with the
channel capacity limit `limit`; `none` when `t` cannot run. -/
def stepOn (limit : Int) (iterations : Int) (s : State) (t : Tid) : Option State :=
  if s.panicked then none
  else
    match t with
    | .main => mainStepOn limit iterations s
    | .worker k =>
      match s.workers[k]? with
      | some w => workerStep iterations s k w
      | none => none
    | .aggregator =>
      match s.agg with
      | some a => aggStep s a
      | none => none

/-- The state after the schedule `sched`, started in `s`, on a runtime with the
channel capacity limit `limit`. -/
def execOn (limit : Int) (iterations : Int) (s : State) (sched : List Tid) : Option State :=
  runSchedule (stepOn limit iterations) s sched

/-- The calling goroutine where every capacity of type `int` can be allocated
(`limit` is the largest int). -/
def mainStep (iterations : Int) (s : State) : Option State :=
  mainStepOn maxInt iterations s

/-- The scheduler where every capacity of type `int` can be allocated. -/
def step (iterations : Int) (s : State) (t : Tid) : Option State :=
  stepOn maxInt iterations s t

/-- The state after the schedule `sched`, started in `s`, where every capacity of
type `int` can be allocated. -/
def exec (iterations : Int) (s : State) (sched : List Tid) : Option State :=
  runSchedule (step iterations) s sched

end testConcurrencyMethod3

/-! ## `RunConcurrencyExample`: the driver -/

namespace RunConcurrencyExample

/-- Program counter of `RunConcurrencyExample` between its calls (source lines
18-42).  `time.Now` and `time.Since` have no modelled effect and are part of
the step of the statement that follows them. -/
inductive Pc where
  /-- line 20, `fmt.Println(...)` -/
  | println
  /-- lines 23-24, `testConcurrencyMethod1(1000000)` -/
  | call1
  /-- lines 25-26, `fmt.Printf("方法1 ...", duration1)` -/
  | printf1
  /-- line 29, `counterExample.value = 0` -/
  | reset
  /-- lines 32-33, `testConcurrencyMethod2(1000000)` -/
  | call2
  /-- lines 34-35, `fmt.Printf("方法2 ...", duration2)` -/
  | printf2
  /-- lines 38-39, `testConcurrencyMethod3(1000000)` -/
  | call3
  /-- lines 40-41, `fmt.Printf("方法3 ...", duration3)` -/
  | printf3
  /-- the function has returned -/
  | ret
deriving DecidableEq

/-- State of one call of `RunConcurrencyExample`: between calls only the
globals and the output exist; inside a call, the state of the callee. -/
inductive State where
  | top (pc : Pc) (g : Globals) (out : List Event)
  | in1 (s : testConcurrencyMethod1.State)
  | in2 (s : testConcurrencyMethod2.State)
  | in3 (s : testConcurrencyMethod3.State)
deriving DecidableEq

/-- State on entry, with nothing printed yet. -/
def init (g : Globals) : State := .top .println g []

/-- One statement of the driver itself. -/
def topStep (pc : Pc) (g : Globals) (out : List Event) : Option State :=
  match pc with
  | .println => some (.top .call1 g (out ++ [.banner]))
  | .call1 => some (.in1 (testConcurrencyMethod1.init g out))
  | .printf1 => some (.top .reset g (out ++ [.elapsed 1]))
  | .reset => some (.top .call2 { g with counterExample := { value := 0 } } out)
  | .call2 => some (.in2 (testConcurrencyMethod2.init g out))
  | .printf2 => some (.top .call3 g (out ++ [.elapsed 2]))
  | .call3 => some (.in3 (testConcurrencyMethod3.init g out))
  | .printf3 => some (.top .ret g (out ++ [.elapsed 3]))
  | .ret => none

/-- The scheduler runs goroutine `t` for one statement.  Inside a call the step
is the callee's, with 1000000 iterations; when the callee has returned, the
caller's next step takes over its globals and output (every goroutine of the
call has returned by then, see `m1_at_ret`, `m2_at_ret` and `m3_at_ret`). -/
def step (s : State) (t : Tid) : Option State :=
  match s with
  | .top pc g out => if t = .main then topStep pc g out else none
  | .in1 s1 =>
    if s1.panicked then none
    else if s1.pc = .ret ∧ t = .main then some (.top .printf1 s1.g s1.out)
    else (testConcurrencyMethod1.step 1000000 s1 t).map .in1
  | .in2 s2 =>
    if s2.panicked then none
    else if s2.pc = .ret ∧ t = .main then some (.top .printf2 s2.g s2.out)
    else (testConcurrencyMethod2.step 1000000 s2 t).map .in2
  | .in3 s3 =>
    if s3.panicked then none
    else if s3.pc = .ret ∧ t = .main then some (.top .printf3 s3.g s3.out)
    else (testConcurrencyMethod3.step 1000000 s3 t).map .in3

/-- The state after the schedule `sched`, started in `s`. -/
def exec (s : State) (sched : List Tid) : Option State :=
  runSchedule step s sched

/-- Successive calls of `RunConcurrencyExample` in one process, one schedule per
call, each run to its return: the globals at the end and what each call printed. -/
def execCalls (g : Globals) : List (List Tid) → Option (Globals × List (List Event))
  | [] => some (g, [])
  | sched :: rest =>
    match exec (init g) sched with
    | some (.top .ret g1 out) =>
      match execCalls g1 rest with
      | some (gf, outs) => some (gf, out :: outs)
      | none => none
    | _ => none

end RunConcurrencyExample

/-- A sequential schedule: the caller runs `a` statements (enough to start all
10 workers), then the workers run one after the other, each for `r` statements,
then the caller runs `e` statements. -/
def seqSchedule (a r e : Nat) : List Tid :=
  List.replicate a Tid.main
    ++ (List.range 10).flatMap (fun k => List.replicate r (Tid.worker k))
    ++ List.replicate e Tid.main

end PerformanceExamples

/-! # Order discount (`code_smells_examples/complex_conditional.go`)

`float64` values are read as exact rationals.  `time.Time` values are
nanoseconds since the epoch and the clock reading of `time.Since` is the
parameter `now`. -/

namespace CodeSmells

/-- Constants of `UserType` (an `int`). -/
def Regular : Int := 0
def Premium : Int := 1
def Enterprise : Int := 2
def Admin : Int := 3
def Guest : Int := 4

/-- Constants of `PaymentMethod` (an `int`). -/
def CreditCard : Int := 0
def DebitCard : Int := 1
def BankTransfer : Int := 2
def DigitalWallet : Int := 3
def GiftCard : Int := 4
def StoredCredit : Int := 5

/-- Constants of `OrderStatus` (an `int`). -/
def Pending : Int := 0
def Processing : Int := 1
def Shipped : Int := 2
def Delivered : Int := 3
def Cancelled : Int := 4
def Returned : Int := 5
def Refunded : Int := 6

/-- Constants of `ProductType` (an `int`). -/
def Physical : Int := 0
def Digital : Int := 1
def Subscription : Int := 2
def Service : Int := 3

/-- Hours of `time.Since(t)` at clock reading `now`: the difference in
nanoseconds, saturated to the range of a `time.Duration`, over one hour. -/
def hoursSince (now t : Int) : ℚ :=
  let d : Int := max (-9223372036854775808) (min 9223372036854775807 (now - t))
  (d : ℚ) / 3600000000000

/-- The discount rate accumulated by `CalculateOrderDiscount` before the cap
(source lines 74-270). -/
def discountRate (now : Int) (orderTotal : ℚ) (userType : Int) (userRegistrationDate : Int)
    (previousOrdersCount : Int) (totalSpent : ℚ) (paymentMethod : Int)
    (isHoliday hasPromoCode : Bool) (promoCodeValue : ℚ) (orderStatus productType : Int)
    (quantity : Int) (isFirstPurchase hasCoupon : Bool) (couponValue : ℚ)
    (isWeekend isFlashSale : Bool) : ℚ :=
  let discount : ℚ := 0
  -- lines 77-133: user type
  let discount :=
    if userType = Regular then
      let d := if previousOrdersCount > 10 then discount + 5 / 100
               else if previousOrdersCount > 5 then discount + 2 / 100 else discount
      let d := if totalSpent > 1000 then d + 3 / 100
               else if totalSpent > 500 then d + 1 / 100 else d
      if hoursSince now userRegistrationDate > 24 * 365 then d + 2 / 100 else d
    else if userType = Premium then
      let d := discount + 10 / 100
      let d := if previousOrdersCount > 20 then d + 5 / 100
               else if previousOrdersCount > 10 then d + 3 / 100 else d
      if totalSpent > 2000 then d + 5 / 100
      else if totalSpent > 1000 then d + 2 / 100 else d
    else if userType = Enterprise then
      let d := discount + 15 / 100
      if orderTotal > 5000 then d + 10 / 100
      else if orderTotal > 1000 then d + 5 / 100 else d
    else if userType = Admin then discount + 25 / 100
    else if userType = Guest then
      let d := discount + 0
      if isFirstPurchase then d + 1 / 100 else d
    else discount
  -- lines 136-148: payment method
  let discount :=
    if paymentMethod = CreditCard then discount + 2 / 100
    else if paymentMethod = DebitCard then discount + 1 / 100
    else if paymentMethod = BankTransfer then discount
    else if paymentMethod = DigitalWallet then discount + 15 / 1000
    else if paymentMethod = GiftCard then discount
    else if paymentMethod = StoredCredit then discount + 3 / 100
    else discount
  -- lines 151-164: holiday
  let discount :=
    if isHoliday then
      let d := if userType = Regular ∨ userType = Guest then discount + 2 / 100
               else if userType = Premium ∨ userType = Enterprise then discount + 3 / 100
               else discount
      if paymentMethod = CreditCard then d + 1 / 100 else d
    else discount
  -- lines 167-177: weekend
  let discount :=
    if isWeekend then
      if productType = Physical then discount + 1 / 100
      else if productType = Digital then discount + 2 / 100
      else if productType = Subscription then discount
      else if productType = Service then discount + 15 / 1000
      else discount
    else discount
  -- lines 180-198: flash sale
  let discount :=
    if isFlashSale then
      let d := discount + 5 / 100
      let d := if userType = Premium then d + 2 / 100
               else if userType = Enterprise then d + 3 / 100 else d
      if quantity > 5 then d + 3 / 100
      else if quantity > 2 then d + 1 / 100 else d
    else discount
  -- lines 201-209: promo code
  let discount :=
    if hasPromoCode then
      if promoCodeValue > discount then promoCodeValue else discount + 1 / 100
    else discount
  -- lines 212-215: coupon
  let discount := if hasCoupon then discount + couponValue else discount
  -- lines 218-232: order status
  let discount :=
    if orderStatus = Cancelled ∨ orderStatus = Returned then 0
    else if orderStatus = Pending then discount
    else if orderStatus = Processing then discount
    else if orderStatus = Shipped then discount
    else if orderStatus = Delivered then discount
    else if orderStatus = Refunded then 0
    else discount
  -- lines 235-250: product type
  let discount :=
    if productType = Physical then discount
    else if productType = Digital then discount + 1 / 100
    else if productType = Subscription then
      let d := discount + 2 / 100
      if previousOrdersCount > 5 ∧ userType ≠ Guest then d + 1 / 100 else d
    else discount
  -- lines 253-261: large order
  let discount :=
    if orderTotal > 10000 then discount + 10 / 100
    else if orderTotal > 5000 then discount + 7 / 100
    else if orderTotal > 1000 then discount + 5 / 100
    else if orderTotal > 500 then discount + 2 / 100
    else discount
  -- lines 264-270: quantity
  if quantity > 20 then discount + 8 / 100
  else if quantity > 10 then discount + 5 / 100
  else if quantity > 5 then discount + 2 / 100
  else discount

/-- Source: `CalculateOrderDiscount` (lines 55-281): the accumulated rate, capped
at 0.50 (lines 273-275), times the order total (line 278). -/
def CalculateOrderDiscount (now : Int) (orderTotal : ℚ) (userType : Int)
    (userRegistrationDate : Int) (previousOrdersCount : Int) (totalSpent : ℚ)
    (paymentMethod : Int) (isHoliday hasPromoCode : Bool) (promoCodeValue : ℚ)
    (orderStatus productType : Int) (quantity : Int) (isFirstPurchase hasCoupon : Bool)
    (couponValue : ℚ) (isWeekend isFlashSale : Bool) : ℚ :=
  let discount := discountRate now orderTotal userType userRegistrationDate
    previousOrdersCount totalSpent paymentMethod isHoliday hasPromoCode promoCodeValue
    orderStatus productType quantity isFirstPurchase hasCoupon couponValue isWeekend isFlashSale
  let discount := if discount > 50 / 100 then 50 / 100 else discount
  orderTotal * discount

end CodeSmells

/-! # Invariants and step counts used in the proofs -/

namespace PerformanceExamples

/-- Number of times a worker runs the body of `for j := 0; j < iterations/10; j++`. -/
def perWorker (iterations : Int) : Int := max 0 (Int.tdiv iterations 10)

namespace testConcurrencyMethod1

/-- One when the worker is between `Lock` and `Unlock`, else zero. -/
def holds (w : Worker) : Nat :=
  match w.pc with
  | .read | .write | .sleep | .unlock => 1
  | _ => 0

/-- Increments the worker has stored so far. -/
def completed (w : Worker) : Int :=
  match w.pc with
  | .sleep | .unlock | .incr => w.j + 1
  | _ => w.j

/-- One until the worker has called `wg.Done`, else zero. -/
def alive (w : Worker) : Nat :=
  match w.pc with
  | .dead => 0
  | _ => 1

/-- Range of the loop variable at each program point, `m` being the loop bound. -/
def WorkerOK (m : Int) (w : Worker) : Prop :=
  match w.pc with
  | .loopTest => 0 ≤ w.j ∧ w.j ≤ m
  | .done | .dead => w.j = m
  | _ => 0 ≤ w.j ∧ w.j < m

/-- Statements the worker still has to execute. -/
def remaining (m : Int) (w : Worker) : Int :=
  match w.pc with
  | .loopTest => 7 * (m - w.j) + 2
  | .lock => 7 * (m - w.j) + 1
  | .read => 7 * (m - w.j)
  | .write => 7 * (m - w.j) - 1
  | .sleep => 7 * (m - w.j) - 2
  | .unlock => 7 * (m - w.j) - 3
  | .incr => 7 * (m - w.j) - 4
  | .done => 1
  | .dead => 0

/-- Relation between the caller's program point, its loop variable and the
goroutines started so far. -/
def MainOK (s : State) : Prop :=
  match s.pc with
  | .loopTest => s.workers.length = s.i ∧ s.i ≤ 10
  | .add | .go => s.workers.length = s.i ∧ s.i < 10
  | .incr => s.workers.length = s.i + 1 ∧ s.i < 10
  | .wait => s.workers.length = 10 ∧ s.i = 10
  | .print | .ret => s.workers.length = 10 ∧ s.i = 10 ∧ s.wg = 0

/-- Statements the caller still has to execute, with those of the workers it
has yet to start. -/
def mainRemaining (m : Int) (s : State) : Int :=
  match s.pc with
  | .loopTest => (10 - (s.i : Int)) * (7 * m + 6) + 3
  | .add => (10 - (s.i : Int)) * (7 * m + 6) + 2
  | .go => (10 - (s.i : Int)) * (7 * m + 6) + 1
  | .incr => (10 - (s.i : Int)) * (7 * m + 6) - (7 * m + 2)
  | .wait => 2
  | .print => 1
  | .ret => 0

/-- Statements left in the whole call. -/
def measure (m : Int) (s : State) : Int :=
  mainRemaining m s + (s.workers.map (remaining m)).sum

/-- Invariant of a call entered with counter value `c0` and output `out0`, `m`
being the loop bound of the workers. -/
def Inv (m c0 : Int) (out0 : List Event) (s : State) : Prop :=
  s.panicked = false ∧
  (s.workers.map holds).sum = (if s.g.mutexExample then 1 else 0) ∧
  s.g.counterExample.value = wrap64 (c0 + (s.workers.map completed).sum) ∧
  (∀ w ∈ s.workers, WorkerOK m w) ∧
  (∀ w ∈ s.workers, w.pc = .write → w.tmp = s.g.counterExample.value) ∧
  s.wg = (s.workers.map alive).sum + (if s.pc = .go then 1 else 0) ∧
  MainOK s ∧
  s.out = (if s.pc = .ret then out0 ++ [.count (wrap64 (c0 + 10 * m))] else out0)

end testConcurrencyMethod1

end PerformanceExamples

namespace PerformanceExamples

namespace testConcurrencyMethod2

/-- One when the worker is between `Lock` and `Unlock`, else zero. -/
def holds (w : Worker) : Nat :=
  match w.pc with
  | .read | .write | .sleep | .unlock => 1
  | _ => 0

/-- Increments the worker has stored so far. -/
def completed (w : Worker) : Int :=
  match w.pc with
  | .sleep | .unlock | .incr => w.j + 1
  | _ => w.j

/-- One until the worker has called `wg.Done`, else zero. -/
def alive (w : Worker) : Nat :=
  match w.pc with
  | .dead => 0
  | _ => 1

/-- Range of the locals at each program point, `m` being the loop bound. -/
def WorkerOK (m : Int) (w : Worker) : Prop :=
  match w.pc with
  | .loopTest => 0 ≤ w.j ∧ w.j ≤ m
  | .write => 0 ≤ w.j ∧ w.j < m ∧ w.tmp = w.j
  | .done | .dead => w.j = m
  | _ => 0 ≤ w.j ∧ w.j < m

/-- Statements the worker still has to execute. -/
def remaining (m : Int) (w : Worker) : Int :=
  match w.pc with
  | .loopTest => 7 * (m - w.j) + 2
  | .lock => 7 * (m - w.j) + 1
  | .read => 7 * (m - w.j)
  | .write => 7 * (m - w.j) - 1
  | .sleep => 7 * (m - w.j) - 2
  | .unlock => 7 * (m - w.j) - 3
  | .incr => 7 * (m - w.j) - 4
  | .done => 1
  | .dead => 0

/-- Increments stored by the worker started `k`-th, 0 when it has not started. -/
def completedAt (ws : List Worker) (k : Nat) : Int :=
  match ws[k]? with
  | some w => completed w
  | none => 0

/-- Whether the worker started `k`-th is between `Lock` and `Unlock`. -/
def holdsAt (ws : List Worker) (k : Nat) : Bool :=
  match ws[k]? with
  | some w => decide (holds w = 1)
  | none => false

/-- Relation between the caller's program point, its locals and the goroutines
started so far. -/
def MainOK (m : Int) (s : State) : Prop :=
  match s.pc with
  | .loopTest => s.workers.length = s.i ∧ s.i ≤ 10
  | .add | .go => s.workers.length = s.i ∧ s.i < 10
  | .incr => s.workers.length = s.i + 1 ∧ s.i < 10
  | .wait => s.workers.length = 10 ∧ s.i = 10
  | .sumInit => s.workers.length = 10 ∧ s.wg = 0
  | .sumTest => s.workers.length = 10 ∧ s.wg = 0 ∧ s.i ≤ 10 ∧ s.total = s.i * m
  | .sumAdd => s.workers.length = 10 ∧ s.wg = 0 ∧ s.i < 10 ∧ s.total = s.i * m
  | .sumIncr => s.workers.length = 10 ∧ s.wg = 0 ∧ s.i < 10 ∧ s.total = (s.i + 1) * m
  | .print | .ret => s.workers.length = 10 ∧ s.wg = 0 ∧ s.total = 10 * m

/-- Statements the caller still has to execute, with those of the workers it
has yet to start. -/
def mainRemaining (m : Int) (s : State) : Int :=
  match s.pc with
  | .loopTest => (10 - (s.i : Int)) * (7 * m + 6) + 35
  | .add => (10 - (s.i : Int)) * (7 * m + 6) + 34
  | .go => (10 - (s.i : Int)) * (7 * m + 6) + 33
  | .incr => (10 - (s.i : Int)) * (7 * m + 6) + 32 - (7 * m + 2)
  | .wait => 34
  | .sumInit => 33
  | .sumTest => 3 * (10 - (s.i : Int)) + 2
  | .sumAdd => 3 * (10 - (s.i : Int)) + 1
  | .sumIncr => 3 * (10 - (s.i : Int))
  | .print => 1
  | .ret => 0

/-- Statements left in the whole call. -/
def measure (m : Int) (s : State) : Int :=
  mainRemaining m s + (s.workers.map (remaining m)).sum

/-- Invariant of a call entered with globals `g0` and output `out0`, `m` being
the loop bound of the workers. -/
def Inv (m : Int) (g0 : Globals) (out0 : List Event) (s : State) : Prop :=
  s.panicked = false ∧
  s.g = g0 ∧
  s.counters.length = 10 ∧
  s.mutexes.length = 10 ∧
  (∀ (k : Nat) (w : Worker), s.workers[k]? = some w → w.id = k) ∧
  (∀ (k : Nat) (c : CounterExample), s.counters[k]? = some c → c.value = completedAt s.workers k) ∧
  (∀ (k : Nat) (b : Bool), s.mutexes[k]? = some b → b = holdsAt s.workers k) ∧
  (∀ w ∈ s.workers, WorkerOK m w) ∧
  s.wg = (s.workers.map alive).sum + (if s.pc = .go then 1 else 0) ∧
  MainOK m s ∧
  s.out = (if s.pc = .ret then out0 ++ [.count (10 * m)] else out0)

end testConcurrencyMethod2

end PerformanceExamples

namespace PerformanceExamples

namespace testConcurrencyMethod3

/-- Values the producer has sent so far. -/
def sent (w : Worker) : Int :=
  match w.pc with
  | .sleep | .incr => w.j + 1
  | _ => w.j

/-- One until the producer has called `wg.Done`, else zero. -/
def alive (w : Worker) : Nat :=
  match w.pc with
  | .dead => 0
  | _ => 1

/-- Range of the loop variable at each program point, `m` being the loop bound. -/
def WorkerOK (m : Int) (w : Worker) : Prop :=
  match w.pc with
  | .loopTest => 0 ≤ w.j ∧ w.j ≤ m
  | .done | .dead => w.j = m
  | _ => 0 ≤ w.j ∧ w.j < m

/-- Statements the producer still has to execute, with the two statements the
aggregator spends on each value still to be sent. -/
def remaining (m : Int) (w : Worker) : Int :=
  match w.pc with
  | .loopTest => 6 * (m - w.j) + 2
  | .send => 6 * (m - w.j) + 1
  | .sleep => 6 * (m - w.j) - 2
  | .incr => 6 * (m - w.j) - 3
  | .done => 1
  | .dead => 0

/-- What the aggregator has received so far, the value not yet added included. -/
def received (a : Option Agg) : Int :=
  match a with
  | none => 0
  | some a => a.total + (if a.pc = .add then a.inc else 0)

/-- Statements the aggregator still has to execute on an empty channel. -/
def aggRemaining (a : Option Agg) : Int :=
  match a with
  | none => 3
  | some a =>
    match a.pc with
    | .recv => 3
    | .add => 4
    | .print => 2
    | .sendDone => 1
    | .dead => 0

/-- Relation between the caller's program point, its loop variable, the channel
and the goroutines started so far; `n` is the argument `iterations`. -/
def MainOK (n : Int) (s : State) : Prop :=
  match s.pc with
  | .mkInc =>
    s.workers = [] ∧ s.i = 0 ∧ s.wg = 0 ∧ s.agg = none ∧ s.increments.buf = [] ∧
      s.increments.closed = false
  | .mkDone | .goAgg =>
    s.workers = [] ∧ s.i = 0 ∧ s.wg = 0 ∧ s.agg = none ∧ s.increments.buf = [] ∧
      s.increments.closed = false ∧ s.increments.cap = n
  | .loopTest =>
    s.workers.length = s.i ∧ s.i ≤ 10 ∧ s.increments.cap = n ∧ s.increments.closed = false ∧
      s.agg.isSome
  | .add | .go =>
    s.workers.length = s.i ∧ s.i < 10 ∧ s.increments.cap = n ∧ s.increments.closed = false ∧
      s.agg.isSome
  | .incr =>
    s.workers.length = s.i + 1 ∧ s.i < 10 ∧ s.increments.cap = n ∧
      s.increments.closed = false ∧ s.agg.isSome
  | .wait =>
    s.workers.length = 10 ∧ s.i = 10 ∧ s.increments.cap = n ∧ s.increments.closed = false ∧
      s.agg.isSome
  | .close =>
    s.workers.length = 10 ∧ s.i = 10 ∧ s.wg = 0 ∧ s.increments.cap = n ∧
      s.increments.closed = false ∧ s.agg.isSome
  | .recvDone | .ret =>
    s.workers.length = 10 ∧ s.i = 10 ∧ s.wg = 0 ∧ s.increments.cap = n ∧
      s.increments.closed = true ∧ s.agg.isSome

/-- What holds at each program point of the aggregator, `m` being the loop
bound of the producers and `out0` the output on entry. -/
def AggOK (m : Int) (out0 : List Event) (s : State) : Prop :=
  match s.agg with
  | none => s.out = out0
  | some a =>
    0 ≤ a.total ∧
    match a.pc with
    | .recv => s.out = out0
    | .add => a.inc = 1 ∧ s.out = out0
    | .print =>
      s.increments.closed = true ∧ s.increments.buf = [] ∧ a.total = 10 * m ∧ s.out = out0
    | .sendDone | .dead =>
      s.increments.closed = true ∧ s.increments.buf = [] ∧ a.total = 10 * m ∧
        s.out = out0 ++ [.count (10 * m)]

/-- Whether the aggregator has completed its send on `done`. -/
def aggDead (a : Option Agg) : Bool :=
  match a with
  | none => false
  | some a => decide (a.pc = .dead)

/-- Statements the caller still has to execute, with those of the producers it
has yet to start. -/
def mainRemaining (m : Int) (s : State) : Int :=
  match s.pc with
  | .mkInc => 10 * (6 * m + 6) + 6
  | .mkDone => 10 * (6 * m + 6) + 5
  | .goAgg => 10 * (6 * m + 6) + 4
  | .loopTest => (10 - (s.i : Int)) * (6 * m + 6) + 3
  | .add => (10 - (s.i : Int)) * (6 * m + 6) + 2
  | .go => (10 - (s.i : Int)) * (6 * m + 6) + 1
  | .incr => (10 - (s.i : Int)) * (6 * m + 6) - (6 * m + 2)
  | .wait => 2
  | .close => 1
  | .recvDone => 0
  | .ret => 0

/-- Statements left in the whole call. -/
def measure (m : Int) (s : State) : Int :=
  mainRemaining m s + (s.workers.map (remaining m)).sum + aggRemaining s.agg
    + 2 * s.increments.buf.length

/-- Invariant of a call with argument `n`, entered with globals `g0` and output
`out0`, `m` being the loop bound of the producers. -/
def Inv (n m : Int) (g0 : Globals) (out0 : List Event) (s : State) : Prop :=
  s.panicked = false ∧
  s.g = g0 ∧
  (∀ v ∈ s.increments.buf, v = 1) ∧
  received s.agg + s.increments.buf.length = (s.workers.map sent).sum ∧
  (∀ w ∈ s.workers, WorkerOK m w) ∧
  s.wg = (s.workers.map alive).sum + (if s.pc = .go then 1 else 0) ∧
  MainOK n s ∧
  AggOK m out0 s ∧
  (s.pc = .ret ↔ aggDead s.agg = true)

end testConcurrencyMethod3

end PerformanceExamples

namespace PerformanceExamples

/-- Total correctness of a transition system started in `s0` under every
schedule: an execution has at most `bound` steps, a state that has not
returned can take a step, a state that has returned satisfies `post`, and some
schedule does reach a state that has returned. -/
def AlwaysReturns {σ : Type} (step : σ → Tid → Option σ) (s0 : σ) (returned : σ → Prop)
    (post : σ → Prop) (bound : Int) : Prop :=
  (∀ (sched : List Tid) (s : σ), runSchedule step s0 sched = some s →
      (sched.length : Int) ≤ bound ∧ (returned s → post s) ∧
      (¬ returned s → ∃ t s1, step s t = some s1)) ∧
  ∃ (sched : List Tid) (s : σ), runSchedule step s0 sched = some s ∧ returned s

/-- A property of every state that some schedule reaches from `s0`. -/
def Always {σ : Type} (step : σ → Tid → Option σ) (s0 : σ) (P : σ → Prop) : Prop :=
  ∀ (sched : List Tid) (s : σ), runSchedule step s0 sched = some s → P s

namespace testConcurrencyMethod2

/-- Whether the caller is past `wg.Wait()` (source line 91). -/
def afterWait (pc : MPc) : Bool :=
  match pc with
  | .sumInit | .sumTest | .sumAdd | .sumIncr | .print | .ret => true
  | _ => false

end testConcurrencyMethod2

namespace testConcurrencyMethod3

/-- The three states of the shutdown handshake. -/
inductive Phase where
  | sending
  | draining
  | done
deriving DecidableEq

/-- The state of the handshake: `done` once the function has returned,
`draining` once `increments` is closed, `sending` before. -/
def phase (s : State) : Phase :=
  if s.pc = .ret then .done
  else if s.increments.closed then .draining
  else .sending

end testConcurrencyMethod3

namespace RunConcurrencyExample

/-- Everything one call prints when each strategy reports 1000000. -/
def expected : List Event :=
  [.banner, .count 1000000, .elapsed 1, .count 1000000, .elapsed 2, .count 1000000, .elapsed 3]

/-- Position in the driver: the statements of `RunConcurrencyExample` in source
order, a call in progress counting as one position. -/
def stage (d : State) : Nat :=
  match d with
  | .top .println _ _ => 0
  | .top .call1 _ _ => 1
  | .in1 _ => 2
  | .top .printf1 _ _ => 3
  | .top .reset _ _ => 4
  | .top .call2 _ _ => 5
  | .in2 _ => 6
  | .top .printf2 _ _ => 7
  | .top .call3 _ _ => 8
  | .in3 _ => 9
  | .top .printf3 _ _ => 10
  | .top .ret _ _ => 11

/-- What has been printed so far. -/
def output (d : State) : List Event :=
  match d with
  | .top _ _ out => out
  | .in1 s => s.out
  | .in2 s => s.out
  | .in3 s => s.out

/-- What can have been printed at each position of the driver. -/
def outputAt (k : Nat) : List (List Event) :=
  match k with
  | 0 => [[]]
  | 1 => [expected.take 1]
  | 2 => [expected.take 1, expected.take 2]
  | 3 => [expected.take 2]
  | 4 => [expected.take 3]
  | 5 => [expected.take 3]
  | 6 => [expected.take 3, expected.take 4]
  | 7 => [expected.take 4]
  | 8 => [expected.take 5]
  | 9 => [expected.take 5, expected.take 6]
  | 10 => [expected.take 6]
  | _ => [expected]

/-- Whether `RunConcurrencyExample` has returned. -/
def returned (d : State) : Prop :=
  match d with
  | .top .ret _ _ => True
  | _ => False

/-- Invariant of a call entered with both package-level variables at their
zero value. -/
def Inv (d : State) : Prop :=
  match d with
  | .top pc g out =>
    match pc with
    | .println => g = ⟨false, ⟨0⟩⟩ ∧ out = []
    | .call1 => g = ⟨false, ⟨0⟩⟩ ∧ out = expected.take 1
    | .printf1 => g = ⟨false, ⟨1000000⟩⟩ ∧ out = expected.take 2
    | .reset => g = ⟨false, ⟨1000000⟩⟩ ∧ out = expected.take 3
    | .call2 => g = ⟨false, ⟨0⟩⟩ ∧ out = expected.take 3
    | .printf2 => g = ⟨false, ⟨0⟩⟩ ∧ out = expected.take 4
    | .call3 => g = ⟨false, ⟨0⟩⟩ ∧ out = expected.take 5
    | .printf3 => g = ⟨false, ⟨0⟩⟩ ∧ out = expected.take 6
    | .ret => g = ⟨false, ⟨0⟩⟩ ∧ out = expected
  | .in1 s => testConcurrencyMethod1.Inv 100000 0 (expected.take 1) s
  | .in2 s => testConcurrencyMethod2.Inv 100000 ⟨false, ⟨0⟩⟩ (expected.take 3) s
  | .in3 s => testConcurrencyMethod3.Inv 1000000 100000 ⟨false, ⟨0⟩⟩ (expected.take 5) s

/-- Statements left in the whole call. -/
def measure (d : State) : Int :=
  match d with
  | .top pc _ _ =>
    match pc with
    | .println => 20000238
    | .call1 => 20000237
    | .printf1 => 13000172
    | .reset => 13000171
    | .call2 => 13000170
    | .printf2 => 6000073
    | .call3 => 6000072
    | .printf3 => 1
    | .ret => 0
  | .in1 s => testConcurrencyMethod1.measure 100000 s + 13000173
  | .in2 s => testConcurrencyMethod2.measure 100000 s + 6000074
  | .in3 s => testConcurrencyMethod3.measure 100000 s + 2

end RunConcurrencyExample

end PerformanceExamples

/-! # Loyalty score (`code_smells_examples/feature_envy.go`)

`float64` values are read as exact rationals, `time.Time` values are nanoseconds
since the epoch, and `clock k` is the `k`-th reading of the clock during a call
(`time.Now`, `time.Since`). -/

namespace CodeSmells

/-- The zero `time.Time` (January 1, year 1, 00:00:00 UTC) in nanoseconds since the
epoch; `t.IsZero()` is `t = zeroTime`. -/
def zeroTime : Int := -62135596800000000000

namespace FeatureEnvy

/-- Source: `type User struct` (lines 10-24). -/
structure User where
  ID : String
  Name : String
  Email : String
  Address : String
  City : String
  State : String
  ZipCode : String
  Country : String
  PhoneNumber : String
  RegistrationDate : Int
  LastLoginDate : Int
  TotalOrders : Int
  TotalSpent : ℚ

/-- Source: `type OrderItem struct` (lines 38-43). -/
structure OrderItem where
  ProductID : String
  ProductName : String
  Quantity : Int
  UnitPrice : ℚ

/-- Source: `type Order struct` (lines 27-35). -/
structure Order where
  ID : String
  UserID : String
  Items : List OrderItem
  OrderDate : Int
  Status : String
  ShippingCost : ℚ
  TaxAmount : ℚ

/-- The loop of lines 60-65: the date kept after the orders have been visited,
starting from `most`. -/
def mostRecentOrderDate (user : User) (orders : List Order) (most : Int) : Int :=
  orders.foldl
    (fun most order =>
      if order.UserID = user.ID ∧ (most = zeroTime ∨ order.OrderDate > most) then order.OrderDate
      else most)
    most

/-- The recency bonus of lines 68-87 for the date found by the loop. -/
def recencyScore (clock : Nat → Int) (mostRecent : Int) : ℚ :=
  if mostRecent ≠ zeroTime then
    let daysSinceLastOrder := hoursSince (clock 1) mostRecent / 24
    if daysSinceLastOrder < 30 then 20
    else if daysSinceLastOrder < 90 then 10
    else if daysSinceLastOrder < 180 then 0
    else if daysSinceLastOrder < 365 then -10
    else -20
  else 0

/-- The sum of line 90, before the clamp of line 93. -/
def totalScore (clock : Nat → Int) (user : User) (orders : List Order) : ℚ :=
  let daysSinceRegistration := hoursSince (clock 0) user.RegistrationDate / 24
  let registrationScore := min (daysSinceRegistration / 30) 30
  let orderCountScore := min ((user.TotalOrders : ℚ) * 2) 40
  let spendingScore := min (user.TotalSpent / 100) 30
  registrationScore + orderCountScore + spendingScore
    + recencyScore clock (mostRecentOrderDate user orders zeroTime)

/-- Source: `CalculateUserLoyaltyScore` (lines 46-94). -/
def CalculateUserLoyaltyScore (clock : Nat → Int) (user : User) (orders : List Order) : ℚ :=
  max 0 (min (totalScore clock user orders) 100)

end FeatureEnvy

/-! # E-commerce system (`code_smells_examples/large_class.go`)

A Go `map[string]V` is a finite map with pairwise distinct keys; a read of a
missing key gives the zero value of `V`.  The order in which a `range` loop
visits the entries of a map is not fixed by the language: it is the argument
`visit` of the functions that have such a loop.  Every map of the system is
allocated, as `NewECommerceSystem` leaves it.  A slice is the list of its
elements.  An `error` is an `Option Error`, one constructor per message. -/

namespace LargeClass

open PerformanceExamples (wrap64 maxInt)

/-- A Go `map[string]V`. -/
abbrev GoMap (V : Type) := AList (fun _ : String => V)

/-- Source: `type User struct` (lines 60-71). -/
structure User where
  ID : String
  Username : String
  Email : String
  Password : String
  FirstName : String
  LastName : String
  Phone : String
  CreatedAt : Int
  LastLogin : Int
  IsActive : Bool
deriving DecidableEq

/-- Source: `type UserPreference struct` (lines 73-79). -/
structure UserPreference where
  EmailNotifications : Bool
  SMSNotifications : Bool
  LanguagePreference : String
  CurrencyPreference : String
  ThemePreference : String

/-- Source: `type Address struct` (lines 81-89); `Type_` is the field `Type`. -/
structure Address where
  Type_ : String
  Street : String
  City : String
  State : String
  ZipCode : String
  Country : String
  IsDefault : Bool

/-- Source: `type PaymentMethod struct` (lines 91-98); `Type_` is the field `Type`. -/
structure PaymentMethod where
  Type_ : String
  CardNumber : String
  ExpiryDate : String
  CVV : String
  HolderName : String
  IsDefault : Bool

/-- Source: `type Product struct` (lines 101-113). -/
structure Product where
  ID : String
  Name : String
  Description : String
  Price : ℚ
  ImageURL : String
  Weight : ℚ
  Dimensions : String
  SKU : String
  Barcode : String
  CreatedAt : Int
  UpdatedAt : Int

/-- Source: `type Rating struct` (lines 115-120). -/
structure Rating where
  UserID : String
  Score : Int
  Comment : String
  CreatedAt : Int

/-- Source: `type OrderItem struct` (lines 135-140). -/
structure OrderItem where
  ProductID : String
  Quantity : Int
  UnitPrice : ℚ
  TotalPrice : ℚ

/-- Source: `type Order struct` (lines 123-133). -/
structure Order where
  ID : String
  UserID : String
  Products : List OrderItem
  TotalAmount : ℚ
  ShippingAddress : Address
  BillingAddress : Address
  PaymentMethod : PaymentMethod
  CreatedAt : Int
  UpdatedAt : Int

/-- Source: `type ShippingProvider struct` (lines 142-146). -/
structure ShippingProvider where
  Name : String
  TrackingURL : String
  EstimatedDeliveryDays : Int

/-- Source: `type CartItem struct` (lines 156-159). -/
structure CartItem where
  ProductID : String
  Quantity : Int
deriving DecidableEq

/-- Source: `type Cart struct` (lines 149-154). -/
structure Cart where
  UserID : String
  Items : List CartItem
  CreatedAt : Int
  UpdatedAt : Int
deriving DecidableEq

/-- Source: `type Promotion struct` (lines 162-170). -/
structure Promotion where
  ID : String
  Name : String
  Description : String
  Discount : ℚ
  StartDate : Int
  EndDate : Int
  IsActive : Bool

/-- Source: `type Coupon struct` (lines 172-178). -/
structure Coupon where
  Code : String
  Discount : ℚ
  MinPurchase : ℚ
  ExpiryDate : Int
  IsActive : Bool

/-- Source: `type SystemConfig struct` (lines 181-189); `SessionTimeout` in nanoseconds. -/
structure SystemConfig where
  SiteName : String
  SiteURL : String
  AdminEmail : String
  MaxLoginAttempts : Int
  SessionTimeout : Int
  MaintenanceMode : Bool
  DebugMode : Bool

/-- Source: `type Integration struct` (lines 191-196). -/
structure Integration where
  Name : String
  APIEndpoint : String
  APIKey : String
  IsActive : Bool

/-- Source: `type ECommerceSystem struct` (lines 13-57). -/
structure ECommerceSystem where
  Users : GoMap User
  LoggedInUsers : GoMap Bool
  UserSessions : GoMap Int
  FailedLoginAttempts : GoMap Int
  UserPreferences : GoMap UserPreference
  UserAddresses : GoMap (List Address)
  UserPaymentMethods : GoMap (List PaymentMethod)
  Products : GoMap Product
  ProductCategories : GoMap (List String)
  ProductInventory : GoMap Int
  ProductRatings : GoMap (List Rating)
  FeaturedProducts : List String
  DiscountedProducts : GoMap ℚ
  Orders : GoMap Order
  OrderStatuses : GoMap String
  ShippingProviders : GoMap ShippingProvider
  ShippingRates : GoMap ℚ
  Carts : GoMap Cart
  SavedForLater : GoMap (List String)
  AbandonedCarts : GoMap Int
  Promotions : GoMap Promotion
  CouponCodes : GoMap Coupon
  LoyaltyPoints : GoMap Int
  Configuration : SystemConfig
  APIKeys : GoMap String
  ThirdPartyIntegrations : GoMap Integration
  PageViews : GoMap Int
  ProductViews : GoMap Int
  SearchQueries : GoMap Int
  ConversionRates : GoMap ℚ

/-- The messages of the `fmt.Errorf` calls of lines 242-584. -/
inductive Error where
  /-- Message "用户名已存在" (line 247) -/
  | usernameExists
  /-- Message "邮箱已被注册" (line 250) -/
  | emailRegistered
  /-- Message "用户不存在" (lines 301, 379, 431, 543) -/
  | userNotFound
  /-- Message "账户已被禁用" (line 306) -/
  | accountDisabled
  /-- Message "登录失败次数过多，账户已被锁定" (line 311) -/
  | accountLocked
  /-- Message "密码错误" (line 317) -/
  | wrongPassword
  /-- Message "产品不存在" (line 384) -/
  | productNotFound
  /-- Message "库存不足" (line 389) -/
  | insufficientStock
  /-- Message "购物车为空" (lines 437, 565) -/
  | cartEmpty
  /-- Message "送货地址不存在" (line 457) -/
  | shippingAddressNotFound
  /-- Message "账单地址不存在" (line 460) -/
  | billingAddressNotFound
  /-- Message "支付方式不存在" (line 477) -/
  | paymentMethodNotFound
  /-- Message "产品 %s 库存不足" with the product's name (line 489) -/
  | productOutOfStock (name : String)
  /-- Message "优惠券不存在" (line 549) -/
  | couponNotFound
  /-- Message "优惠券已失效" (line 554) -/
  | couponInactive
  /-- Message "优惠券已过期" (line 559) -/
  | couponExpired
  /-- Message "未达到优惠券最低购买金额 %.2f" with the coupon's minimum (line 577) -/
  | belowMinPurchase (minPurchase : ℚ)
deriving DecidableEq

/-- Source: `NewECommerceSystem` (lines 199-240). -/
def NewECommerceSystem : ECommerceSystem where
  Users := ∅
  LoggedInUsers := ∅
  UserSessions := ∅
  FailedLoginAttempts := ∅
  UserPreferences := ∅
  UserAddresses := ∅
  UserPaymentMethods := ∅
  Products := ∅
  ProductCategories := ∅
  ProductInventory := ∅
  ProductRatings := ∅
  FeaturedProducts := []
  DiscountedProducts := ∅
  Orders := ∅
  OrderStatuses := ∅
  ShippingProviders := ∅
  ShippingRates := ∅
  Carts := ∅
  SavedForLater := ∅
  AbandonedCarts := ∅
  Promotions := ∅
  CouponCodes := ∅
  LoyaltyPoints := ∅
  APIKeys := ∅
  ThirdPartyIntegrations := ∅
  PageViews := ∅
  ProductViews := ∅
  SearchQueries := ∅
  ConversionRates := ∅
  Configuration :=
    { SiteName := "我的电子商务网站"
      SiteURL := "https://myecommerce.com"
      AdminEmail := "admin@myecommerce.com"
      MaxLoginAttempts := 5
      SessionTimeout := 24 * 3600000000000
      MaintenanceMode := false
      DebugMode := true }

/-- The value read from a map of `int` at a key, 0 when the key is missing. -/
def intAt (m : GoMap Int) (k : String) : Int := (m.lookup k).getD 0

/-- Source: `RegisterUser` (lines 243-282).  `visit` is the order in which the loop
of line 245 visits the entries of `e.Users`. -/
def RegisterUser (visit : List (Σ _ : String, User)) (clock : Nat → Int) (e : ECommerceSystem)
    (username email password firstName lastName phone : String) :
    (String × Option Error) × ECommerceSystem :=
  -- lines 245-252
  match visit.findSome? (fun x =>
      if x.2.Username = username then some Error.usernameExists
      else if x.2.Email = email then some Error.emailRegistered
      else none) with
  | some err => (("", some err), e)
  | none =>
    -- line 255
    let userID := "user_" ++ toString (e.Users.entries.length + 1)
    -- lines 256-266
    let user : User :=
      { ID := userID, Username := username, Email := email, Password := password,
        FirstName := firstName, LastName := lastName, Phone := phone,
        CreatedAt := clock 0, LastLogin := zeroTime, IsActive := true }
    let e := { e with Users := e.Users.insert userID user }
    -- lines 269-275
    let preference : UserPreference :=
      { EmailNotifications := true, SMSNotifications := false, LanguagePreference := "zh-CN",
        CurrencyPreference := "CNY", ThemePreference := "default" }
    let e := { e with UserPreferences := e.UserPreferences.insert userID preference }
    -- lines 277-279
    let e := { e with UserAddresses := e.UserAddresses.insert userID [] }
    let e := { e with UserPaymentMethods := e.UserPaymentMethods.insert userID [] }
    let e := { e with LoyaltyPoints := e.LoyaltyPoints.insert userID 100 }
    ((userID, none), e)

/-- Source: `Login` (lines 285-332).  `visit` is the order in which the loop of
line 291 visits the entries of `e.Users`. -/
def Login (visit : List (Σ _ : String, User)) (clock : Nat → Int) (e : ECommerceSystem)
    (usernameOrEmail password : String) : (String × Option Error) × ECommerceSystem :=
  -- lines 291-302
  match visit.find? (fun x => x.2.Username = usernameOrEmail ∨ x.2.Email = usernameOrEmail) with
  | none => (("", some Error.userNotFound), e)
  | some ⟨userID, user⟩ =>
    -- lines 305-307
    if ¬ user.IsActive then (("", some Error.accountDisabled), e)
    -- lines 310-312
    else if intAt e.FailedLoginAttempts userID ≥ e.Configuration.MaxLoginAttempts then
      (("", some Error.accountLocked), e)
    -- lines 315-318
    else if user.Password ≠ password then
      let attempts := wrap64 (intAt e.FailedLoginAttempts userID + 1)
      (("", some Error.wrongPassword),
       { e with FailedLoginAttempts := e.FailedLoginAttempts.insert userID attempts })
    else
      -- line 321
      let e := { e with FailedLoginAttempts := e.FailedLoginAttempts.insert userID 0 }
      -- lines 324-325
      let e := { e with LoggedInUsers := e.LoggedInUsers.insert userID true }
      let session := clock 0 + e.Configuration.SessionTimeout
      let e := { e with UserSessions := e.UserSessions.insert userID session }
      -- lines 328-329
      let user := { user with LastLogin := clock 1 }
      let e := { e with Users := e.Users.insert userID user }
      ((userID, none), e)

/-- The loop of lines 405-411: the items with the quantity of the first item for
`productID` raised by `quantity`, or `none` when no item is for `productID`. -/
def addQuantity (productID : String) (quantity : Int) : List CartItem → Option (List CartItem)
  | [] => none
  | item :: rest =>
    if item.ProductID = productID then
      some ({ item with Quantity := wrap64 (item.Quantity + quantity) } :: rest)
    else (addQuantity productID quantity rest).map (fun l => item :: l)

/-- Source: `AddToCart` (lines 376-425). -/
def AddToCart (clock : Nat → Int) (e : ECommerceSystem) (userID productID : String)
    (quantity : Int) : Option Error × ECommerceSystem :=
  -- lines 378-380
  if (e.Users.lookup userID).isNone then (some Error.userNotFound, e)
  -- lines 383-385
  else if (e.Products.lookup productID).isNone then (some Error.productNotFound, e)
  -- lines 388-390
  else if intAt e.ProductInventory productID < quantity then (some Error.insufficientStock, e)
  else
    -- lines 393-401: the cart, and the number of clock readings so far
    let (cart, k) : Cart × Nat :=
      match e.Carts.lookup userID with
      | some cart => (cart, 0)
      | none => ({ UserID := userID, Items := [], CreatedAt := clock 0, UpdatedAt := clock 1 }, 2)
    -- lines 404-419
    let items :=
      match addQuantity productID quantity cart.Items with
      | some items => items
      | none => cart.Items ++ [{ ProductID := productID, Quantity := quantity }]
    -- lines 421-424
    let cart := { cart with Items := items, UpdatedAt := clock k }
    (none, { e with Carts := e.Carts.insert userID cart })

/-- Go's conversion `int(f)` of a `float64`: the fraction is dropped; outside the
range of an `int` the result is the smallest `int` (as on amd64). -/
def floatToInt (f : ℚ) : Int :=
  let t := Int.tdiv f.num f.den
  if -9223372036854775808 ≤ t ∧ t ≤ maxInt then t else -9223372036854775808

/-- The zero value of `Product`. -/
def Product.zero : Product := ⟨"", "", "", 0, "", 0, "", "", "", zeroTime, zeroTime⟩

/-- The loop of lines 445-454 for one of the two identifiers: the last address of
that type, if there is one. -/
def findAddress (addressID : String) (userAddresses : List Address) : Option Address :=
  userAddresses.foldl (fun found addr => if addr.Type_ = addressID then some addr else found) none

/-- The loop of lines 484-511 from the inventory `inventory`, with the order items
and the total built so far: the error of line 489 or the finished order items and
total, and in both cases the inventory as the loop leaves it. -/
def orderLoop (e : ECommerceSystem) :
    List CartItem → GoMap Int → List OrderItem → ℚ →
      (Error ⊕ (List OrderItem × ℚ)) × GoMap Int
  | [], inventory, orderItems, totalAmount => (Sum.inr (orderItems, totalAmount), inventory)
  | item :: rest, inventory, orderItems, totalAmount =>
    let product := (e.Products.lookup item.ProductID).getD Product.zero
    if intAt inventory item.ProductID < item.Quantity then
      (Sum.inl (Error.productOutOfStock product.Name), inventory)
    else
      let unitPrice := product.Price
      let unitPrice :=
        match e.DiscountedProducts.lookup item.ProductID with
        | some discount => unitPrice * (1 - discount)
        | none => unitPrice
      let totalPrice := unitPrice * (item.Quantity : ℚ)
      orderLoop e rest
        (inventory.insert item.ProductID (wrap64 (intAt inventory item.ProductID - item.Quantity)))
        (orderItems ++ [{ ProductID := item.ProductID, Quantity := item.Quantity,
                          UnitPrice := unitPrice, TotalPrice := totalPrice }])
        (totalAmount + totalPrice)

/-- Source: `CreateOrder` (lines 428-537). -/
def CreateOrder (clock : Nat → Int) (e : ECommerceSystem)
    (userID shippingAddressID billingAddressID paymentMethodID : String) :
    (String × Option Error) × ECommerceSystem :=
  -- lines 430-432
  if (e.Users.lookup userID).isNone then (("", some Error.userNotFound), e)
  else
    -- lines 435-438
    match e.Carts.lookup userID with
    | none => (("", some Error.cartEmpty), e)
    | some cart =>
      if cart.Items.length = 0 then (("", some Error.cartEmpty), e)
      else
        -- lines 441-461
        let userAddresses := (e.UserAddresses.lookup userID).getD []
        match findAddress shippingAddressID userAddresses with
        | none => (("", some Error.shippingAddressNotFound), e)
        | some shippingAddress =>
          match findAddress billingAddressID userAddresses with
          | none => (("", some Error.billingAddressNotFound), e)
          | some billingAddress =>
            -- lines 464-478
            let userPaymentMethods := (e.UserPaymentMethods.lookup userID).getD []
            match userPaymentMethods.find? (fun pm => pm.Type_ = paymentMethodID) with
            | none => (("", some Error.paymentMethodNotFound), e)
            | some paymentMethod =>
              -- lines 481-511
              match orderLoop e cart.Items e.ProductInventory [] 0 with
              | (Sum.inl err, inventory) => (("", some err), { e with ProductInventory := inventory })
              | (Sum.inr (orderItems, totalAmount), inventory) =>
                let e := { e with ProductInventory := inventory }
                -- lines 514-525
                let orderID := "order_" ++ toString (e.Orders.entries.length + 1)
                let order : Order :=
                  { ID := orderID, UserID := userID, Products := orderItems,
                    TotalAmount := totalAmount, ShippingAddress := shippingAddress,
                    BillingAddress := billingAddress, PaymentMethod := paymentMethod,
                    CreatedAt := clock 0, UpdatedAt := clock 1 }
                let e := { e with Orders := e.Orders.insert orderID order }
                -- line 528
                let e := { e with OrderStatuses := e.OrderStatuses.insert orderID "已创建" }
                -- line 531
                let e := { e with Carts := e.Carts.erase userID }
                -- line 534
                let points := wrap64 (intAt e.LoyaltyPoints userID + floatToInt (totalAmount / 10))
                let e := { e with LoyaltyPoints := e.LoyaltyPoints.insert userID points }
                ((orderID, none), e)

/-! ## `float64` arithmetic

`ApplyCoupon` computes with `float64`: IEEE 754 binary64 with rounding to
nearest, ties to even.  A `float64` field of the system holds a finite value and
is kept in the structures above as the rational number it is; `F64.ofRat` reads
it (it is exact on a value that a `float64` can hold). -/

/-- A `float64` value: the finite value `(-1)^neg * m * 2^e`, an infinity or a
NaN.  The operations below produce finite values in canonical form:
`m < 2^53`, `-1074 ≤ e ≤ 971`, and `2^52 ≤ m` unless `e = -1074`. -/
inductive F64 where
  | finite (neg : Bool) (m : Nat) (e : Int)
  | inf (neg : Bool)
  | nan
deriving DecidableEq

namespace F64

/-- The value `+0`. -/
def zero : F64 := .finite false 0 (-1074)

/-- Number of binary digits of `n`, for `n < 2 ^ fuel`. -/
def bitLength : Nat → Nat → Nat
  | 0, _ => 0
  | fuel + 1, n => if n = 0 then 0 else bitLength fuel (n / 2) + 1

/-- Rounding to nearest, ties to even, of the exact value `(-1)^neg * M * 2^E`:
`e` is the exponent of the last place of the result, `q` and `r` are `M` without
its `e - E` lowest bits and these bits; a value of `2^1024` or more in
magnitude, after rounding, is an infinity.  `M <<< k` is `M * 2^k` and `M >>> k`
is `M / 2^k`. -/
def round (neg : Bool) (M : Nat) (E : Int) : F64 :=
  if M = 0 then .finite neg 0 (-1074)
  else
    let e := max (E + (bitLength M M : Int) - 53) (-1074)
    if e ≤ E then
      if 971 < e then .inf neg else .finite neg (M <<< (E - e).toNat) e
    else
      let k := (e - E).toNat
      let q := M >>> k
      let r := M % (1 <<< k)
      let half := 1 <<< (k - 1)
      let m := if r < half then q else if half < r then q + 1 else if q % 2 = 0 then q else q + 1
      if m = 2 ^ 53 then
        if 971 < e + 1 then .inf neg else .finite neg (2 ^ 52) (e + 1)
      else if 971 < e then .inf neg
      else .finite neg m e

/-- The exact value of a finite `float64` as an integer multiple of `2^g`, for
`g ≤ e`. -/
def scaled (neg : Bool) (m : Nat) (e g : Int) : Int :=
  if neg then -((m <<< (e - g).toNat : Nat) : Int) else ((m <<< (e - g).toNat : Nat) : Int)

/-- The conversion `float64(n)` of an `int`. -/
def ofInt (n : Int) : F64 := round (decide (n < 0)) n.natAbs 0

/-- The `float64` nearest to a rational number (ties to even): the number is a
multiple of `2^(-1077)` or lies strictly between two consecutive ones, and an
odd last bit records the latter case.  `n` is `q.num.natAbs * 2^1077`. -/
def ofRat (q : ℚ) : F64 :=
  let n := q.num.natAbs <<< 1077
  round (decide (q.num < 0)) (2 * (n / q.den) + (if n % q.den = 0 then 0 else 1)) (-1078)

/-- The product `x * y`. -/
def mul : F64 → F64 → F64
  | .nan, _ => .nan
  | _, .nan => .nan
  | .inf s, .inf t => .inf (s != t)
  | .inf s, .finite t m _ => if m = 0 then .nan else .inf (s != t)
  | .finite s m _, .inf t => if m = 0 then .nan else .inf (s != t)
  | .finite s m e, .finite t n f => round (s != t) (m * n) (e + f)

/-- The sum `x + y`. -/
def add : F64 → F64 → F64
  | .nan, _ => .nan
  | _, .nan => .nan
  | .inf s, .inf t => if s = t then .inf s else .nan
  | .inf s, .finite _ _ _ => .inf s
  | .finite _ _ _, .inf t => .inf t
  | .finite s m e, .finite t n f =>
    let g := min e f
    let c := scaled s m e g + scaled t n f g
    if c = 0 then .finite (s && t) 0 (-1074)
    else round (decide (c < 0)) c.natAbs g

/-- The fused multiply-add `x * y + z`, rounded once. -/
def fma : F64 → F64 → F64 → F64
  | .nan, _, _ => .nan
  | _, .nan, _ => .nan
  | _, _, .nan => .nan
  | .inf s, .inf t, z =>
    match z with
    | .inf u => if (s != t) = u then .inf u else .nan
    | _ => .inf (s != t)
  | .inf s, .finite t m _, z =>
    if m = 0 then .nan
    else
      match z with
      | .inf u => if (s != t) = u then .inf u else .nan
      | _ => .inf (s != t)
  | .finite s m _, .inf t, z =>
    if m = 0 then .nan
    else
      match z with
      | .inf u => if (s != t) = u then .inf u else .nan
      | _ => .inf (s != t)
  | .finite _ _ _, .finite _ _ _, .inf u => .inf u
  | .finite s m e, .finite t n f, .finite u p h =>
    let g := min (e + f) h
    let c := scaled (s != t) (m * n) (e + f) g + scaled u p h g
    if c = 0 then .finite ((s != t) && u) 0 (-1074)
    else round (decide (c < 0)) c.natAbs g

/-- The comparison `x < y`; it is false when an operand is a NaN. -/
def lt : F64 → F64 → Bool
  | .nan, _ => false
  | _, .nan => false
  | .inf s, .inf t => s && !t
  | .inf s, .finite _ _ _ => s
  | .finite _ _ _, .inf t => !t
  | .finite s m e, .finite t n f =>
    let g := min e f
    decide (scaled s m e g < scaled t n f g)

end F64

/-- The loop of lines 570-573: from `0.0`, for each cart item in order,
`totalAmount += product.Price * float64(item.Quantity)`, a product missing from
`e.Products` counting with price 0.  The language lets a compiler fuse the
multiplication and the addition of the statement into one operation with a
single rounding: `fused` tells whether it does. -/
def cartTotal (fused : Bool) (e : ECommerceSystem) (items : List CartItem) : F64 :=
  items.foldl
    (fun totalAmount item =>
      let price := F64.ofRat ((e.Products.lookup item.ProductID).getD Product.zero).Price
      let quantity := F64.ofInt item.Quantity
      if fused then F64.fma price quantity totalAmount
      else F64.add totalAmount (F64.mul price quantity))
    F64.zero

/-- Source: `ApplyCoupon` (lines 540-584); the function has no assignment to the
system, which is returned as it was received. -/
def ApplyCoupon (fused : Bool) (clock : Nat → Int) (e : ECommerceSystem)
    (userID couponCode : String) : (F64 × Option Error) × ECommerceSystem :=
  -- lines 542-544
  if (e.Users.lookup userID).isNone then ((F64.zero, some Error.userNotFound), e)
  else
    -- lines 547-550
    match e.CouponCodes.lookup couponCode with
    | none => ((F64.zero, some Error.couponNotFound), e)
    | some coupon =>
      -- lines 553-555
      if ¬ coupon.IsActive then ((F64.zero, some Error.couponInactive), e)
      -- lines 558-560
      else if clock 0 > coupon.ExpiryDate then ((F64.zero, some Error.couponExpired), e)
      else
        -- lines 563-566
        match e.Carts.lookup userID with
        | none => ((F64.zero, some Error.cartEmpty), e)
        | some cart =>
          if cart.Items.length = 0 then ((F64.zero, some Error.cartEmpty), e)
          else
            -- lines 569-573
            let totalAmount := cartTotal fused e cart.Items
            -- lines 576-578
            if F64.lt totalAmount (F64.ofRat coupon.MinPurchase) then
              ((F64.zero, some (Error.belowMinPurchase coupon.MinPurchase)), e)
            else
              -- lines 581-583
              ((F64.mul totalAmount (F64.ofRat coupon.Discount), none), e)

/-! ## Sequences of `Login` calls -/

/-- One call of `Login`: the order in which its loop visits the users, its clock
and its two arguments. -/
structure LoginCall where
  visit : List (Σ _ : String, User)
  clock : Nat → Int
  usernameOrEmail : String
  password : String

/-- The entry the loop of lines 291-298 stops at: the user the call is for. -/
def LoginCall.target (c : LoginCall) : Option (Σ _ : String, User) :=
  c.visit.find? (fun x => x.2.Username = c.usernameOrEmail ∨ x.2.Email = c.usernameOrEmail)

/-- Result and system after the call. -/
def LoginCall.run (c : LoginCall) (e : ECommerceSystem) :
    (String × Option Error) × ECommerceSystem :=
  Login c.visit c.clock e c.usernameOrEmail c.password

/-- The system after the calls have been made one after the other. -/
def runLogins (e : ECommerceSystem) : List LoginCall → ECommerceSystem
  | [] => e
  | c :: cs => runLogins (c.run e).2 cs

/-! ## Quantities in a cart -/

/-- Quantity of the first cart item for `productID`, 0 when there is none. -/
def quantityIn (productID : String) (items : List CartItem) : Int :=
  match items.find? (fun item => item.ProductID = productID) with
  | some item => item.Quantity
  | none => 0

/-- Sum of the quantities of the cart items for `productID`. -/
def reserved (productID : String) (items : List CartItem) : Int :=
  ((items.filter (fun item => item.ProductID = productID)).map (fun item => item.Quantity)).sum

/-- The cart items for other products than `productID`. -/
def otherItems (productID : String) (items : List CartItem) : List CartItem :=
  items.filter (fun item => item.ProductID ≠ productID)

/-- The items of the cart of `userID`, none when there is no cart. -/
def cartItems (e : ECommerceSystem) (userID : String) : List CartItem :=
  match e.Carts.lookup userID with
  | some cart => cart.Items
  | none => []

/-! ## A sample system -/

/-- The system after "alice" has registered with a new system. -/
def aliceSystem : ECommerceSystem :=
  (RegisterUser [] (fun _ => 0) NewECommerceSystem "alice" "alice@example.com" "secret"
    "Alice" "Li" "13800138000").2

/-- The record stored for "alice". -/
def alice : User :=
  ⟨"user_1", "alice", "alice@example.com", "secret", "Alice", "Li", "13800138000", 0, zeroTime,
    true⟩

/-- A `Login` call for "alice" in `aliceSystem` with the given password. -/
def aliceLogin (password : String) : LoginCall :=
  ⟨aliceSystem.Users.entries, fun _ => 0, "alice", password⟩

/-- The system `aliceSystem` with a product in stock, an address and a payment
method for "alice", after she has put two units of the product in her cart. -/
def shopSystem : ECommerceSystem :=
  (AddToCart (fun _ => 0)
    { aliceSystem with
      Products := AList.singleton "prod_1" ⟨"prod_1", "pen", "", 3, "", 0, "", "sku-1", "", 0, 0⟩
      ProductInventory := AList.singleton "prod_1" 10
      UserAddresses := AList.singleton "user_1" [⟨"home", "", "", "", "", "", true⟩]
      UserPaymentMethods := AList.singleton "user_1" [⟨"card", "", "", "", "", true⟩] }
    "user_1" "prod_1" 2).2

/-- The `float64` nearest to 0.35. -/
def price035 : ℚ := ⟨3152519739159347, 9007199254740992, by decide, by decide⟩

/-- The `float64` nearest to 0.4. -/
def price040 : ℚ := ⟨3602879701896397, 9007199254740992, by decide, by decide⟩

/-- The `float64` nearest to 1.45. -/
def minimum145 : ℚ := ⟨6530219459687219, 4503599627370496, by decide, by decide⟩

/-- The coupon "HALF": half of the total for a purchase of 1.45 or more. -/
def halfCoupon : Coupon := ⟨"HALF", ⟨1, 2, by decide, by decide⟩, minimum145, 100, true⟩

/-- The system `aliceSystem` with two products, at 0.35 and 0.4, the coupon
"HALF" and a cart of "alice" with three units of the first product and one of
the second. -/
def couponSystem : ECommerceSystem :=
  { aliceSystem with
    Products :=
      (AList.singleton "prod_1"
        ⟨"prod_1", "pencil", "", price035, "", 0, "", "sku-1", "", 0, 0⟩).insert "prod_2"
        ⟨"prod_2", "eraser", "", price040, "", 0, "", "sku-2", "", 0, 0⟩
    CouponCodes := AList.singleton "HALF" halfCoupon
    Carts := AList.singleton "user_1" ⟨"user_1", [⟨"prod_1", 3⟩, ⟨"prod_2", 1⟩], 0, 0⟩ }

end LargeClass

end CodeSmells

/-! # Fibonacci (`performance_issues_examples/fibonacci_example.go`)

The recursion runs on a goroutine stack that holds `stack` nested calls of
`fibonacciRecursive`; `none` is the fatal stack overflow of a call that does not
fit.  The loop of the iterative version is run with fuel, the largest number of
times its condition may be evaluated; `none` means that the loop is still
running when the fuel is used up. -/

namespace PerformanceExamples

/-- Source: `fibonacciRecursive` (lines 30-35), on a stack with room for `stack`
nested calls.  The operands of the sum are evaluated from left to right. -/
def fibonacciRecursive : Nat → Int → Option Int
  | 0, _ => none
  | stack + 1, n =>
    if n ≤ 1 then some n
    else
      match fibonacciRecursive stack (n - 1) with
      | none => none
      | some x =>
        match fibonacciRecursive stack (n - 2) with
        | none => none
        | some y => some (wrap64 (x + y))

/-- The sequence the two implementations are compared with; it is not part of
the source: `F n = n` for `n <= 1` and `F n = F (n - 1) + F (n - 2)`, a
64-bit sum, for `n >= 2`. -/
def fibonacciSequence (n : Int) : Int :=
  if n ≤ 1 then n
  else wrap64 (fibonacciSequence (n - 1) + fibonacciSequence (n - 2))
termination_by n.toNat
decreasing_by
  all_goals simp_wf
  all_goals omega

/-- The loop of lines 44-46 of `fibonacciIterative`, entered with the values `i`,
`a`, `b`; the result is the `b` returned at line 48. -/
def fibonacciLoop (n : Int) : Nat → Int → Int → Int → Option Int
  | 0, _, _, _ => none
  | fuel + 1, i, a, b =>
    if i ≤ n then fibonacciLoop n fuel (wrap64 (i + 1)) b (wrap64 (a + b)) else some b

/-- Source: `fibonacciIterative` (lines 38-49). -/
def fibonacciIterative (fuel : Nat) (n : Int) : Option Int :=
  if n ≤ 1 then some n else fibonacciLoop n fuel 2 0 1

/-! # Console entry point (`performance_issues_examples/main.go`)

The function `main` is a transition system like the strategies it runs: once
entered, it has its own goroutine and, inside a call, the goroutines of the
callee.  Whether a process that enters `main` exists at all is the matter of
`goRunCheck` below.  The text
of `counter_example.go` is that of `concurrency_issues.go` with the identifiers
renamed (`RunCounterExample`, `testMethod1..3`, `mutex`, `counter`, `Counter` for
`RunConcurrencyExample`, `testConcurrencyMethod1..3`, `mutexExample`,
`counterExample`, `CounterExample`), so a call of `RunCounterExample` runs the
transition system of `RunConcurrencyExample` on its own two package-level
variables.  The four other example functions (cache, Fibonacci, file and
database) are outside the model: a call of one of them has no step. -/

/-- Source: `printUsage` (lines 36-45): the lines it prints. -/
def printUsage : List String :=
  [ "使用方法: go run main.go <示例名称>",
    "可用示例:",
    "  cache      - 缓存示例",
    "  fibonacci  - 斐波那契数列",
    "  file       - 文件处理",
    "  counter    - 计数器示例",
    "  concurrency - 并发示例",
    "  database   - 数据库示例 (需要SQLite驱动)" ]

/-- The example name listed by a line of the usage text: its first word. -/
def listedName (line : String) : String :=
  String.mk ((line.data.dropWhile (fun c => c = ' ')).takeWhile (fun c => c ≠ ' '))

/-- The example names listed by `printUsage`, one per line after its two heading lines. -/
def listedNames : List String := (printUsage.drop 2).map listedName

namespace main

/-- The functions `main` calls (lines 16-29). -/
inductive Callee where
  /-- line 17 -/
  | RunExample
  /-- line 19 -/
  | RunFibonacciExample
  /-- line 21 -/
  | RunFileExample
  /-- line 23 -/
  | RunCounterExample
  /-- line 25 -/
  | RunConcurrencyExample
  /-- line 29 -/
  | RunDatabaseExample
deriving DecidableEq

/-- The `switch` of lines 15-33: the function called for the value of `example`,
`none` in the `default` case. -/
def selected (name : String) : Option Callee :=
  if name = "cache" then some .RunExample
  else if name = "fibonacci" then some .RunFibonacciExample
  else if name = "file" then some .RunFileExample
  else if name = "counter" then some .RunCounterExample
  else if name = "concurrency" then some .RunConcurrencyExample
  else if name = "database" then some .RunDatabaseExample
  else none

/-- Program counter of `main` outside a call (lines 8-34). -/
inductive Pc where
  /-- line 9, `len(os.Args) < 2` -/
  | argsTest
  /-- lines 10 and 32, `printUsage()` -/
  | usage
  /-- lines 14-15, `example := os.Args[1]` and the `switch` on it -/
  | switch (name : String)
  /-- lines 17-29, the call selected by the `switch` -/
  | call (f : Callee)
  /-- line 31, `fmt.Printf("未知示例: %s\n", example)` -/
  | unknown (name : String)
  /-- The function `main` has returned -/
  | ret
deriving DecidableEq

/-- State of the process: outside a call, the program counter of `main`, the
lines `main` and `printUsage` have printed and what the callee has printed;
inside a call, the callee, the lines printed before the call and the state of
the callee. -/
inductive State where
  | top (pc : Pc) (out : List String) (printed : List Event)
  | run (f : Callee) (out : List String) (d : RunConcurrencyExample.State)
deriving DecidableEq

/-- State of the process when `main` is entered. -/
def init : State := .top .argsTest [] []

/-- The scheduler runs goroutine `t` for one statement, `osArgs` being `os.Args`.
The package-level variables have their zero values when the process starts. -/
def step (osArgs : List String) (s : State) (t : Tid) : Option State :=
  match s with
  | .top pc out printed =>
    if t = .main then
      match pc with
      | .argsTest =>
        match osArgs with
        | _ :: name :: _ => some (.top (.switch name) out printed)
        | _ => some (.top .usage out printed)
      | .usage => some (.top .ret (out ++ printUsage) printed)
      | .switch name =>
        match selected name with
        | some f => some (.top (.call f) out printed)
        | none => some (.top (.unknown name) out printed)
      | .unknown name => some (.top .usage (out ++ ["未知示例: " ++ name]) printed)
      | .call .RunConcurrencyExample =>
        some (.run .RunConcurrencyExample out (RunConcurrencyExample.init ⟨false, ⟨0⟩⟩))
      | .call .RunCounterExample =>
        some (.run .RunCounterExample out (RunConcurrencyExample.init ⟨false, ⟨0⟩⟩))
      | .call _ => none
      | .ret => none
    else none
  | .run f out d =>
    match d with
    | .top .ret _ printed => if t = .main then some (.top .ret out printed) else none
    | _ => (RunConcurrencyExample.step d t).map (.run f out)

/-- Whether the function `main` has returned. -/
def returned (s : State) : Bool :=
  match s with
  | .top .ret _ _ => true
  | _ => false

end main

/-- Source: the package clause of `main.go` (line 1), `package performance_examples`. -/
def packageClause : String := "performance_examples"

/-- The check that the command of the usage text (line 37), `go run main.go`
followed by an example name, makes before it builds anything, on a file whose
package clause is `package pkg`: the go tool runs only the package `main`; for
any other package it reports that the package is not a main package, builds no
executable, starts no process and ends with exit status 1, which is `some 1`.
For the package `main` the check passes, `none`, and the tool goes on to compile
the file, which is outside this model. -/
def goRunCheck (pkg : String) : Option Nat :=
  if pkg = "main" then none else some 1

end PerformanceExamples

/-! # Proofs -/

/-! ## Arithmetic, lists and executions -/

namespace PerformanceExamples

theorem wrap64_of_range (x : Int) (h0 : -9223372036854775808 ≤ x) (h1 : x ≤ maxInt) :
    wrap64 x = x := by
  unfold wrap64; unfold maxInt at h1; omega

theorem wrap64_succ (x : Int) : wrap64 (wrap64 x + 1) = wrap64 (x + 1) := by
  unfold wrap64; omega

theorem perWorker_nonneg (n : Int) : 0 ≤ perWorker n := by
  unfold perWorker; omega

theorem perWorker_of_nonneg (n : Int) (h : 0 ≤ n) : perWorker n = n / 10 := by
  unfold perWorker
  rw [Int.tdiv_eq_ediv h (by decide)]
  omega

theorem perWorker_le (n : Int) (h : n ≤ maxInt) : 10 * perWorker n ≤ maxInt := by
  unfold perWorker
  by_cases h0 : 0 ≤ n
  · rw [Int.tdiv_eq_ediv h0 (by decide)]; unfold maxInt at *; omega
  · have : Int.tdiv n 10 ≤ 0 := by
      have h1 : n = -(-n) := by omega
      rw [h1, Int.neg_tdiv, Int.tdiv_eq_ediv (by omega) (by decide)]
      omega
    unfold maxInt; omega

theorem lt_tdiv_iff (n j : Int) (hj : 0 ≤ j) : j < Int.tdiv n 10 ↔ j < perWorker n := by
  unfold perWorker; omega

/-- Splitting a list at an index that holds an element. -/
theorem split_at (l : List α) (k : Nat) (w : α) (h : l[k]? = some w) :
    ∃ pre post, l = pre ++ w :: post ∧ pre.length = k ∧
      ∀ w1, l.set k w1 = pre ++ w1 :: post := by
  induction l generalizing k with
  | nil => simp at h
  | cons a l ih =>
    cases k with
    | zero =>
      simp at h
      exact ⟨[], l, by simp [h], rfl, fun w1 => by simp⟩
    | succ k =>
      simp at h
      obtain ⟨pre, post, h1, h2, h3⟩ := ih k h
      exact ⟨a :: pre, post, by simp [h1], by simp [h2], fun w1 => by simp [h3]⟩

theorem sum_map_set_int (l : List α) (f : α → Int) (k : Nat) (w w1 : α) (h : l[k]? = some w) :
    ∃ r, (l.map f).sum = r + f w ∧ ((l.set k w1).map f).sum = r + f w1 := by
  obtain ⟨pre, post, h1, -, h3⟩ := split_at l k w h
  refine ⟨(pre.map f).sum + (post.map f).sum, ?_, ?_⟩
  · rw [h1]; simp; ring
  · rw [h3]; simp; ring

theorem sum_map_set_nat (l : List α) (f : α → Nat) (k : Nat) (w w1 : α) (h : l[k]? = some w) :
    ∃ r, (l.map f).sum = r + f w ∧ ((l.set k w1).map f).sum = r + f w1 := by
  obtain ⟨pre, post, h1, -, h3⟩ := split_at l k w h
  refine ⟨(pre.map f).sum + (post.map f).sum, ?_, ?_⟩
  · rw [h1]; simp; ring
  · rw [h3]; simp; ring

theorem forall_mem_set (l : List α) (P : α → Prop) (k : Nat) (w1 : α)
    (h : ∀ x ∈ l, P x) (h1 : P w1) : ∀ x ∈ l.set k w1, P x := by
  intro x hx
  rcases List.mem_or_eq_of_mem_set hx with h2 | h2
  · exact h x h2
  · rw [h2]; exact h1

theorem mul_le_ten (i : Int) (m : Int) (h0 : 0 ≤ i) (hi : i ≤ 10) (hm : 0 ≤ m) :
    0 ≤ i * m ∧ i * m ≤ 10 * m :=
  ⟨mul_nonneg h0 hm, mul_le_mul_of_nonneg_right hi hm⟩

theorem sum_map_eq_zero (l : List α) (f : α → Nat) (h : (l.map f).sum = 0) :
    ∀ w ∈ l, f w = 0 := by
  induction l with
  | nil => simp
  | cons a l ih =>
    simp at h
    intro w hw
    simp at hw
    rcases hw with rfl | hw
    · exact h.1
    · exact ih h.2 w hw

theorem sum_map_const (l : List α) (f : α → Int) (m : Int) (h : ∀ w ∈ l, f w = m) :
    (l.map f).sum = l.length * m := by
  induction l with
  | nil => simp
  | cons a l ih =>
    simp at h
    simp [h.1, ih h.2]
    ring

theorem exists_pos_of_sum_pos (l : List α) (f : α → Nat) (h : 0 < (l.map f).sum) :
    ∃ (k : Nat) (w : α), l[k]? = some w ∧ 0 < f w := by
  induction l with
  | nil => simp at h
  | cons a l ih =>
    by_cases ha : 0 < f a
    · exact ⟨0, a, by simp, ha⟩
    · simp at h
      have : 0 < (l.map f).sum := by omega
      obtain ⟨k, w, h1, h2⟩ := ih this
      exact ⟨k + 1, w, by simp [h1], h2⟩

/-! ### Executions of a transition system with an invariant and a step count -/

theorem run_inv {σ : Type} (step : σ → Tid → Option σ) (I : σ → Prop) (μ : σ → Int)
    (hI : ∀ s t s1, I s → step s t = some s1 → I s1)
    (hμ : ∀ s t s1, I s → step s t = some s1 → μ s1 + 1 ≤ μ s)
    (s s1 : σ) (sched : List Tid) (h : I s) (hs : runSchedule step s sched = some s1) :
    I s1 ∧ μ s1 + sched.length ≤ μ s := by
  induction sched generalizing s with
  | nil => simp [runSchedule] at hs; subst hs; simp [h]
  | cons t ts ih =>
    simp only [runSchedule] at hs
    split at hs
    · rename_i s2 h2
      obtain ⟨h3, h4⟩ := ih s2 (hI s t s2 h h2) hs
      have := hμ s t s2 h h2
      refine ⟨h3, ?_⟩
      simp only [List.length_cons]; push_cast; omega
    · simp at hs

theorem run_exists {σ : Type} (step : σ → Tid → Option σ) (I : σ → Prop) (μ : σ → Int)
    (final : σ → Prop)
    (hI : ∀ s t s1, I s → step s t = some s1 → I s1)
    (hμ : ∀ s t s1, I s → step s t = some s1 → μ s1 + 1 ≤ μ s)
    (h0 : ∀ s, I s → 0 ≤ μ s)
    (hP : ∀ s, I s → ¬ final s → ∃ t s1, step s t = some s1)
    (s : σ) (h : I s) : ∃ sched s1, runSchedule step s sched = some s1 ∧ final s1 := by
  obtain ⟨k, hk⟩ : ∃ k : Nat, μ s ≤ k := ⟨(μ s).toNat, by have := h0 s h; omega⟩
  induction k generalizing s with
  | zero =>
    by_cases hf : final s
    · exact ⟨[], s, rfl, hf⟩
    · obtain ⟨t, s1, h1⟩ := hP s h hf
      have := hμ s t s1 h h1
      have := h0 s1 (hI s t s1 h h1)
      omega
  | succ k ih =>
    by_cases hf : final s
    · exact ⟨[], s, rfl, hf⟩
    · obtain ⟨t, s1, h1⟩ := hP s h hf
      have h2 := hμ s t s1 h h1
      obtain ⟨sched, s2, h3, h4⟩ := ih s1 (hI s t s1 h h1) (by push_cast at hk; omega)
      exact ⟨t :: sched, s2, by simp [runSchedule, h1, h3], h4⟩

theorem alwaysReturns_of_inv {σ : Type} (step : σ → Tid → Option σ) (s0 : σ)
    (returned post : σ → Prop) (bound : Int) (I : σ → Prop) (μ : σ → Int)
    (hinit : I s0)
    (hI : ∀ s t s1, I s → step s t = some s1 → I s1)
    (hμ : ∀ s t s1, I s → step s t = some s1 → μ s1 + 1 ≤ μ s)
    (h0 : ∀ s, I s → 0 ≤ μ s)
    (hP : ∀ s, I s → ¬ returned s → ∃ t s1, step s t = some s1)
    (hpost : ∀ s, I s → returned s → post s)
    (hb : μ s0 ≤ bound) : AlwaysReturns step s0 returned post bound := by
  constructor
  · intro sched s hs
    obtain ⟨h1, h2⟩ := run_inv step I μ hI hμ s0 s sched hinit hs
    have h3 := h0 s h1
    exact ⟨by omega, hpost s h1, hP s h1⟩
  · exact run_exists step I μ returned hI hμ h0 hP s0 hinit

theorem always_of_inv {σ : Type} (step : σ → Tid → Option σ) (s0 : σ) (P : σ → Prop)
    (I : σ → Prop) (hinit : I s0)
    (hI : ∀ s t s1, I s → step s t = some s1 → I s1)
    (hP : ∀ s, I s → P s) : Always step s0 P := by
  intro sched s hs
  induction sched generalizing s0 with
  | nil => simp [runSchedule] at hs; subst hs; exact hP _ hinit
  | cons t ts ih =>
    simp only [runSchedule] at hs
    split at hs
    · rename_i s2 h2
      exact ih s2 (hI s0 t s2 hinit h2) hs
    · simp at hs

end PerformanceExamples

/-! ## `testConcurrencyMethod1`: invariant, step count, progress -/

namespace PerformanceExamples

namespace testConcurrencyMethod1

theorem m1_inv_init (m c0 : Int) (out0 : List Event) (b : Bool) (hc : wrap64 c0 = c0) (hb : b = false) :
    Inv m c0 out0 (init ⟨b, ⟨c0⟩⟩ out0) := by
  subst hb
  simp [Inv, init, MainOK, hc]

theorem m1_all_dead (m : Int) (ws : List Worker) (hw : ∀ w ∈ ws, WorkerOK m w)
    (ha : (ws.map alive).sum = 0) : ∀ w ∈ ws, w.pc = .dead ∧ w.j = m := by
  intro w hmem
  have h1 := sum_map_eq_zero ws alive ha w hmem
  have h2 := hw w hmem
  obtain ⟨pc, j, tmp⟩ := w
  cases pc <;> simp [alive, WorkerOK] at h1 h2 ⊢
  exact h2

theorem m1_completed_sum_of_dead (m : Int) (ws : List Worker) (hw : ∀ w ∈ ws, WorkerOK m w)
    (ha : (ws.map alive).sum = 0) : (ws.map completed).sum = ws.length * m := by
  apply sum_map_const
  intro w hmem
  obtain ⟨h1, h2⟩ := m1_all_dead m ws hw ha w hmem
  simp [completed, h1, h2]

theorem m1_holds_sum_of_dead (m : Int) (ws : List Worker) (hw : ∀ w ∈ ws, WorkerOK m w)
    (ha : (ws.map alive).sum = 0) : (ws.map holds).sum = 0 := by
  have h := sum_map_const ws (fun w => (holds w : Int)) 0 (by
    intro w hmem
    obtain ⟨h1, _⟩ := m1_all_dead m ws hw ha w hmem
    simp [holds, h1])
  have h2 : ((ws.map holds).sum : Int) = (ws.map (fun w => (holds w : Int))).sum := by
    clear h hw ha
    induction ws with
    | nil => simp
    | cons a l ih => simp [ih]
  omega

theorem m1_inv_mainStep (m c0 : Int) (out0 : List Event) (s s1 : State) (hm0 : 0 ≤ m)
    (h : Inv m c0 out0 s) (hs : mainStep s = some s1) : Inv m c0 out0 s1 := by
  obtain ⟨g, out, p, wg, i, pc, ws⟩ := s
  obtain ⟨hp, hl, hc, hw, ht, hg, hmn, ho⟩ := h
  simp only at hp hl hc hw ht hg hmn ho
  cases pc <;> simp [mainStep] at hs
  · -- loopTest
    split at hs <;> (simp at hs; subst hs; simp [Inv, MainOK] at *; refine ⟨hp, hl, hc, hw, ht, hg, ?_, ho⟩; omega)
  · subst hs; simp [Inv, MainOK] at *; exact ⟨hp, hl, hc, hw, ht, hg, hmn, ho⟩
  · subst hs; simp [Inv, MainOK] at *
    refine ⟨hp, ?_, ?_, ?_, ?_, ?_, hmn, ho⟩
    · simpa [holds] using hl
    · simpa [completed] using hc
    · rintro w (hmem | rfl)
      · exact hw w hmem
      · simp [WorkerOK, hm0]
    · rintro w (hmem | rfl)
      · exact ht w hmem
      · simp
    · simpa [alive] using hg
  · subst hs; simp [Inv, MainOK] at *
    refine ⟨hp, hl, hc, hw, ht, hg, ?_, ho⟩; omega
  · obtain ⟨h0, hs⟩ := hs
    subst hs; simp [Inv, MainOK] at *
    exact ⟨hp, hl, hc, hw, ht, hg, ⟨hmn.1, hmn.2, h0⟩, ho⟩
  · subst hs; simp [Inv, MainOK] at *
    refine ⟨hp, hl, hc, hw, ht, hg, hmn, ?_⟩
    have := m1_completed_sum_of_dead m ws hw (by omega)
    rw [ho, hc, this, hmn.1]
    simp

theorem m1_inv_workerStep (n m c0 : Int) (out0 : List Event) (s s1 : State) (k : Nat) (w : Worker)
    (hm1 : 10 * m ≤ maxInt)
    (hlt : ∀ j : Int, 0 ≤ j → (j < Int.tdiv n 10 ↔ j < m))
    (h : Inv m c0 out0 s) (hk : s.workers[k]? = some w)
    (hs : workerStep n s k w = some s1) : Inv m c0 out0 s1 := by
  obtain ⟨g, out, p, wg, i, pc, ws⟩ := s
  obtain ⟨pre, post, hsplit, -, hset⟩ := split_at ws k w hk
  subst hsplit
  obtain ⟨hp, hl, hc, hw, ht, hg, hmn, ho⟩ := h
  simp only [List.map_append, List.map_cons, List.sum_append, List.sum_cons,
    List.forall_mem_append, List.forall_mem_cons] at hp hl hc hw ht hg hmn ho
  obtain ⟨hw1, hw2, hw3⟩ := hw
  obtain ⟨ht1, ht2, ht3⟩ := ht
  obtain ⟨wpc, j, tmp⟩ := w
  cases wpc <;> simp [workerStep, hset] at hs
  · -- loopTest
    simp [WorkerOK] at hw2
    split at hs <;> rename_i hj <;> rw [hlt j hw2.1] at hj <;> simp at hs <;> subst hs <;>
      simp only [Inv, List.map_append, List.map_cons, List.sum_append, List.sum_cons,
        List.forall_mem_append, List.forall_mem_cons] <;>
      simp [holds, completed, alive, WorkerOK, MainOK] at * <;>
      refine ⟨hp, hl, hc, ⟨hw1, ?_, hw3⟩, ⟨ht1, ht3⟩, hg, hmn, ho⟩ <;> omega
  · -- lock
    obtain ⟨hmx, hs⟩ := hs
    subst hs
    simp only [Inv, List.map_append, List.map_cons, List.sum_append, List.sum_cons,
      List.forall_mem_append, List.forall_mem_cons]
    simp [holds, completed, alive, WorkerOK, MainOK, hmx] at *
    exact ⟨hp, by omega, hc, ⟨hw1, hw2, hw3⟩, ⟨ht1, ht3⟩, hg, hmn, ho⟩
  · -- read
    subst hs
    simp only [Inv, List.map_append, List.map_cons, List.sum_append, List.sum_cons,
      List.forall_mem_append, List.forall_mem_cons]
    simp [holds, completed, alive, WorkerOK, MainOK] at *
    exact ⟨hp, hl, hc, ⟨hw1, hw2, hw3⟩, ⟨ht1, ht3⟩, hg, hmn, ho⟩
  · -- write
    subst hs
    simp [holds] at hl
    have hmx : g.mutexExample = true := by
      by_contra hne
      simp [hne] at hl
    simp [hmx] at hl
    have hpre := sum_map_eq_zero pre holds (by omega)
    have hpost := sum_map_eq_zero post holds (by omega)
    simp only [Inv, List.map_append, List.map_cons, List.sum_append, List.sum_cons,
      List.forall_mem_append, List.forall_mem_cons]
    simp [holds, completed, alive, WorkerOK, MainOK, hmx] at *
    refine ⟨hp, by omega, ?_, ⟨hw1, hw2, hw3⟩, ⟨?_, ?_⟩, hg, hmn, ho⟩
    · rw [ht2, hc, wrap64_succ]
      congr 1; ring
    · intro x hx hpc
      have := hpre x hx
      simp [holds, hpc] at this
    · intro x hx hpc
      have := hpost x hx
      simp [holds, hpc] at this
  · -- sleep
    subst hs
    simp only [Inv, List.map_append, List.map_cons, List.sum_append, List.sum_cons,
      List.forall_mem_append, List.forall_mem_cons]
    simp [holds, completed, alive, WorkerOK, MainOK] at *
    exact ⟨hp, hl, hc, ⟨hw1, hw2, hw3⟩, ⟨ht1, ht3⟩, hg, hmn, ho⟩
  · -- unlock
    simp [holds] at hl
    have hmx : g.mutexExample = true := by
      by_contra hne
      simp [hne] at hl
    simp [hmx] at hl hs
    subst hs
    simp only [Inv, List.map_append, List.map_cons, List.sum_append, List.sum_cons,
      List.forall_mem_append, List.forall_mem_cons]
    simp [holds, completed, alive, WorkerOK, MainOK] at *
    exact ⟨hp, ⟨by omega, by omega⟩, hc, ⟨hw1, hw2, hw3⟩, ⟨ht1, ht3⟩, hg, hmn, ho⟩
  · -- incr
    subst hs
    simp [WorkerOK] at hw2
    have hj : wrap64 (j + 1) = j + 1 := wrap64_of_range _ (by omega) (by omega)
    simp only [Inv, List.map_append, List.map_cons, List.sum_append, List.sum_cons,
      List.forall_mem_append, List.forall_mem_cons]
    simp [holds, completed, alive, WorkerOK, MainOK, hj] at *
    refine ⟨hp, hl, hc, ⟨hw1, ?_, hw3⟩, ⟨ht1, ht3⟩, hg, hmn, ho⟩
    omega
  · -- done
    simp [alive] at hg
    have hwg : wg ≠ 0 := by omega
    simp [hwg] at hs
    subst hs
    simp only [Inv, List.map_append, List.map_cons, List.sum_append, List.sum_cons,
      List.forall_mem_append, List.forall_mem_cons]
    simp [holds, completed, alive, WorkerOK, MainOK] at *
    refine ⟨hp, hl, hc, ⟨hw1, hw2, hw3⟩, ⟨ht1, ht3⟩, ?_, ?_, ho⟩
    · omega
    · cases pc <;> simp at hmn ⊢ <;> omega

theorem m1_inv_step (n c0 : Int) (out0 : List Event) (s s1 : State) (t : Tid) (hn : n ≤ maxInt)
    (h : Inv (perWorker n) c0 out0 s) (hs : step n s t = some s1) :
    Inv (perWorker n) c0 out0 s1 := by
  unfold step at hs
  split at hs
  · simp at hs
  · cases t with
    | main => exact m1_inv_mainStep _ c0 out0 s s1 (perWorker_nonneg n) h hs
    | aggregator => simp at hs
    | worker k =>
      simp only at hs
      split at hs
      · rename_i w hk
        exact m1_inv_workerStep n _ c0 out0 s s1 k w (perWorker_le n hn)
          (fun j hj => lt_tdiv_iff n j hj) h hk hs
      · simp at hs

theorem m1_measure_mainStep (m c0 : Int) (out0 : List Event) (s s1 : State)
    (h : Inv m c0 out0 s) (hs : mainStep s = some s1) :
    measure m s1 + 1 = measure m s := by
  obtain ⟨g, out, p, wg, i, pc, ws⟩ := s
  obtain ⟨-, -, -, -, -, -, hmn, -⟩ := h
  cases pc <;> simp [mainStep] at hs
  · simp [MainOK] at hmn
    split at hs <;> simp at hs <;> subst hs <;> simp [measure, mainRemaining]
    · ring
    · have : i = 10 := by omega
      subst this; simp; ring
  · subst hs; simp [measure, mainRemaining]; ring
  · subst hs; simp [measure, mainRemaining, remaining]; ring
  · subst hs; simp [measure, mainRemaining]; ring
  · obtain ⟨-, hs⟩ := hs; subst hs; simp [measure, mainRemaining]; ring
  · subst hs; simp [measure, mainRemaining]; ring

theorem m1_measure_workerStep (n m c0 : Int) (out0 : List Event) (s s1 : State) (k : Nat)
    (w : Worker) (hm1 : 10 * m ≤ maxInt)
    (hlt : ∀ j : Int, 0 ≤ j → (j < Int.tdiv n 10 ↔ j < m))
    (h : Inv m c0 out0 s) (hk : s.workers[k]? = some w)
    (hs : workerStep n s k w = some s1) : measure m s1 + 1 = measure m s := by
  obtain ⟨g, out, p, wg, i, pc, ws⟩ := s
  obtain ⟨pre, post, hsplit, -, hset⟩ := split_at ws k w hk
  subst hsplit
  obtain ⟨hp, hl, hc, hw, ht, hg, hmn, ho⟩ := h
  simp only [List.map_append, List.map_cons, List.sum_append, List.sum_cons,
    List.forall_mem_append, List.forall_mem_cons] at hp hl hc hw ht hg hmn ho
  obtain ⟨hw1, hw2, hw3⟩ := hw
  obtain ⟨wpc, j, tmp⟩ := w
  cases wpc <;> simp [workerStep, hset] at hs
  · simp [WorkerOK] at hw2
    split at hs <;> rename_i hj <;> rw [hlt j hw2.1] at hj <;> simp at hs <;> subst hs <;>
      simp [measure, mainRemaining, remaining] <;> omega
  · obtain ⟨-, hs⟩ := hs; subst hs; simp [measure, mainRemaining, remaining]; omega
  · subst hs; simp [measure, mainRemaining, remaining]; omega
  · subst hs; simp [measure, mainRemaining, remaining]; omega
  · subst hs; simp [measure, mainRemaining, remaining]; omega
  · simp [holds] at hl
    have hmx : g.mutexExample = true := by
      by_contra hne
      simp [hne] at hl
    simp [hmx] at hs
    subst hs; simp [measure, mainRemaining, remaining]; omega
  · simp [WorkerOK] at hw2
    have hj : wrap64 (j + 1) = j + 1 := wrap64_of_range _ (by omega) (by omega)
    subst hs; simp [measure, mainRemaining, remaining, hj]; omega
  · simp [alive] at hg
    have hwg : wg ≠ 0 := by omega
    simp [hwg] at hs
    subst hs; simp [measure, mainRemaining, remaining]; omega

theorem m1_measure_step (n c0 : Int) (out0 : List Event) (s s1 : State) (t : Tid) (hn : n ≤ maxInt)
    (h : Inv (perWorker n) c0 out0 s) (hs : step n s t = some s1) :
    measure (perWorker n) s1 + 1 = measure (perWorker n) s := by
  unfold step at hs
  split at hs
  · simp at hs
  · cases t with
    | main => exact m1_measure_mainStep _ c0 out0 s s1 h hs
    | aggregator => simp at hs
    | worker k =>
      simp only at hs
      split at hs
      · rename_i w hk
        exact m1_measure_workerStep n _ c0 out0 s s1 k w (perWorker_le n hn)
          (fun j hj => lt_tdiv_iff n j hj) h hk hs
      · simp at hs

theorem m1_remaining_nonneg (m : Int) (ws : List Worker) (hw : ∀ w ∈ ws, WorkerOK m w) :
    0 ≤ (ws.map (remaining m)).sum := by
  apply List.sum_nonneg
  intro x hx
  simp at hx
  obtain ⟨w, hmem, rfl⟩ := hx
  have := hw w hmem
  obtain ⟨pc, j, tmp⟩ := w
  cases pc <;> simp [WorkerOK, remaining] at this ⊢ <;> omega

theorem m1_measure_nonneg (m c0 : Int) (out0 : List Event) (s : State) (hm0 : 0 ≤ m)
    (h : Inv m c0 out0 s) : 0 ≤ measure m s := by
  obtain ⟨g, out, p, wg, i, pc, ws⟩ := s
  obtain ⟨hp, hl, hc, hw, ht, hg, hmn, ho⟩ := h
  have h1 := m1_remaining_nonneg m ws hw
  simp only [measure]
  have h2 : 0 ≤ mainRemaining m { g := g, out := out, panicked := p, wg := wg, i := i, pc := pc, workers := ws } := by
    cases pc <;> simp [mainRemaining, MainOK] at hmn ⊢
    · have : 0 ≤ (10 - (i : Int)) * (7 * m + 6) := mul_nonneg (by omega) (by omega)
      omega
    · have : 0 ≤ (10 - (i : Int)) * (7 * m + 6) := mul_nonneg (by omega) (by omega)
      omega
    · have : 0 ≤ (10 - (i : Int)) * (7 * m + 6) := mul_nonneg (by omega) (by omega)
      omega
    · have : 0 ≤ (10 - (i : Int) - 1) * (7 * m + 6) := mul_nonneg (by omega) (by omega)
      linarith
  omega

theorem m1_worker_enabled (n : Int) (s : State) (k : Nat) (w : Worker)
    (hk : s.workers[k]? = some w) (hp : s.panicked = false) (hd : w.pc ≠ .dead)
    (hl : w.pc = .lock → s.g.mutexExample = false) :
    ∃ s1, step n s (.worker k) = some s1 := by
  obtain ⟨pc, j, tmp⟩ := w
  simp [step, hp, hk]
  cases pc <;> simp [workerStep] at hd hl ⊢
  · split <;> simp
  · exact hl
  · split <;> simp
  · split <;> simp

theorem m1_progress (n m c0 : Int) (out0 : List Event) (s : State) (h : Inv m c0 out0 s)
    (hr : s.pc ≠ .ret) : ∃ t s1, step n s t = some s1 := by
  obtain ⟨hp, hl, hc, hw, ht, hg, hmn, ho⟩ := h
  by_cases hmain : ∃ s1, step n s .main = some s1
  · exact ⟨.main, hmain⟩
  · -- the caller is blocked in `wg.Wait()`
    have hwait : s.pc = .wait ∧ s.wg ≠ 0 := by
      obtain ⟨g, out, p, wg, i, pc, ws⟩ := s
      simp at hp; subst hp
      cases pc <;> simp [step, mainStep] at hmain hr ⊢
      · split at hmain <;> simp at hmain
      · exact hmain
    obtain ⟨hpc, hwg⟩ := hwait
    simp [hpc] at hg
    obtain ⟨k, w, hk, ha⟩ := exists_pos_of_sum_pos s.workers alive (by omega)
    have hd : w.pc ≠ .dead := by
      intro hd; simp [alive, hd] at ha
    by_cases hfree : s.g.mutexExample = false
    · exact ⟨.worker k, m1_worker_enabled n s k w hk hp hd (fun _ => hfree)⟩
    · simp at hfree
      simp [hfree] at hl
      obtain ⟨k1, w1, hk1, hh⟩ := exists_pos_of_sum_pos s.workers holds (by omega)
      refine ⟨.worker k1, m1_worker_enabled n s k1 w1 hk1 hp ?_ ?_⟩
      · intro hd1; simp [holds, hd1] at hh
      · intro hd1; simp [holds, hd1] at hh

theorem m1_at_ret (m c0 : Int) (out0 : List Event) (s : State) (h : Inv m c0 out0 s)
    (hr : s.pc = .ret) :
    s.out = out0 ++ [.count (wrap64 (c0 + 10 * m))] ∧
      s.g = ⟨false, ⟨wrap64 (c0 + 10 * m)⟩⟩ ∧ s.panicked = false ∧ s.workers.length = 10 ∧
      ∀ w ∈ s.workers, w.pc = .dead ∧ w.j = m := by
  obtain ⟨g, out, p, wg, i, pc, ws⟩ := s
  obtain ⟨hp, hl, hc, hw, ht, hg, hmn, ho⟩ := h
  simp only at hr hp hl hc hw ht hg hmn ho
  subst hr
  simp [MainOK] at hmn
  simp at hg ho
  obtain ⟨h1, h2, h3⟩ := hmn
  have hdead : (ws.map alive).sum = 0 := by omega
  have hsum := m1_completed_sum_of_dead m ws hw hdead
  have hh := m1_holds_sum_of_dead m ws hw hdead
  rw [hh] at hl
  rw [hsum, h1] at hc
  refine ⟨ho, ?_, hp, h1, m1_all_dead m ws hw hdead⟩
  obtain ⟨mx, ⟨v⟩⟩ := g
  simp at hl hc ⊢
  constructor
  · cases mx <;> simp at hl ⊢
  · simpa using hc

theorem m1_out_cases (m c0 : Int) (out0 : List Event) (s : State) (h : Inv m c0 out0 s) :
    s.out = out0 ∨ s.out = out0 ++ [.count (wrap64 (c0 + 10 * m))] := by
  obtain ⟨hp, hl, hc, hw, ht, hg, hmn, ho⟩ := h
  by_cases hr : s.pc = .ret
  · right; simpa [hr] using ho
  · left; simpa [hr] using ho

/-- Total correctness of `testConcurrencyMethod1` from counter value `c0`. -/
theorem m1_total (n c0 : Int) (out0 : List Event) (hn : n ≤ maxInt) (hc : wrap64 c0 = c0) :
    AlwaysReturns (step n) (init ⟨false, ⟨c0⟩⟩ out0) (fun s => s.pc = .ret)
      (fun s => s.out = out0 ++ [.count (wrap64 (c0 + 10 * perWorker n))] ∧
        s.g = ⟨false, ⟨wrap64 (c0 + 10 * perWorker n)⟩⟩ ∧ s.panicked = false ∧
        s.workers.length = 10 ∧ ∀ w ∈ s.workers, w.pc = .dead ∧ w.j = perWorker n)
      (70 * perWorker n + 63) := by
  apply alwaysReturns_of_inv (step n) _ _ _ _ (Inv (perWorker n) c0 out0) (measure (perWorker n))
  · exact m1_inv_init _ c0 out0 false hc rfl
  · intro s t s1 h hs; exact m1_inv_step n c0 out0 s s1 t hn h hs
  · intro s t s1 h hs; exact le_of_eq (m1_measure_step n c0 out0 s s1 t hn h hs)
  · intro s h; exact m1_measure_nonneg _ c0 out0 s (perWorker_nonneg n) h
  · intro s h hr; exact m1_progress n _ c0 out0 s h hr
  · intro s h hr; exact m1_at_ret _ c0 out0 s h hr
  · simp [measure, mainRemaining, init]; ring_nf; rfl

end testConcurrencyMethod1

end PerformanceExamples

/-! ## `testConcurrencyMethod2`: invariant, step count, progress -/

namespace PerformanceExamples

namespace testConcurrencyMethod2

theorem m2_inv_init (m : Int) (g0 : Globals) (out0 : List Event) : Inv m g0 out0 (init g0 out0) := by
  refine ⟨rfl, rfl, by simp [init], by simp [init], ?_, ?_, ?_, ?_, ?_, ?_, ?_⟩
  · simp [init]
  · intro k c hk
    have h1 := List.eq_of_mem_replicate (List.mem_iff_getElem?.2 ⟨k, hk⟩)
    simp [init, completedAt, h1]
  · intro k b hk
    have h1 := List.eq_of_mem_replicate (List.mem_iff_getElem?.2 ⟨k, hk⟩)
    simp [init, holdsAt, h1]
  · simp [init]
  · simp [init]
  · simp [init, MainOK]
  · simp [init]

theorem m2_completedAt_set (ws : List Worker) (k k1 : Nat) (w1 : Worker) (hk : k < ws.length) :
    completedAt (ws.set k w1) k1 = if k = k1 then completed w1 else completedAt ws k1 := by
  by_cases h : k = k1
  · subst h; simp [completedAt, hk]
  · simp [completedAt, List.getElem?_set, h]

theorem m2_holdsAt_set (ws : List Worker) (k k1 : Nat) (w1 : Worker) (hk : k < ws.length) :
    holdsAt (ws.set k w1) k1 = if k = k1 then decide (holds w1 = 1) else holdsAt ws k1 := by
  by_cases h : k = k1
  · subst h; simp [holdsAt, hk]
  · simp [holdsAt, List.getElem?_set, h]

theorem m2_completedAt_append (ws : List Worker) (k : Nat) (w1 : Worker) (h : completed w1 = 0) :
    completedAt (ws ++ [w1]) k = completedAt ws k := by
  simp only [completedAt]
  rcases Nat.lt_trichotomy k ws.length with h1 | h1 | h1
  · rw [List.getElem?_append_left h1]
  · subst h1; simp [h]
  · rw [List.getElem?_eq_none (by simp; omega), List.getElem?_eq_none (by omega)]

theorem m2_holdsAt_append (ws : List Worker) (k : Nat) (w1 : Worker) (h : holds w1 = 0) :
    holdsAt (ws ++ [w1]) k = holdsAt ws k := by
  simp only [holdsAt]
  rcases Nat.lt_trichotomy k ws.length with h1 | h1 | h1
  · rw [List.getElem?_append_left h1]
  · subst h1; simp [h]
  · rw [List.getElem?_eq_none (by simp; omega), List.getElem?_eq_none (by omega)]

theorem m2_all_dead (m : Int) (ws : List Worker) (hw : ∀ w ∈ ws, WorkerOK m w)
    (ha : (ws.map alive).sum = 0) : ∀ w ∈ ws, w.pc = .dead ∧ w.j = m := by
  intro w hmem
  have h1 := sum_map_eq_zero ws alive ha w hmem
  have h2 := hw w hmem
  obtain ⟨pc, id, j, tmp⟩ := w
  cases pc <;> simp [alive, WorkerOK] at h1 h2 ⊢
  exact h2

theorem m2_completedAt_of_dead (m : Int) (ws : List Worker) (hw : ∀ w ∈ ws, WorkerOK m w)
    (ha : (ws.map alive).sum = 0) (k : Nat) (hk : k < ws.length) : completedAt ws k = m := by
  have h1 : ws[k]? = some ws[k] := List.getElem?_eq_getElem hk
  obtain ⟨h2, h3⟩ := m2_all_dead m ws hw ha ws[k] (List.getElem_mem hk)
  simp [completedAt, h1, completed, h2, h3]

theorem m2_len_le (m : Int) (s : State) (h : MainOK m s) : s.workers.length ≤ 10 := by
  obtain ⟨g, out, p, wg, i, total, pc, cs, ms, ws⟩ := s
  cases pc <;> simp [MainOK] at h ⊢ <;> omega

theorem m2_inv_mainStep (m : Int) (g0 : Globals) (out0 : List Event) (s s1 : State) (hm0 : 0 ≤ m)
    (hm1 : 10 * m ≤ maxInt) (h : Inv m g0 out0 s) (hs : mainStep s = some s1) :
    Inv m g0 out0 s1 := by
  obtain ⟨g, out, p, wg, i, total, pc, cs, ms, ws⟩ := s
  obtain ⟨hp, hg0, hcl, hml, hid, hc, hmx, hw, hg, hmn, ho⟩ := h
  simp only at hp hg0 hcl hml hid hc hmx hw hg hmn ho
  cases pc <;> simp [mainStep] at hs
  · -- loopTest
    simp [MainOK] at hmn; simp at hg ho
    split at hs <;> simp at hs <;> subst hs <;>
      refine ⟨hp, hg0, hcl, hml, hid, hc, hmx, hw, by simpa using hg, ?_, by simpa using ho⟩ <;>
      simp [MainOK] <;> omega
  · -- add
    subst hs; simp [MainOK] at hmn; simp at hg ho
    refine ⟨hp, hg0, hcl, hml, hid, hc, hmx, hw, by simpa using hg, ?_, by simpa using ho⟩
    simp [MainOK, hmn]
  · -- go
    subst hs; simp [MainOK] at hmn; simp at hg ho
    refine ⟨hp, hg0, hcl, hml, ?_, ?_, ?_, ?_, ?_, ?_, ?_⟩
    · intro k w hk
      simp only at hk
      rcases Nat.lt_trichotomy k ws.length with h1 | h1 | h1
      · rw [List.getElem?_append_left h1] at hk; exact hid k w hk
      · subst h1; simp at hk; subst hk; simp [hmn.1]
      · rw [List.getElem?_eq_none (by simp; omega)] at hk; simp at hk
    · intro k c hk
      show c.value = completedAt (ws ++ [⟨.loopTest, i, 0, 0⟩]) k
      rw [m2_completedAt_append ws k ⟨.loopTest, i, 0, 0⟩ (by simp [completed])]
      exact hc k c hk
    · intro k b hk
      show b = holdsAt (ws ++ [⟨.loopTest, i, 0, 0⟩]) k
      rw [m2_holdsAt_append ws k ⟨.loopTest, i, 0, 0⟩ (by simp [holds])]
      exact hmx k b hk
    · simp only [List.forall_mem_append, List.forall_mem_cons]
      exact ⟨hw, by simp [WorkerOK, hm0], by simp⟩
    · simp [alive]; omega
    · simp [MainOK]; omega
    · simp [ho]
  · -- incr
    subst hs; simp [MainOK] at hmn; simp at hg ho
    refine ⟨hp, hg0, hcl, hml, hid, hc, hmx, hw, by simpa using hg, ?_, by simpa using ho⟩
    simp [MainOK]; omega
  · -- wait
    obtain ⟨h0, hs⟩ := hs
    subst hs; simp [MainOK] at hmn; simp at hg ho
    refine ⟨hp, hg0, hcl, hml, hid, hc, hmx, hw, by simpa using hg, ?_, by simpa using ho⟩
    simp [MainOK, hmn, h0]
  · -- sumInit
    subst hs; simp [MainOK] at hmn; simp at hg ho
    refine ⟨hp, hg0, hcl, hml, hid, hc, hmx, hw, by simpa using hg, ?_, by simpa using ho⟩
    simp [MainOK, hmn]
  · -- sumTest
    simp [MainOK] at hmn; simp at hg ho
    obtain ⟨hl, hwg, hi, htot⟩ := hmn
    split at hs <;> simp at hs <;> subst hs <;>
      refine ⟨hp, hg0, hcl, hml, hid, hc, hmx, hw, by simpa using hg, ?_, by simpa using ho⟩ <;>
      simp [MainOK, hl, hwg]
    · exact ⟨by omega, htot⟩
    · have : i = 10 := by omega
      subst this; simpa using htot
  · -- sumAdd
    simp [MainOK] at hmn; simp at hg ho
    obtain ⟨hl, hwg, hi, htot⟩ := hmn
    have hci : cs[i]? = some cs[i] := List.getElem?_eq_getElem (by omega)
    rw [hci] at hs; simp at hs
    subst hs
    have hv := hc i cs[i] hci
    rw [m2_completedAt_of_dead m ws hw (by omega) i (by omega)] at hv
    have hb := mul_le_ten ((i : Int) + 1) m (by omega) (by omega) hm0
    have hring : (i : Int) * m + m = ((i : Int) + 1) * m := by ring
    have hwrap : wrap64 (total + cs[i].value) = ((i : Int) + 1) * m := by
      rw [htot, hv, hring]
      exact wrap64_of_range _ (by omega) (by omega)
    refine ⟨hp, hg0, hcl, hml, hid, hc, hmx, hw, by simpa using hg, ?_, by simpa using ho⟩
    simp [MainOK, hl, hwg]
    exact ⟨hi, hwrap⟩
  · -- sumIncr
    subst hs; simp [MainOK] at hmn; simp at hg ho
    refine ⟨hp, hg0, hcl, hml, hid, hc, hmx, hw, by simpa using hg, ?_, by simpa using ho⟩
    simp [MainOK, hmn]; omega
  · -- print
    subst hs; simp [MainOK] at hmn; simp at hg ho
    refine ⟨hp, hg0, hcl, hml, hid, hc, hmx, hw, by simpa using hg, ?_, ?_⟩
    · simp [MainOK, hmn]
    · simp [ho, hmn]

theorem m2_lt_length_of_get {α : Type} (l : List α) (k : Nat) (w : α) (h : l[k]? = some w) :
    k < l.length := by
  by_contra hlt
  rw [List.getElem?_eq_none (by omega)] at h
  simp at h

theorem m2_ids_set (ws : List Worker) (k : Nat) (w1 : Worker)
    (hid : ∀ (k : Nat) (w : Worker), ws[k]? = some w → w.id = k) (h1 : w1.id = k) :
    ∀ (k1 : Nat) (w : Worker), (ws.set k w1)[k1]? = some w → w.id = k1 := by
  intro k1 w hk1
  rw [List.getElem?_set] at hk1
  by_cases h : k = k1
  · subst h
    simp at hk1
    rw [← hk1.2]; exact h1
  · simp [h] at hk1
    exact hid k1 w hk1

theorem m2_cnt_same (ws : List Worker) (cs : List CounterExample) (k : Nat) (w w1 : Worker)
    (hk : ws[k]? = some w)
    (hc : ∀ (k : Nat) (c : CounterExample), cs[k]? = some c → c.value = completedAt ws k)
    (heq : completed w1 = completed w) :
    ∀ (k1 : Nat) (c : CounterExample), cs[k1]? = some c → c.value = completedAt (ws.set k w1) k1 := by
  intro k1 c hk1
  rw [m2_completedAt_set ws k k1 w1 (m2_lt_length_of_get ws k w hk), hc k1 c hk1]
  by_cases h : k = k1
  · subst h; simp [completedAt, hk, heq]
  · simp [h]

theorem m2_cnt_write (ws : List Worker) (cs : List CounterExample) (k : Nat) (w w1 : Worker)
    (v : Int) (hk : ws[k]? = some w)
    (hc : ∀ (k : Nat) (c : CounterExample), cs[k]? = some c → c.value = completedAt ws k)
    (heq : completed w1 = v) :
    ∀ (k1 : Nat) (c : CounterExample), (cs.set k ⟨v⟩)[k1]? = some c →
      c.value = completedAt (ws.set k w1) k1 := by
  intro k1 c hk1
  rw [m2_completedAt_set ws k k1 w1 (m2_lt_length_of_get ws k w hk)]
  rw [List.getElem?_set] at hk1
  by_cases h : k = k1
  · subst h
    simp at hk1
    simp [← hk1.2, heq]
  · simp [h] at hk1 ⊢
    exact hc k1 c hk1

theorem m2_mtx_same (ws : List Worker) (ms : List Bool) (k : Nat) (w w1 : Worker)
    (hk : ws[k]? = some w)
    (hmx : ∀ (k : Nat) (b : Bool), ms[k]? = some b → b = holdsAt ws k)
    (heq : holds w1 = holds w) :
    ∀ (k1 : Nat) (b : Bool), ms[k1]? = some b → b = holdsAt (ws.set k w1) k1 := by
  intro k1 b hk1
  rw [m2_holdsAt_set ws k k1 w1 (m2_lt_length_of_get ws k w hk), hmx k1 b hk1]
  by_cases h : k = k1
  · subst h; simp [holdsAt, hk, heq]
  · simp [h]

theorem m2_mtx_write (ws : List Worker) (ms : List Bool) (k : Nat) (w w1 : Worker)
    (v : Bool) (hk : ws[k]? = some w)
    (hmx : ∀ (k : Nat) (b : Bool), ms[k]? = some b → b = holdsAt ws k)
    (heq : decide (holds w1 = 1) = v) :
    ∀ (k1 : Nat) (b : Bool), (ms.set k v)[k1]? = some b → b = holdsAt (ws.set k w1) k1 := by
  intro k1 b hk1
  rw [m2_holdsAt_set ws k k1 w1 (m2_lt_length_of_get ws k w hk)]
  rw [List.getElem?_set] at hk1
  by_cases h : k = k1
  · subst h
    simp at hk1
    simp [← hk1.2, heq]
  · simp [h] at hk1 ⊢
    exact hmx k1 b hk1

theorem m2_inv_workerStep (n m : Int) (g0 : Globals) (out0 : List Event) (s s1 : State) (k : Nat)
    (w : Worker) (hm1 : 10 * m ≤ maxInt)
    (hlt : ∀ j : Int, 0 ≤ j → (j < Int.tdiv n 10 ↔ j < m))
    (h : Inv m g0 out0 s) (hk : s.workers[k]? = some w)
    (hs : workerStep n s k w = some s1) : Inv m g0 out0 s1 := by
  obtain ⟨g, out, p, wg, i, total, pc, cs, ms, ws⟩ := s
  obtain ⟨hp, hg0, hcl, hml, hid, hc, hmx, hw, hg, hmn, ho⟩ := h
  simp only at hp hg0 hcl hml hid hc hmx hw hg hmn ho hk
  have hidk := hid k w hk
  have hklt := m2_lt_length_of_get ws k w hk
  have hk10 : k < 10 := by have := m2_len_le m _ hmn; simp at this; omega
  have hwk : WorkerOK m w := hw w (List.mem_iff_getElem?.2 ⟨k, hk⟩)
  have hsum := fun w1 => sum_map_set_nat ws alive k w w1 hk
  have hmsome : ms[k]? = some ms[k] := List.getElem?_eq_getElem (by omega)
  have hcsome : cs[k]? = some cs[k] := List.getElem?_eq_getElem (by omega)
  have hmk := hmx k _ hmsome
  have hck := hc k _ hcsome
  simp only [holdsAt, completedAt, hk] at hmk hck
  obtain ⟨wpc, id, j, tmp⟩ := w
  simp only at hidk
  subst hidk
  cases wpc <;> simp [workerStep] at hs
  · -- loopTest
    simp [WorkerOK] at hwk
    split at hs <;> rename_i hj <;> rw [hlt j hwk.1] at hj <;> simp at hs <;> subst hs
    · obtain ⟨r, hr1, hr2⟩ := hsum ⟨.lock, id, j, tmp⟩
      refine ⟨hp, hg0, hcl, hml, m2_ids_set ws id _ hid rfl, m2_cnt_same ws cs id _ _ hk hc rfl,
        m2_mtx_same ws ms id _ _ hk hmx rfl, forall_mem_set ws _ id _ hw ?_, ?_, ?_, ho⟩
      · simp [WorkerOK]; omega
      · simp only [hr2]; rw [hg, hr1]; simp [alive]
      · simpa [MainOK] using hmn
    · obtain ⟨r, hr1, hr2⟩ := hsum ⟨.done, id, j, tmp⟩
      refine ⟨hp, hg0, hcl, hml, m2_ids_set ws id _ hid rfl, m2_cnt_same ws cs id _ _ hk hc rfl,
        m2_mtx_same ws ms id _ _ hk hmx rfl, forall_mem_set ws _ id _ hw ?_, ?_, ?_, ho⟩
      · simp [WorkerOK]; omega
      · simp only [hr2]; rw [hg, hr1]; simp [alive]
      · simpa [MainOK] using hmn
  · -- lock
    rw [hmsome] at hs; simp [holds] at hmk; rw [hmk] at hs; simp at hs; subst hs
    obtain ⟨r, hr1, hr2⟩ := hsum ⟨.read, id, j, tmp⟩
    refine ⟨hp, hg0, hcl, by simpa using hml, m2_ids_set ws id _ hid rfl,
      m2_cnt_same ws cs id _ _ hk hc rfl, m2_mtx_write ws ms id _ _ true hk hmx (by simp [holds]),
      forall_mem_set ws _ id _ hw ?_, ?_, ?_, ho⟩
    · simpa [WorkerOK] using hwk
    · simp only [hr2]; rw [hg, hr1]; simp [alive]
    · simpa [MainOK] using hmn
  · -- read
    rw [hcsome] at hs; simp at hs; subst hs
    simp [completed] at hck
    obtain ⟨r, hr1, hr2⟩ := hsum ⟨.write, id, j, cs[id].value⟩
    refine ⟨hp, hg0, hcl, hml, m2_ids_set ws id _ hid rfl,
      m2_cnt_same ws cs id _ _ hk hc rfl, m2_mtx_same ws ms id _ _ hk hmx rfl,
      forall_mem_set ws _ id _ hw ?_, ?_, ?_, ho⟩
    · simp [WorkerOK] at hwk ⊢; exact ⟨hwk.1, hwk.2, hck⟩
    · simp only [hr2]; rw [hg, hr1]; simp [alive]
    · simpa [MainOK] using hmn
  · -- write
    have hlen : id < cs.length := by omega
    simp [hlen] at hs; subst hs
    simp [WorkerOK] at hwk
    obtain ⟨hj0, hj1, htmp⟩ := hwk
    subst htmp
    have hj : wrap64 (tmp + 1) = tmp + 1 := wrap64_of_range _ (by omega) (by omega)
    obtain ⟨r, hr1, hr2⟩ := hsum ⟨.sleep, id, tmp, tmp⟩
    refine ⟨hp, hg0, by simpa using hcl, hml, m2_ids_set ws id _ hid rfl,
      m2_cnt_write ws cs id _ _ _ hk hc (by simp [completed, hj]), m2_mtx_same ws ms id _ _ hk hmx rfl,
      forall_mem_set ws _ id _ hw ?_, ?_, ?_, ho⟩
    · simp [WorkerOK]; omega
    · simp only [hr2]; rw [hg, hr1]; simp [alive]
    · simpa [MainOK] using hmn
  · -- sleep
    subst hs
    obtain ⟨r, hr1, hr2⟩ := hsum ⟨.unlock, id, j, tmp⟩
    refine ⟨hp, hg0, hcl, hml, m2_ids_set ws id _ hid rfl,
      m2_cnt_same ws cs id _ _ hk hc rfl, m2_mtx_same ws ms id _ _ hk hmx rfl,
      forall_mem_set ws _ id _ hw ?_, ?_, ?_, ho⟩
    · simpa [WorkerOK] using hwk
    · simp only [hr2]; rw [hg, hr1]; simp [alive]
    · simpa [MainOK] using hmn
  · -- unlock
    rw [hmsome] at hs; simp [holds] at hmk; rw [hmk] at hs; simp at hs; subst hs
    obtain ⟨r, hr1, hr2⟩ := hsum ⟨.incr, id, j, tmp⟩
    refine ⟨hp, hg0, hcl, by simpa using hml, m2_ids_set ws id _ hid rfl,
      m2_cnt_same ws cs id _ _ hk hc rfl, m2_mtx_write ws ms id _ _ false hk hmx (by simp [holds]),
      forall_mem_set ws _ id _ hw ?_, ?_, ?_, ho⟩
    · simpa [WorkerOK] using hwk
    · simp only [hr2]; rw [hg, hr1]; simp [alive]
    · simpa [MainOK] using hmn
  · -- incr
    subst hs
    simp [WorkerOK] at hwk
    have hj : wrap64 (j + 1) = j + 1 := wrap64_of_range _ (by omega) (by omega)
    rw [hj]
    obtain ⟨r, hr1, hr2⟩ := hsum ⟨.loopTest, id, j + 1, tmp⟩
    refine ⟨hp, hg0, hcl, hml, m2_ids_set ws id _ hid rfl,
      m2_cnt_same ws cs id _ _ hk hc rfl, m2_mtx_same ws ms id _ _ hk hmx rfl,
      forall_mem_set ws _ id _ hw ?_, ?_, ?_, ho⟩
    · simp [WorkerOK]; omega
    · simp only [hr2]; rw [hg, hr1]; simp [alive]
    · simpa [MainOK] using hmn
  · -- done
    obtain ⟨r, hr1, hr2⟩ := hsum ⟨.dead, id, j, tmp⟩
    have ha1 : alive ⟨.done, id, j, tmp⟩ = 1 := rfl
    have ha0 : alive ⟨.dead, id, j, tmp⟩ = 0 := rfl
    rw [ha1] at hr1
    rw [ha0] at hr2
    have hwg : wg ≠ 0 := by omega
    simp [hwg] at hs
    subst hs
    refine ⟨hp, hg0, hcl, hml, m2_ids_set ws id _ hid rfl,
      m2_cnt_same ws cs id _ _ hk hc rfl, m2_mtx_same ws ms id _ _ hk hmx rfl,
      forall_mem_set ws _ id _ hw ?_, ?_, ?_, ?_⟩
    · simpa [WorkerOK] using hwk
    · simp only [hr2]
      by_cases hpc : pc = MPc.go <;> simp [hpc] at hg ⊢ <;> omega
    · cases pc <;> simp [MainOK] at hmn ⊢ <;> omega
    · exact ho

theorem m2_inv_step (n : Int) (g0 : Globals) (out0 : List Event) (s s1 : State) (t : Tid)
    (hn : n ≤ maxInt) (h : Inv (perWorker n) g0 out0 s) (hs : step n s t = some s1) :
    Inv (perWorker n) g0 out0 s1 := by
  unfold step at hs
  split at hs
  · simp at hs
  · cases t with
    | main => exact m2_inv_mainStep _ g0 out0 s s1 (perWorker_nonneg n) (perWorker_le n hn) h hs
    | aggregator => simp at hs
    | worker k =>
      simp only at hs
      split at hs
      · rename_i w hk
        exact m2_inv_workerStep n _ g0 out0 s s1 k w (perWorker_le n hn)
          (fun j hj => lt_tdiv_iff n j hj) h hk hs
      · simp at hs

theorem m2_measure_mainStep (m : Int) (g0 : Globals) (out0 : List Event) (s s1 : State)
    (h : Inv m g0 out0 s) (hs : mainStep s = some s1) :
    measure m s1 + 1 = measure m s := by
  obtain ⟨g, out, p, wg, i, total, pc, cs, ms, ws⟩ := s
  obtain ⟨-, -, hcl, -, -, -, -, -, -, hmn, -⟩ := h
  cases pc <;> simp [mainStep] at hs
  · simp [MainOK] at hmn
    split at hs <;> simp at hs <;> subst hs <;> simp [measure, mainRemaining]
    · ring
    · have : i = 10 := by omega
      subst this; simp; ring
  · subst hs; simp [measure, mainRemaining]; ring
  · subst hs; simp [measure, mainRemaining, remaining]; ring
  · subst hs; simp [measure, mainRemaining]; ring
  · obtain ⟨-, hs⟩ := hs; subst hs; simp [measure, mainRemaining]; ring
  · subst hs; simp [measure, mainRemaining]; ring
  · simp [MainOK] at hmn
    split at hs <;> simp at hs <;> subst hs <;> simp [measure, mainRemaining]
    · ring
    · have : i = 10 := by omega
      subst this; simp; ring
  · simp [MainOK] at hmn
    simp at hcl
    have hci : cs[i]? = some cs[i] := List.getElem?_eq_getElem (by omega)
    rw [hci] at hs; simp at hs
    subst hs; simp [measure, mainRemaining]; ring
  · subst hs; simp [measure, mainRemaining]; ring
  · subst hs; simp [measure, mainRemaining]; ring

theorem m2_measure_workerStep (n m : Int) (g0 : Globals) (out0 : List Event) (s s1 : State)
    (k : Nat) (w : Worker) (hm1 : 10 * m ≤ maxInt)
    (hlt : ∀ j : Int, 0 ≤ j → (j < Int.tdiv n 10 ↔ j < m))
    (h : Inv m g0 out0 s) (hk : s.workers[k]? = some w)
    (hs : workerStep n s k w = some s1) : measure m s1 + 1 = measure m s := by
  obtain ⟨g, out, p, wg, i, total, pc, cs, ms, ws⟩ := s
  obtain ⟨hp, hg0, hcl, hml, hid, hc, hmx, hw, hg, hmn, ho⟩ := h
  simp only at hp hg0 hcl hml hid hc hmx hw hg hmn ho hk
  have hidk := hid k w hk
  have hklt := m2_lt_length_of_get ws k w hk
  have hk10 : k < 10 := by have := m2_len_le m _ hmn; simp at this; omega
  have hwk : WorkerOK m w := hw w (List.mem_iff_getElem?.2 ⟨k, hk⟩)
  have hsum := fun w1 => sum_map_set_nat ws alive k w w1 hk
  have hrem := fun w1 => sum_map_set_int ws (remaining m) k w w1 hk
  have hmsome : ms[k]? = some ms[k] := List.getElem?_eq_getElem (by omega)
  have hcsome : cs[k]? = some cs[k] := List.getElem?_eq_getElem (by omega)
  have hmk := hmx k _ hmsome
  simp only [holdsAt, hk] at hmk
  obtain ⟨wpc, id, j, tmp⟩ := w
  simp only at hidk
  subst hidk
  cases wpc <;> simp [workerStep] at hs
  · simp [WorkerOK] at hwk
    split at hs <;> rename_i hj <;> rw [hlt j hwk.1] at hj <;> simp at hs <;> subst hs
    · obtain ⟨r, hr1, hr2⟩ := hrem ⟨.lock, id, j, tmp⟩
      simp only [measure, mainRemaining, hr1, hr2, remaining]; omega
    · obtain ⟨r, hr1, hr2⟩ := hrem ⟨.done, id, j, tmp⟩
      simp only [measure, mainRemaining, hr1, hr2, remaining]; omega
  · rw [hmsome] at hs; simp [holds] at hmk; rw [hmk] at hs; simp at hs; subst hs
    obtain ⟨r, hr1, hr2⟩ := hrem ⟨.read, id, j, tmp⟩
    simp only [measure, mainRemaining, hr1, hr2, remaining]; omega
  · rw [hcsome] at hs; simp at hs; subst hs
    obtain ⟨r, hr1, hr2⟩ := hrem ⟨.write, id, j, cs[id].value⟩
    simp only [measure, mainRemaining, hr1, hr2, remaining]; omega
  · have hlen : id < cs.length := by omega
    simp [hlen] at hs; subst hs
    obtain ⟨r, hr1, hr2⟩ := hrem ⟨.sleep, id, j, tmp⟩
    simp only [measure, mainRemaining, hr1, hr2, remaining]; omega
  · subst hs
    obtain ⟨r, hr1, hr2⟩ := hrem ⟨.unlock, id, j, tmp⟩
    simp only [measure, mainRemaining, hr1, hr2, remaining]; omega
  · rw [hmsome] at hs; simp [holds] at hmk; rw [hmk] at hs; simp at hs; subst hs
    obtain ⟨r, hr1, hr2⟩ := hrem ⟨.incr, id, j, tmp⟩
    simp only [measure, mainRemaining, hr1, hr2, remaining]; omega
  · subst hs
    simp [WorkerOK] at hwk
    have hj : wrap64 (j + 1) = j + 1 := wrap64_of_range _ (by omega) (by omega)
    rw [hj]
    obtain ⟨r, hr1, hr2⟩ := hrem ⟨.loopTest, id, j + 1, tmp⟩
    simp only [measure, mainRemaining, hr1, hr2, remaining]; omega
  · obtain ⟨r, hr1, hr2⟩ := hsum ⟨.dead, id, j, tmp⟩
    have ha1 : alive ⟨.done, id, j, tmp⟩ = 1 := rfl
    rw [ha1] at hr1
    have hwg : wg ≠ 0 := by omega
    simp [hwg] at hs
    subst hs
    obtain ⟨r, hr1, hr2⟩ := hrem ⟨.dead, id, j, tmp⟩
    simp only [measure, mainRemaining, hr1, hr2, remaining]; omega

theorem m2_measure_step (n : Int) (g0 : Globals) (out0 : List Event) (s s1 : State) (t : Tid)
    (hn : n ≤ maxInt) (h : Inv (perWorker n) g0 out0 s) (hs : step n s t = some s1) :
    measure (perWorker n) s1 + 1 = measure (perWorker n) s := by
  unfold step at hs
  split at hs
  · simp at hs
  · cases t with
    | main => exact m2_measure_mainStep _ g0 out0 s s1 h hs
    | aggregator => simp at hs
    | worker k =>
      simp only at hs
      split at hs
      · rename_i w hk
        exact m2_measure_workerStep n _ g0 out0 s s1 k w (perWorker_le n hn)
          (fun j hj => lt_tdiv_iff n j hj) h hk hs
      · simp at hs

theorem m2_remaining_nonneg (m : Int) (ws : List Worker) (hw : ∀ w ∈ ws, WorkerOK m w) :
    0 ≤ (ws.map (remaining m)).sum := by
  apply List.sum_nonneg
  intro x hx
  simp at hx
  obtain ⟨w, hmem, rfl⟩ := hx
  have := hw w hmem
  obtain ⟨pc, id, j, tmp⟩ := w
  cases pc <;> simp [WorkerOK, remaining] at this ⊢ <;> omega

theorem m2_measure_nonneg (m : Int) (g0 : Globals) (out0 : List Event) (s : State) (hm0 : 0 ≤ m)
    (h : Inv m g0 out0 s) : 0 ≤ measure m s := by
  obtain ⟨g, out, p, wg, i, total, pc, cs, ms, ws⟩ := s
  obtain ⟨hp, hg0, hcl, hml, hid, hc, hmx, hw, hg, hmn, ho⟩ := h
  have h1 := m2_remaining_nonneg m ws hw
  simp only [measure]
  have h2 : 0 ≤ mainRemaining m (⟨g, out, p, wg, i, total, pc, cs, ms, ws⟩ : State) := by
    cases pc <;> simp [mainRemaining, MainOK] at hmn ⊢
    · have : 0 ≤ (10 - (i : Int)) * (7 * m + 6) := mul_nonneg (by omega) (by omega)
      omega
    · have : 0 ≤ (10 - (i : Int)) * (7 * m + 6) := mul_nonneg (by omega) (by omega)
      omega
    · have : 0 ≤ (10 - (i : Int)) * (7 * m + 6) := mul_nonneg (by omega) (by omega)
      omega
    · have : 0 ≤ (10 - (i : Int) - 1) * (7 * m + 6) := mul_nonneg (by omega) (by omega)
      linarith
    all_goals omega
  omega

theorem m2_worker_enabled (n m : Int) (g0 : Globals) (out0 : List Event) (s : State) (k : Nat)
    (w : Worker) (h : Inv m g0 out0 s) (hk : s.workers[k]? = some w) (hd : w.pc ≠ .dead) :
    ∃ s1, step n s (.worker k) = some s1 := by
  obtain ⟨hp, hg0, hcl, hml, hid, hc, hmx, hw, hg, hmn, ho⟩ := h
  have hidk := hid k w hk
  have hklt := m2_lt_length_of_get _ k w hk
  have hk10 : k < 10 := by have := m2_len_le m _ hmn; omega
  have hmsome : s.mutexes[k]? = some s.mutexes[k] := List.getElem?_eq_getElem (by omega)
  have hcsome : s.counters[k]? = some s.counters[k] := List.getElem?_eq_getElem (by omega)
  have hmk := hmx k _ hmsome
  simp only [holdsAt, hk] at hmk
  obtain ⟨pc, id, j, tmp⟩ := w
  simp only at hidk
  subst hidk
  simp [step, hp, hk]
  cases pc <;> simp [workerStep] at hd ⊢
  · split <;> simp
  · rw [hmsome]; simp [holds] at hmk; rw [hmk]; simp
  · rw [hcsome]; simp
  · split <;> simp
  · rw [hmsome]
    split <;> simp
  · split <;> simp

theorem m2_progress (n m : Int) (g0 : Globals) (out0 : List Event) (s : State)
    (h : Inv m g0 out0 s) (hr : s.pc ≠ .ret) : ∃ t s1, step n s t = some s1 := by
  by_cases hmain : ∃ s1, step n s .main = some s1
  · exact ⟨.main, hmain⟩
  · have h1 := h
    obtain ⟨hp, hg0, hcl, hml, hid, hc, hmx, hw, hg, hmn, ho⟩ := h1
    have hwait : s.pc = .wait ∧ s.wg ≠ 0 := by
      obtain ⟨g, out, p, wg, i, total, pc, cs, ms, ws⟩ := s
      simp at hp; subst hp
      cases pc <;> simp [step, mainStep] at hmain hr ⊢
      · split at hmain <;> simp at hmain
      · exact hmain
      · split at hmain <;> simp at hmain
      · split at hmain <;> simp at hmain
    obtain ⟨hpc, hwg⟩ := hwait
    simp [hpc] at hg
    obtain ⟨k, w, hk, ha⟩ := exists_pos_of_sum_pos s.workers alive (by omega)
    have hd : w.pc ≠ .dead := by
      intro hd; simp [alive, hd] at ha
    exact ⟨.worker k, m2_worker_enabled n m g0 out0 s k w h hk hd⟩

theorem m2_after_wait (m : Int) (g0 : Globals) (out0 : List Event) (s : State)
    (h : Inv m g0 out0 s) (hr : afterWait s.pc = true) :
    s.counters.length = 10 ∧ (∀ c ∈ s.counters, c.value = m) ∧ s.workers.length = 10 ∧
      ∀ w ∈ s.workers, w.pc = .dead ∧ w.j = m := by
  obtain ⟨g, out, p, wg, i, total, pc, cs, ms, ws⟩ := s
  obtain ⟨hp, hg0, hcl, hml, hid, hc, hmx, hw, hg, hmn, ho⟩ := h
  simp only at hr hp hg0 hcl hml hid hc hmx hw hg hmn ho
  have hfacts : ws.length = 10 ∧ (ws.map alive).sum = 0 := by
    cases pc <;> simp [afterWait, MainOK] at hr hmn hg ⊢ <;> exact ⟨hmn.1, by omega⟩
  obtain ⟨hl, hdead⟩ := hfacts
  refine ⟨hcl, ?_, hl, m2_all_dead m ws hw hdead⟩
  intro c hmem
  obtain ⟨k, hk⟩ := List.mem_iff_getElem?.1 hmem
  have hk10 := m2_lt_length_of_get cs k c hk
  rw [hc k c hk, m2_completedAt_of_dead m ws hw hdead k (by omega)]

theorem m2_at_ret (m : Int) (g0 : Globals) (out0 : List Event) (s : State)
    (h : Inv m g0 out0 s) (hr : s.pc = .ret) :
    s.out = out0 ++ [.count (10 * m)] ∧ s.g = g0 ∧ s.panicked = false ∧
      s.workers.length = 10 ∧ (∀ w ∈ s.workers, w.pc = .dead ∧ w.j = m) ∧
      s.counters.length = 10 ∧ (∀ c ∈ s.counters, c.value = m) ∧
      (s.counters.map (fun c => c.value)).sum = 10 * m := by
  obtain ⟨h1, h2, h3, h4⟩ := m2_after_wait m g0 out0 s h (by simp [hr, afterWait])
  have hsum := sum_map_const s.counters (fun c => c.value) m h2
  rw [h1] at hsum
  obtain ⟨hp, hg0, hcl, hml, hid, hc, hmx, hw, hg, hmn, ho⟩ := h
  simp [hr] at ho
  exact ⟨ho, hg0, hp, h3, h4, h1, h2, by simpa using hsum⟩

theorem m2_out_cases (m : Int) (g0 : Globals) (out0 : List Event) (s : State)
    (h : Inv m g0 out0 s) : s.out = out0 ∨ s.out = out0 ++ [.count (10 * m)] := by
  obtain ⟨hp, hg0, hcl, hml, hid, hc, hmx, hw, hg, hmn, ho⟩ := h
  by_cases hr : s.pc = .ret
  · right; simpa [hr] using ho
  · left; simpa [hr] using ho

/-- Total correctness of `testConcurrencyMethod2`. -/
theorem m2_total (n : Int) (g0 : Globals) (out0 : List Event) (hn : n ≤ maxInt) :
    AlwaysReturns (step n) (init g0 out0) (fun s => s.pc = .ret)
      (fun s => s.out = out0 ++ [.count (10 * perWorker n)] ∧ s.g = g0 ∧ s.panicked = false ∧
        s.workers.length = 10 ∧ (∀ w ∈ s.workers, w.pc = .dead ∧ w.j = perWorker n) ∧
        s.counters.length = 10 ∧ (∀ c ∈ s.counters, c.value = perWorker n) ∧
        (s.counters.map (fun c => c.value)).sum = 10 * perWorker n)
      (70 * perWorker n + 95) := by
  apply alwaysReturns_of_inv (step n) _ _ _ _ (Inv (perWorker n) g0 out0) (measure (perWorker n))
  · exact m2_inv_init _ g0 out0
  · intro s t s1 h hs; exact m2_inv_step n g0 out0 s s1 t hn h hs
  · intro s t s1 h hs; exact le_of_eq (m2_measure_step n g0 out0 s s1 t hn h hs)
  · intro s h; exact m2_measure_nonneg _ g0 out0 s (perWorker_nonneg n) h
  · intro s h hr; exact m2_progress n _ g0 out0 s h hr
  · intro s h hr; exact m2_at_ret _ g0 out0 s h hr
  · simp [measure, mainRemaining, init]; ring_nf; rfl

end testConcurrencyMethod2

end PerformanceExamples

/-! ## `testConcurrencyMethod3`: invariant, step count, progress -/

namespace PerformanceExamples

namespace testConcurrencyMethod3

theorem m3_inv_init (n m : Int) (g0 : Globals) (out0 : List Event) :
    Inv n m g0 out0 (init g0 out0) := by
  simp [Inv, init, MainOK, AggOK, aggDead, received]

theorem m3_all_dead (m : Int) (ws : List Worker) (hw : ∀ w ∈ ws, WorkerOK m w)
    (ha : (ws.map alive).sum = 0) : ∀ w ∈ ws, w.pc = .dead ∧ w.j = m := by
  intro w hmem
  have h1 := sum_map_eq_zero ws alive ha w hmem
  have h2 := hw w hmem
  obtain ⟨pc, j⟩ := w
  cases pc <;> simp [alive, WorkerOK] at h1 h2 ⊢
  exact h2

theorem m3_sent_sum_of_dead (m : Int) (ws : List Worker) (hw : ∀ w ∈ ws, WorkerOK m w)
    (ha : (ws.map alive).sum = 0) : (ws.map sent).sum = ws.length * m := by
  apply sum_map_const
  intro w hmem
  obtain ⟨h1, h2⟩ := m3_all_dead m ws hw ha w hmem
  simp [sent, h1, h2]

theorem m3_sent_le (m : Int) (w : Worker) (h : WorkerOK m w) : sent w ≤ m := by
  obtain ⟨pc, j⟩ := w
  cases pc <;> simp [WorkerOK, sent] at h ⊢ <;> omega

theorem m3_sent_sum_le (m : Int) (ws : List Worker) (hw : ∀ w ∈ ws, WorkerOK m w) :
    (ws.map sent).sum ≤ ws.length * m := by
  induction ws with
  | nil => simp
  | cons a l ih =>
    simp only [List.forall_mem_cons] at hw
    have h1 := m3_sent_le m a hw.1
    have h2 := ih hw.2
    simp only [List.map_cons, List.sum_cons, List.length_cons]
    push_cast
    linarith

theorem m3_sent_sum_le_ten (m : Int) (ws : List Worker) (hw : ∀ w ∈ ws, WorkerOK m w)
    (hm0 : 0 ≤ m) (hl : ws.length ≤ 10) : (ws.map sent).sum ≤ 10 * m := by
  have h1 := m3_sent_sum_le m ws hw
  have h2 := mul_le_ten (ws.length : Int) m (by omega) (by omega) hm0
  omega

theorem m3_send_room (m : Int) (ws : List Worker) (k : Nat) (w : Worker)
    (hw : ∀ w ∈ ws, WorkerOK m w) (hk : ws[k]? = some w) (hpc : w.pc = .send)
    (hm0 : 0 ≤ m) (hl : ws.length ≤ 10) : (ws.map sent).sum + 1 ≤ 10 * m := by
  obtain ⟨pre, post, h1, -, -⟩ := split_at ws k w hk
  subst h1
  simp only [List.forall_mem_append, List.forall_mem_cons] at hw
  obtain ⟨hw1, hw2, hw3⟩ := hw
  have h1 := m3_sent_sum_le m pre hw1
  have h3 := m3_sent_sum_le m post hw3
  obtain ⟨pc, j⟩ := w
  simp at hpc; subst hpc
  simp [WorkerOK] at hw2
  simp at hl
  have h4 := mul_le_ten ((pre.length : Int) + post.length + 1) m (by omega) (by omega) hm0
  simp only [List.map_append, List.map_cons, List.sum_append, List.sum_cons, sent]
  have h5 : ((pre.length : Int) + post.length + 1) * m = pre.length * m + post.length * m + m := by
    ring
  omega

theorem m3_len_le (n : Int) (s : State) (h : MainOK n s) : s.workers.length ≤ 10 := by
  obtain ⟨g, out, p, wg, i, pc, ch, agg, ws⟩ := s
  cases pc <;> simp [MainOK] at h ⊢ <;> (try simp [h.1]) <;> omega

theorem m3_ok_mainStep (n m : Int) (g0 : Globals) (out0 : List Event) (s s1 : State)
    (hn0 : 0 ≤ n) (hn : n ≤ maxInt) (hm0 : 0 ≤ m) (h : Inv n m g0 out0 s)
    (hs : mainStep n s = some s1) :
    Inv n m g0 out0 s1 ∧ measure m s1 + 1 = measure m s := by
  obtain ⟨g, out, p, wg, i, pc, ch, agg, ws⟩ := s
  obtain ⟨hp, hg0, hone, hbal, hw, hg, hmn, hag, hrt⟩ := h
  simp only at hp hg0 hone hbal hw hg hmn hag hrt
  cases pc <;> simp [mainStep, mainStepOn] at hs
  · -- mkInc
    have hn1 : ¬ n < 0 := by omega
    have hn2 : ¬ maxInt < n := by omega
    simp [hn1, hn2] at hs; subst hs
    simp [MainOK] at hmn
    obtain ⟨h1, h2, h3, h4, h5, h6⟩ := hmn
    subst h1 h2 h3 h4
    refine ⟨⟨hp, hg0, by simp, by simp [received], hw, by simp, by simp [MainOK], ?_, by simp [aggDead]⟩, ?_⟩
    · simpa [AggOK] using hag
    · simp [measure, mainRemaining, h5]; ring
  · -- mkDone
    subst hs
    refine ⟨⟨hp, hg0, hone, hbal, hw, by simpa using hg, by simpa [MainOK] using hmn,
      by simpa [AggOK] using hag, ?_⟩, ?_⟩
    · simp [MainOK] at hmn; simp [hmn, aggDead]
    · simp [measure, mainRemaining]; ring
  · -- goAgg
    subst hs
    simp [MainOK] at hmn
    obtain ⟨h1, h2, h3, h4, h5, h6, h7⟩ := hmn
    subst h1 h2 h3 h4
    simp [AggOK] at hag
    refine ⟨⟨hp, hg0, hone, ?_, hw, by simp, by simp [MainOK, h6, h7], by simp [AggOK, hag],
      by simp [aggDead]⟩, ?_⟩
    · simp [received, h5]
    · simp [measure, mainRemaining, aggRemaining]; ring
  · -- loopTest
    simp [MainOK] at hmn; simp at hg hrt
    split at hs <;> simp at hs <;> subst hs
    · refine ⟨⟨hp, hg0, hone, hbal, hw, by simpa using hg, ?_, by simpa [AggOK] using hag,
        by simpa using hrt⟩, ?_⟩
      · simp [MainOK, hmn]; omega
      · simp [measure, mainRemaining]; ring
    · refine ⟨⟨hp, hg0, hone, hbal, hw, by simpa using hg, ?_, by simpa [AggOK] using hag,
        by simpa using hrt⟩, ?_⟩
      · simp [MainOK, hmn]; omega
      · have : i = 10 := by omega
        subst this
        simp [measure, mainRemaining]; ring
  · -- add
    subst hs
    simp [MainOK] at hmn; simp at hg hrt
    refine ⟨⟨hp, hg0, hone, hbal, hw, by simpa using hg, by simp [MainOK, hmn],
      by simpa [AggOK] using hag, by simpa using hrt⟩, ?_⟩
    simp [measure, mainRemaining]; ring
  · -- go
    subst hs
    simp [MainOK] at hmn; simp at hg hrt
    refine ⟨⟨hp, hg0, hone, ?_, ?_, ?_, ?_, by simpa [AggOK] using hag, by simpa using hrt⟩, ?_⟩
    · simpa [sent] using hbal
    · simp only [List.forall_mem_append, List.forall_mem_cons]
      exact ⟨hw, by simp [WorkerOK, hm0], by simp⟩
    · simp [alive]; omega
    · simp [MainOK, hmn]
    · simp [measure, mainRemaining, remaining]; ring
  · -- incr
    subst hs
    simp [MainOK] at hmn; simp at hg hrt
    refine ⟨⟨hp, hg0, hone, hbal, hw, by simpa using hg, ?_,
      by simpa [AggOK] using hag, by simpa using hrt⟩, ?_⟩
    · simp [MainOK, hmn]; omega
    · simp [measure, mainRemaining]; ring
  · -- wait
    obtain ⟨h0, hs⟩ := hs
    subst hs
    simp [MainOK] at hmn; simp at hg hrt
    refine ⟨⟨hp, hg0, hone, hbal, hw, by simpa using hg, by simp [MainOK, hmn, h0],
      by simpa [AggOK] using hag, by simpa using hrt⟩, ?_⟩
    simp [measure, mainRemaining]; ring
  · -- close
    simp [MainOK] at hmn; simp at hg hrt
    simp [hmn] at hs
    subst hs
    obtain ⟨h1, h2, h3, h4, h5, h6⟩ := hmn
    refine ⟨⟨hp, hg0, hone, hbal, hw, by simp; omega, by simp [MainOK, h1, h6], ?_,
      by simpa using hrt⟩, ?_⟩
    · cases agg with
      | none => simp at h6
      | some a =>
        obtain ⟨apc, tot, inc⟩ := a
        cases apc <;> simp [AggOK, h5] at hag ⊢ <;> exact hag
    · simp [measure, mainRemaining]; ring

theorem m3_received_nonneg (m : Int) (out0 : List Event) (s : State) (h : AggOK m out0 s) :
    0 ≤ received s.agg := by
  obtain ⟨g, out, p, wg, i, pc, ch, agg, ws⟩ := s
  cases agg with
  | none => simp [received]
  | some a =>
    obtain ⟨apc, tot, inc⟩ := a
    cases apc <;> simp [AggOK, received] at h ⊢ <;> omega

theorem m3_open_of_alive (n : Int) (s : State) (k : Nat) (w : Worker) (hmn : MainOK n s)
    (hg : s.wg = (s.workers.map alive).sum + (if s.pc = .go then 1 else 0))
    (hk : s.workers[k]? = some w) (hal : w.pc ≠ .dead) :
    s.increments.closed = false ∧ s.increments.cap = n ∧ 0 < s.wg := by
  obtain ⟨r, hr1, -⟩ := sum_map_set_nat s.workers alive k w w hk
  have ha : alive w = 1 := by
    obtain ⟨wpc, j⟩ := w
    cases wpc <;> simp [alive] at hal ⊢
  have hwg : 0 < s.wg := by omega
  obtain ⟨g, out, p, wg, i, pc, ch, agg, ws⟩ := s
  cases pc <;> simp [MainOK] at hmn hk hwg ⊢
  · simp [hmn.1] at hk
  · simp [hmn.1] at hk
  · simp [hmn.1] at hk
  · exact ⟨hmn.2.2.2.1, hmn.2.2.1, hwg⟩
  · exact ⟨hmn.2.2.2.1, hmn.2.2.1, hwg⟩
  · exact ⟨hmn.2.2.2.1, hmn.2.2.1, hwg⟩
  · exact ⟨hmn.2.2.2.1, hmn.2.2.1, hwg⟩
  · exact ⟨hmn.2.2.2.1, hmn.2.2.1, hwg⟩
  · omega
  · omega
  · omega

theorem m3_aggOK_open (m : Int) (out0 : List Event) (s s1 : State) (h : AggOK m out0 s)
    (hc : s.increments.closed = false) (ha : s1.agg = s.agg) (ho : s1.out = s.out) :
    AggOK m out0 s1 := by
  obtain ⟨g, out, p, wg, i, pc, ch, agg, ws⟩ := s
  obtain ⟨g1, out1, p1, wg1, i1, pc1, ch1, agg1, ws1⟩ := s1
  simp at hc ha ho
  subst ha ho
  cases agg1 with
  | none => simpa [AggOK] using h
  | some a =>
    obtain ⟨apc, tot, inc⟩ := a
    cases apc <;> simp [AggOK, hc] at h ⊢ <;> exact h

theorem m3_ok_workerStep (n m : Int) (g0 : Globals) (out0 : List Event) (s s1 : State) (k : Nat)
    (w : Worker) (hm0 : 0 ≤ m) (hm1 : 10 * m ≤ maxInt) (hmle : 10 * m ≤ n)
    (hlt : ∀ j : Int, 0 ≤ j → (j < Int.tdiv n 10 ↔ j < m))
    (h : Inv n m g0 out0 s) (hk : s.workers[k]? = some w)
    (hs : workerStep n s k w = some s1) :
    Inv n m g0 out0 s1 ∧ measure m s1 + 1 = measure m s := by
  obtain ⟨hp, hg0, hone, hbal, hw, hg, hmn, hag, hrt⟩ := h
  have hwk : WorkerOK m w := hw w (List.mem_iff_getElem?.2 ⟨k, hk⟩)
  have hal := fun w1 => sum_map_set_nat s.workers alive k w w1 hk
  have hrem := fun w1 => sum_map_set_int s.workers (remaining m) k w w1 hk
  have hsent := fun w1 => sum_map_set_int s.workers sent k w w1 hk
  have hopen := m3_open_of_alive n s k w hmn hg hk
  have hroom := m3_send_room m s.workers k w hw hk
  have hrec := m3_received_nonneg m out0 s hag
  have hlen := m3_len_le n s hmn
  obtain ⟨g, out, p, wg, i, pc, ch, agg, ws⟩ := s
  simp only at hp hg0 hone hbal hw hg hmn hag hrt hk hal hrem hsent hopen hroom hrec hlen
  obtain ⟨wpc, j⟩ := w
  cases wpc <;> simp [workerStep] at hs
  · -- loopTest
    simp [WorkerOK] at hwk
    split at hs <;> rename_i hj <;> rw [hlt j hwk.1] at hj <;> simp at hs <;> subst hs
    · obtain ⟨r, hr1, hr2⟩ := hal ⟨.send, j⟩
      obtain ⟨r1, hr3, hr4⟩ := hrem ⟨.send, j⟩
      obtain ⟨r2, hr5, hr6⟩ := hsent ⟨.send, j⟩
      refine ⟨⟨hp, hg0, hone, ?_, forall_mem_set ws _ k _ hw ?_, ?_, ?_,
        by simpa [AggOK] using hag, hrt⟩, ?_⟩
      · simp only [hr6]; rw [hbal, hr5]; simp [sent]
      · simp [WorkerOK]; omega
      · simp only [hr2]; rw [hg, hr1]; simp [alive]
      · simpa [MainOK] using hmn
      · simp only [measure, mainRemaining, hr3, hr4, remaining]; omega
    · obtain ⟨r, hr1, hr2⟩ := hal ⟨.done, j⟩
      obtain ⟨r1, hr3, hr4⟩ := hrem ⟨.done, j⟩
      obtain ⟨r2, hr5, hr6⟩ := hsent ⟨.done, j⟩
      refine ⟨⟨hp, hg0, hone, ?_, forall_mem_set ws _ k _ hw ?_, ?_, ?_,
        by simpa [AggOK] using hag, hrt⟩, ?_⟩
      · simp only [hr6]; rw [hbal, hr5]; simp [sent]
      · simp [WorkerOK]; omega
      · simp only [hr2]; rw [hg, hr1]; simp [alive]
      · simpa [MainOK] using hmn
      · simp only [measure, mainRemaining, hr3, hr4, remaining]; omega
  · -- send
    obtain ⟨hcl, hcap, -⟩ := hopen (by simp)
    have hroom1 := hroom rfl hm0 hlen
    have hlt1 : (ch.buf.length : Int) < ch.cap := by omega
    simp [hcl, hlt1] at hs
    subst hs
    simp [WorkerOK] at hwk
    obtain ⟨r, hr1, hr2⟩ := hal ⟨.sleep, j⟩
    obtain ⟨r1, hr3, hr4⟩ := hrem ⟨.sleep, j⟩
    obtain ⟨r2, hr5, hr6⟩ := hsent ⟨.sleep, j⟩
    refine ⟨⟨hp, hg0, ?_, ?_, forall_mem_set ws _ k _ hw ?_, ?_, ?_, ?_, hrt⟩, ?_⟩
    · intro v hv
      simp only [List.mem_append, List.mem_singleton] at hv
      rcases hv with hv | hv
      · exact hone v hv
      · exact hv
    · simp only [hr6]
      simp only [sent] at hr5 ⊢
      simp only [List.length_append, List.length_cons, List.length_nil]
      push_cast
      omega
    · simp [WorkerOK]; omega
    · simp only [hr2]; rw [hg, hr1]; simp [alive]
    · clear hal hrem hsent hroom hopen
      cases pc <;> simp_all [MainOK]
    · exact m3_aggOK_open m out0 _ _ hag hcl rfl rfl
    · simp only [measure, mainRemaining, hr3, hr4, remaining, List.length_append,
        List.length_cons, List.length_nil]
      push_cast
      omega
  · -- sleep
    subst hs
    simp [WorkerOK] at hwk
    obtain ⟨r, hr1, hr2⟩ := hal ⟨.incr, j⟩
    obtain ⟨r1, hr3, hr4⟩ := hrem ⟨.incr, j⟩
    obtain ⟨r2, hr5, hr6⟩ := hsent ⟨.incr, j⟩
    refine ⟨⟨hp, hg0, hone, ?_, forall_mem_set ws _ k _ hw ?_, ?_, ?_,
      by simpa [AggOK] using hag, hrt⟩, ?_⟩
    · simp only [hr6]; rw [hbal, hr5]; simp [sent]
    · simp [WorkerOK]; omega
    · simp only [hr2]; rw [hg, hr1]; simp [alive]
    · simpa [MainOK] using hmn
    · simp only [measure, mainRemaining, hr3, hr4, remaining]; omega
  · -- incr
    subst hs
    simp [WorkerOK] at hwk
    have hj : wrap64 (j + 1) = j + 1 := wrap64_of_range _ (by omega) (by omega)
    rw [hj]
    obtain ⟨r, hr1, hr2⟩ := hal ⟨.loopTest, j + 1⟩
    obtain ⟨r1, hr3, hr4⟩ := hrem ⟨.loopTest, j + 1⟩
    obtain ⟨r2, hr5, hr6⟩ := hsent ⟨.loopTest, j + 1⟩
    refine ⟨⟨hp, hg0, hone, ?_, forall_mem_set ws _ k _ hw ?_, ?_, ?_,
      by simpa [AggOK] using hag, hrt⟩, ?_⟩
    · simp only [hr6]; rw [hbal, hr5]; simp [sent]
    · simp [WorkerOK]; omega
    · simp only [hr2]; rw [hg, hr1]; simp [alive]
    · simpa [MainOK] using hmn
    · simp only [measure, mainRemaining, hr3, hr4, remaining]; omega
  · -- done
    obtain ⟨-, -, hwg⟩ := hopen (by simp)
    have hwg1 : wg ≠ 0 := by omega
    simp [hwg1] at hs
    subst hs
    obtain ⟨r, hr1, hr2⟩ := hal ⟨.dead, j⟩
    obtain ⟨r1, hr3, hr4⟩ := hrem ⟨.dead, j⟩
    obtain ⟨r2, hr5, hr6⟩ := hsent ⟨.dead, j⟩
    have ha1 : alive ⟨.done, j⟩ = 1 := rfl
    have ha0 : alive ⟨.dead, j⟩ = 0 := rfl
    rw [ha1] at hr1
    rw [ha0] at hr2
    refine ⟨⟨hp, hg0, hone, ?_, forall_mem_set ws _ k _ hw ?_, ?_, ?_,
      by simpa [AggOK] using hag, hrt⟩, ?_⟩
    · simp only [hr6]; rw [hbal, hr5]; simp [sent]
    · simpa [WorkerOK] using hwk
    · simp only [hr2]
      by_cases hpc : pc = MPc.go <;> simp [hpc] at hg ⊢ <;> omega
    · cases pc <;> simp [MainOK] at hmn ⊢ <;> first | omega | (simp [hmn.1] at hk) | exact hmn
    · simp only [measure, mainRemaining, hr3, hr4, remaining]; omega

theorem m3_ok_aggStep (n m : Int) (g0 : Globals) (out0 : List Event) (s s1 : State) (a : Agg)
    (hm0 : 0 ≤ m) (hm1 : 10 * m ≤ maxInt)
    (h : Inv n m g0 out0 s) (ha : s.agg = some a) (hs : aggStep s a = some s1) :
    Inv n m g0 out0 s1 ∧ measure m s1 + 1 = measure m s := by
  obtain ⟨hp, hg0, hone, hbal, hw, hg, hmn, hag, hrt⟩ := h
  have hlen := m3_len_le n s hmn
  have hle := m3_sent_sum_le_ten m s.workers hw hm0 hlen
  obtain ⟨g, out, p, wg, i, pc, ch, agg, ws⟩ := s
  simp only at hp hg0 hone hbal hw hg hmn hag hrt ha hlen hle
  subst ha
  obtain ⟨apc, tot, inc⟩ := a
  obtain ⟨buf, cap, closed⟩ := ch
  simp only at hone hbal hmn hag
  cases apc <;> simp [aggStep] at hs
  · -- recv
    cases buf with
    | cons v rest =>
      simp at hs; subst hs
      simp only [List.forall_mem_cons] at hone
      obtain ⟨hv, hrest⟩ := hone
      subst hv
      simp [AggOK] at hag
      simp [aggDead] at hrt
      refine ⟨⟨hp, hg0, hrest, ?_, hw, hg, ?_, ?_, ?_⟩, ?_⟩
      · simp [received] at hbal ⊢; omega
      · cases pc <;> simp [MainOK] at hmn ⊢ <;> exact hmn
      · simp [AggOK, hag]
      · simp [aggDead, hrt]
      · simp [measure, aggRemaining, mainRemaining]; ring
    | nil =>
      simp at hs
      obtain ⟨hcl, hs⟩ := hs
      subst hs hcl
      simp [AggOK] at hag
      simp [aggDead] at hrt
      have hwg : wg = 0 := by
        cases pc <;> simp [MainOK] at hmn <;> exact hmn.2.2.1
      have hl10 : ws.length = 10 := by
        cases pc <;> simp [MainOK] at hmn <;> exact hmn.1
      have hsum := m3_sent_sum_of_dead m ws hw (by omega)
      rw [hl10] at hsum
      refine ⟨⟨hp, hg0, hone, ?_, hw, hg, ?_, ?_, ?_⟩, ?_⟩
      · simpa [received] using hbal
      · simpa [MainOK] using hmn
      · simp [received] at hbal
        simp [AggOK, hag]
        rw [hbal, hsum]; norm_num
      · simp [aggDead, hrt]
      · simp [measure, aggRemaining, mainRemaining]; ring
  · -- add
    subst hs
    simp [AggOK] at hag
    simp [aggDead] at hrt
    obtain ⟨h0, hinc, hout⟩ := hag
    subst hinc
    simp [received] at hbal
    have hwrap : wrap64 (tot + 1) = tot + 1 :=
      wrap64_of_range _ (by omega) (by omega)
    rw [hwrap]
    refine ⟨⟨hp, hg0, hone, ?_, hw, hg, ?_, ?_, ?_⟩, ?_⟩
    · simp [received]; omega
    · simpa [MainOK] using hmn
    · simp [AggOK, hout]; omega
    · simp [aggDead, hrt]
    · simp [measure, aggRemaining, mainRemaining]; ring
  · -- print
    subst hs
    simp [AggOK] at hag
    simp [aggDead] at hrt
    obtain ⟨h0, hcl, hbuf, htot, hout⟩ := hag
    refine ⟨⟨hp, hg0, hone, ?_, hw, hg, ?_, ?_, ?_⟩, ?_⟩
    · simpa [received] using hbal
    · simpa [MainOK] using hmn
    · simp [AggOK, hcl, hbuf, htot, hout, h0]
      omega
    · simp [aggDead, hrt]
    · simp [measure, aggRemaining, mainRemaining]; ring
  · -- sendDone
    obtain ⟨hpc, hs⟩ := hs
    subst hs hpc
    simp [AggOK] at hag
    refine ⟨⟨hp, hg0, hone, ?_, hw, ?_, ?_, ?_, ?_⟩, ?_⟩
    · simpa [received] using hbal
    · simpa using hg
    · simpa [MainOK] using hmn
    · simp [AggOK, hag, hm0]
    · simp [aggDead]
    · simp [measure, aggRemaining, mainRemaining]; ring

theorem m3_ok_step (n : Int) (g0 : Globals) (out0 : List Event) (s s1 : State) (t : Tid)
    (hn0 : 0 ≤ n) (hn : n ≤ maxInt) (h : Inv n (perWorker n) g0 out0 s)
    (hs : step n s t = some s1) :
    Inv n (perWorker n) g0 out0 s1 ∧ measure (perWorker n) s1 + 1 = measure (perWorker n) s := by
  have hmle : 10 * perWorker n ≤ n := by
    rw [perWorker_of_nonneg n hn0]; omega
  unfold step stepOn at hs
  split at hs
  · simp at hs
  · cases t with
    | main => exact m3_ok_mainStep n _ g0 out0 s s1 hn0 hn (perWorker_nonneg n) h hs
    | aggregator =>
      simp only at hs
      split at hs
      · rename_i a ha
        exact m3_ok_aggStep n _ g0 out0 s s1 a (perWorker_nonneg n) (perWorker_le n hn) h ha hs
      · simp at hs
    | worker k =>
      simp only at hs
      split at hs
      · rename_i w hk
        exact m3_ok_workerStep n _ g0 out0 s s1 k w (perWorker_nonneg n) (perWorker_le n hn) hmle
          (fun j hj => lt_tdiv_iff n j hj) h hk hs
      · simp at hs

theorem m3_remaining_nonneg (m : Int) (ws : List Worker) (hw : ∀ w ∈ ws, WorkerOK m w) :
    0 ≤ (ws.map (remaining m)).sum := by
  apply List.sum_nonneg
  intro x hx
  simp at hx
  obtain ⟨w, hmem, rfl⟩ := hx
  have := hw w hmem
  obtain ⟨pc, j⟩ := w
  cases pc <;> simp [WorkerOK, remaining] at this ⊢ <;> omega

theorem m3_aggRemaining_nonneg (a : Option Agg) : 0 ≤ aggRemaining a := by
  cases a with
  | none => simp [aggRemaining]
  | some a =>
    obtain ⟨apc, tot, inc⟩ := a
    cases apc <;> simp [aggRemaining]

theorem m3_measure_nonneg (n m : Int) (g0 : Globals) (out0 : List Event) (s : State)
    (hm0 : 0 ≤ m) (h : Inv n m g0 out0 s) : 0 ≤ measure m s := by
  obtain ⟨g, out, p, wg, i, pc, ch, agg, ws⟩ := s
  obtain ⟨hp, hg0, hone, hbal, hw, hg, hmn, hag, hrt⟩ := h
  have h1 := m3_remaining_nonneg m ws hw
  have h3 := m3_aggRemaining_nonneg agg
  simp only [measure]
  have h2 : 0 ≤ mainRemaining m (⟨g, out, p, wg, i, pc, ch, agg, ws⟩ : State) := by
    cases pc <;> simp [mainRemaining, MainOK] at hmn ⊢
    · omega
    · omega
    · omega
    · have : 0 ≤ (10 - (i : Int)) * (6 * m + 6) := mul_nonneg (by omega) (by omega)
      omega
    · have : 0 ≤ (10 - (i : Int)) * (6 * m + 6) := mul_nonneg (by omega) (by omega)
      omega
    · have : 0 ≤ (10 - (i : Int)) * (6 * m + 6) := mul_nonneg (by omega) (by omega)
      omega
    · have : 0 ≤ (10 - (i : Int) - 1) * (6 * m + 6) := mul_nonneg (by omega) (by omega)
      linarith
  have h4 : (0 : Int) ≤ 2 * (ch.buf.length : Int) := by omega
  simp only at h4 ⊢
  omega

theorem m3_worker_enabled (n m : Int) (g0 : Globals) (out0 : List Event) (s : State) (k : Nat)
    (w : Worker) (hm0 : 0 ≤ m) (hmle : 10 * m ≤ n) (h : Inv n m g0 out0 s)
    (hk : s.workers[k]? = some w) (hd : w.pc ≠ .dead) :
    ∃ s1, step n s (.worker k) = some s1 := by
  obtain ⟨hp, hg0, hone, hbal, hw, hg, hmn, hag, hrt⟩ := h
  obtain ⟨hcl, hcap, -⟩ := m3_open_of_alive n s k w hmn hg hk hd
  have hroom := m3_send_room m s.workers k w hw hk
  have hrec := m3_received_nonneg m out0 s hag
  have hlen := m3_len_le n s hmn
  obtain ⟨pc, j⟩ := w
  simp [step, stepOn, hp, hk]
  cases pc <;> simp [workerStep] at hd ⊢
  · split <;> simp
  · have hroom1 := hroom rfl hm0 hlen
    have hlt1 : (s.increments.buf.length : Int) < s.increments.cap := by omega
    simp [hcl, hlt1]
  · split <;> simp

theorem m3_agg_enabled (n m : Int) (g0 : Globals) (out0 : List Event) (s : State)
    (h : Inv n m g0 out0 s) (hpc : s.pc = .recvDone) :
    ∃ s1, step n s .aggregator = some s1 := by
  obtain ⟨hp, hg0, hone, hbal, hw, hg, hmn, hag, hrt⟩ := h
  obtain ⟨g, out, p, wg, i, pc, ch, agg, ws⟩ := s
  simp only at hp hpc hmn hrt
  subst hpc
  simp [MainOK] at hmn
  cases agg with
  | none => simp at hmn
  | some a =>
    obtain ⟨apc, tot, inc⟩ := a
    obtain ⟨buf, cap, closed⟩ := ch
    simp [step, stepOn, hp]
    cases apc <;> simp [aggStep, aggDead] at hrt ⊢
    cases buf with
    | nil => simpa using hmn.2.2.2.2.1
    | cons v rest => simp

theorem m3_progress (n m : Int) (g0 : Globals) (out0 : List Event) (s : State)
    (hm0 : 0 ≤ m) (hmle : 10 * m ≤ n) (h : Inv n m g0 out0 s) (hr : s.pc ≠ .ret) :
    ∃ t s1, step n s t = some s1 := by
  by_cases hmain : ∃ s1, step n s .main = some s1
  · exact ⟨.main, hmain⟩
  · have h1 := h
    obtain ⟨hp, hg0, hone, hbal, hw, hg, hmn, hag, hrt⟩ := h1
    have hcase : (s.pc = .wait ∧ s.wg ≠ 0) ∨ s.pc = .recvDone := by
      obtain ⟨g, out, p, wg, i, pc, ch, agg, ws⟩ := s
      simp at hp; subst hp
      cases pc <;> simp [step, stepOn, mainStep, mainStepOn] at hmain hr ⊢
      · split at hmain <;> simp at hmain
      · split at hmain <;> simp at hmain
      · exact hmain
      · split at hmain <;> simp at hmain
    rcases hcase with ⟨hpc, hwg⟩ | hpc
    · simp [hpc] at hg
      obtain ⟨k, w, hk, ha⟩ := exists_pos_of_sum_pos s.workers alive (by omega)
      have hd : w.pc ≠ .dead := by
        intro hd; simp [alive, hd] at ha
      exact ⟨.worker k, m3_worker_enabled n m g0 out0 s k w hm0 hmle h hk hd⟩
    · exact ⟨.aggregator, m3_agg_enabled n m g0 out0 s h hpc⟩

theorem m3_at_closed (n m : Int) (g0 : Globals) (out0 : List Event) (s : State)
    (h : Inv n m g0 out0 s) (hc : s.increments.closed = true) :
    (s.pc = .recvDone ∨ s.pc = .ret) ∧ s.workers.length = 10 ∧
      ∀ w ∈ s.workers, w.pc = .dead ∧ w.j = m := by
  obtain ⟨g, out, p, wg, i, pc, ch, agg, ws⟩ := s
  obtain ⟨hp, hg0, hone, hbal, hw, hg, hmn, hag, hrt⟩ := h
  simp only at hc hp hg0 hone hbal hw hg hmn hag hrt
  have hfacts : (pc = .recvDone ∨ pc = .ret) ∧ ws.length = 10 ∧ (ws.map alive).sum = 0 := by
    cases pc <;> simp [MainOK, hc] at hmn hg ⊢ <;> exact ⟨hmn.1, by omega⟩
  exact ⟨hfacts.1, hfacts.2.1, m3_all_dead m ws hw hfacts.2.2⟩

theorem m3_at_ret (n m : Int) (g0 : Globals) (out0 : List Event) (s : State)
    (h : Inv n m g0 out0 s) (hr : s.pc = .ret) :
    s.out = out0 ++ [.count (10 * m)] ∧ s.g = g0 ∧ s.panicked = false ∧
      s.workers.length = 10 ∧ (∀ w ∈ s.workers, w.pc = .dead ∧ w.j = m) ∧
      s.increments.closed = true ∧ s.increments.buf = [] ∧
      ∃ a, s.agg = some a ∧ a.pc = .dead ∧ a.total = 10 * m := by
  have h1 := h
  obtain ⟨hp, hg0, hone, hbal, hw, hg, hmn, hag, hrt⟩ := h1
  have hd := hrt.1 hr
  have hcl : s.increments.closed = true := by
    obtain ⟨g, out, p, wg, i, pc, ch, agg, ws⟩ := s
    simp only at hr hmn
    subst hr
    simp [MainOK] at hmn
    exact hmn.2.2.2.2.1
  obtain ⟨-, h3, h4⟩ := m3_at_closed n m g0 out0 s h hcl
  obtain ⟨g, out, p, wg, i, pc, ch, agg, ws⟩ := s
  cases agg with
  | none => simp [aggDead] at hd
  | some a =>
    obtain ⟨apc, tot, inc⟩ := a
    simp [aggDead] at hd
    subst hd
    simp [AggOK] at hag
    exact ⟨hag.2.2.2.2, hg0, hp, h3, h4, hcl, hag.2.2.1, _, rfl, rfl, hag.2.2.2.1⟩

theorem m3_out_cases (n m : Int) (g0 : Globals) (out0 : List Event) (s : State)
    (h : Inv n m g0 out0 s) : s.out = out0 ∨ s.out = out0 ++ [.count (10 * m)] := by
  obtain ⟨hp, hg0, hone, hbal, hw, hg, hmn, hag, hrt⟩ := h
  obtain ⟨g, out, p, wg, i, pc, ch, agg, ws⟩ := s
  cases agg with
  | none => left; simpa [AggOK] using hag
  | some a =>
    obtain ⟨apc, tot, inc⟩ := a
    cases apc <;> simp [AggOK] at hag
    · left; exact hag.2
    · left; exact hag.2.2
    · left; exact hag.2.2.2.2
    · right; exact hag.2.2.2.2
    · right; exact hag.2.2.2.2

/-- Total correctness of `testConcurrencyMethod3`. -/
theorem m3_total (n : Int) (g0 : Globals) (out0 : List Event) (hn0 : 0 ≤ n) (hn : n ≤ maxInt) :
    AlwaysReturns (step n) (init g0 out0) (fun s => s.pc = .ret)
      (fun s => s.out = out0 ++ [.count (10 * perWorker n)] ∧ s.g = g0 ∧ s.panicked = false ∧
        s.workers.length = 10 ∧ (∀ w ∈ s.workers, w.pc = .dead ∧ w.j = perWorker n) ∧
        s.increments.closed = true ∧ s.increments.buf = [] ∧
        ∃ a, s.agg = some a ∧ a.pc = .dead ∧ a.total = 10 * perWorker n)
      (60 * perWorker n + 69) := by
  have hmle : 10 * perWorker n ≤ n := by
    rw [perWorker_of_nonneg n hn0]; omega
  apply alwaysReturns_of_inv (step n) _ _ _ _ (Inv n (perWorker n) g0 out0)
    (measure (perWorker n))
  · exact m3_inv_init _ _ g0 out0
  · intro s t s1 h hs; exact (m3_ok_step n g0 out0 s s1 t hn0 hn h hs).1
  · intro s t s1 h hs; exact le_of_eq ((m3_ok_step n g0 out0 s s1 t hn0 hn h hs).2)
  · intro s h; exact m3_measure_nonneg _ _ g0 out0 s (perWorker_nonneg n) h
  · intro s h hr; exact m3_progress n _ g0 out0 s (perWorker_nonneg n) hmle h hr
  · intro s h hr; exact m3_at_ret _ _ g0 out0 s h hr
  · simp [measure, mainRemaining, init, aggRemaining]; ring_nf; rfl

end testConcurrencyMethod3

end PerformanceExamples

/-! ## `RunConcurrencyExample`: invariant, step count, progress -/

namespace PerformanceExamples

namespace RunConcurrencyExample

theorem run_perWorker_million : perWorker 1000000 = 100000 := by
  decide

theorem run_million_le : (1000000 : Int) ≤ maxInt := by
  decide

theorem run_wrap_million : wrap64 (0 + 10 * 100000) = 1000000 := by
  decide

theorem run_inv_init : Inv (init ⟨false, ⟨0⟩⟩) := by
  simp [Inv, init]

theorem run_ok_step (d d1 : State) (t : Tid) (h : Inv d) (hs : step d t = some d1) :
    Inv d1 ∧ measure d1 + 1 ≤ measure d := by
  cases d with
  | top pc g out =>
    simp only [step] at hs
    split at hs
    · cases pc <;> simp [topStep] at hs <;> subst hs <;> simp only [Inv] at h <;>
        obtain ⟨h1, h2⟩ := h <;> subst h1 h2
      · simp [Inv, measure, expected]
      · refine ⟨testConcurrencyMethod1.m1_inv_init _ 0 _ false (by decide) rfl, ?_⟩
        simp [measure, testConcurrencyMethod1.measure, testConcurrencyMethod1.mainRemaining,
          testConcurrencyMethod1.init]
      · simp [Inv, measure, expected]
      · simp [Inv, measure, expected]
      · refine ⟨testConcurrencyMethod2.m2_inv_init _ _ _, ?_⟩
        simp [measure, testConcurrencyMethod2.measure, testConcurrencyMethod2.mainRemaining,
          testConcurrencyMethod2.init]
      · simp [Inv, measure, expected]
      · refine ⟨testConcurrencyMethod3.m3_inv_init _ _ _ _, ?_⟩
        simp [measure, testConcurrencyMethod3.measure, testConcurrencyMethod3.mainRemaining,
          testConcurrencyMethod3.init, testConcurrencyMethod3.aggRemaining]
      · simp [Inv, measure, expected]
    · simp at hs
  | in1 s =>
    simp only [step] at hs
    simp only [Inv] at h
    split at hs
    · simp at hs
    · split at hs
      · rename_i hr
        simp at hs; subst hs
        obtain ⟨h1, h2, -⟩ := testConcurrencyMethod1.m1_at_ret _ _ _ s h hr.1
        have h3 := testConcurrencyMethod1.m1_measure_nonneg _ _ _ s (by decide) h
        rw [run_wrap_million] at h1 h2
        refine ⟨?_, ?_⟩
        · simp [Inv, h1, h2, expected]
        · simp only [measure]; omega
      · simp only [Option.map_eq_some'] at hs
        obtain ⟨s1, hs1, rfl⟩ := hs
        have hI := testConcurrencyMethod1.m1_inv_step 1000000 0 _ s s1 t run_million_le
          (by rw [run_perWorker_million]; exact h) hs1
        have hM := testConcurrencyMethod1.m1_measure_step 1000000 0 _ s s1 t run_million_le
          (by rw [run_perWorker_million]; exact h) hs1
        rw [run_perWorker_million] at hI hM
        exact ⟨hI, by simp only [measure]; omega⟩
  | in2 s =>
    simp only [step] at hs
    simp only [Inv] at h
    split at hs
    · simp at hs
    · split at hs
      · rename_i hr
        simp at hs; subst hs
        obtain ⟨h1, h2, -⟩ := testConcurrencyMethod2.m2_at_ret _ _ _ s h hr.1
        have h3 := testConcurrencyMethod2.m2_measure_nonneg _ _ _ s (by decide) h
        refine ⟨?_, ?_⟩
        · simp [Inv, h1, h2, expected]
        · simp only [measure]; omega
      · simp only [Option.map_eq_some'] at hs
        obtain ⟨s1, hs1, rfl⟩ := hs
        have hI := testConcurrencyMethod2.m2_inv_step 1000000 _ _ s s1 t run_million_le
          (by rw [run_perWorker_million]; exact h) hs1
        have hM := testConcurrencyMethod2.m2_measure_step 1000000 _ _ s s1 t run_million_le
          (by rw [run_perWorker_million]; exact h) hs1
        rw [run_perWorker_million] at hI hM
        exact ⟨hI, by simp only [measure]; omega⟩
  | in3 s =>
    simp only [step] at hs
    simp only [Inv] at h
    split at hs
    · simp at hs
    · split at hs
      · rename_i hr
        simp at hs; subst hs
        obtain ⟨h1, h2, -⟩ := testConcurrencyMethod3.m3_at_ret _ _ _ _ s h hr.1
        have h3 := testConcurrencyMethod3.m3_measure_nonneg _ _ _ _ s (by decide) h
        refine ⟨?_, ?_⟩
        · simp [Inv, h1, h2, expected]
        · simp only [measure]; omega
      · simp only [Option.map_eq_some'] at hs
        obtain ⟨s1, hs1, rfl⟩ := hs
        have hOK := testConcurrencyMethod3.m3_ok_step 1000000 _ _ s s1 t (by decide) run_million_le
          (by rw [run_perWorker_million]; exact h) hs1
        rw [run_perWorker_million] at hOK
        exact ⟨hOK.1, by simp only [measure]; omega⟩

theorem run_measure_nonneg (d : State) (h : Inv d) : 0 ≤ measure d := by
  cases d with
  | top pc g out => cases pc <;> simp [measure]
  | in1 s =>
    have := testConcurrencyMethod1.m1_measure_nonneg _ _ _ s (by decide) h
    simp only [measure]; omega
  | in2 s =>
    have := testConcurrencyMethod2.m2_measure_nonneg _ _ _ s (by decide) h
    simp only [measure]; omega
  | in3 s =>
    have := testConcurrencyMethod3.m3_measure_nonneg _ _ _ _ s (by decide) h
    simp only [measure]; omega

theorem run_progress (d : State) (h : Inv d) (hr : ¬ returned d) : ∃ t d1, step d t = some d1 := by
  cases d with
  | top pc g out =>
    refine ⟨.main, ?_⟩
    cases pc <;> simp [step, topStep, returned] at hr ⊢
  | in1 s =>
    simp only [Inv] at h
    have hp : s.panicked = false := h.1
    by_cases hret : s.pc = .ret
    · exact ⟨.main, .top .printf1 s.g s.out, by simp [step, hp, hret]⟩
    · obtain ⟨t, s1, hs1⟩ := testConcurrencyMethod1.m1_progress 1000000 _ _ _ s h hret
      exact ⟨t, .in1 s1, by simp [step, hp, hret, hs1]⟩
  | in2 s =>
    simp only [Inv] at h
    have hp : s.panicked = false := h.1
    by_cases hret : s.pc = .ret
    · exact ⟨.main, .top .printf2 s.g s.out, by simp [step, hp, hret]⟩
    · obtain ⟨t, s1, hs1⟩ := testConcurrencyMethod2.m2_progress 1000000 _ _ _ s h hret
      exact ⟨t, .in2 s1, by simp [step, hp, hret, hs1]⟩
  | in3 s =>
    simp only [Inv] at h
    have hp : s.panicked = false := h.1
    by_cases hret : s.pc = .ret
    · exact ⟨.main, .top .printf3 s.g s.out, by simp [step, hp, hret]⟩
    · obtain ⟨t, s1, hs1⟩ := testConcurrencyMethod3.m3_progress 1000000 _ _ _ s (by decide)
        (by decide) h hret
      exact ⟨t, .in3 s1, by simp [step, hp, hret, hs1]⟩

theorem run_at_ret (d : State) (h : Inv d) (hr : returned d) :
    d = .top .ret ⟨false, ⟨0⟩⟩ expected := by
  cases d with
  | top pc g out =>
    cases pc <;> simp [returned] at hr
    simp only [Inv] at h
    rw [h.1, h.2]
  | in1 s => simp [returned] at hr
  | in2 s => simp [returned] at hr
  | in3 s => simp [returned] at hr

/-- Total correctness of `RunConcurrencyExample` entered with both package-level
variables at their zero value. -/
theorem run_total :
    AlwaysReturns step (init ⟨false, ⟨0⟩⟩) returned
      (fun d => d = .top .ret ⟨false, ⟨0⟩⟩ expected) 20000238 := by
  apply alwaysReturns_of_inv step _ _ _ _ Inv measure
  · exact run_inv_init
  · intro d t d1 h hs; exact (run_ok_step d d1 t h hs).1
  · intro d t d1 h hs; exact (run_ok_step d d1 t h hs).2
  · exact run_measure_nonneg
  · exact run_progress
  · exact run_at_ret
  · simp [measure, init]

theorem run_calls_clean (scheds : List (List Tid)) (gf : Globals) (outs : List (List Event))
    (h : execCalls ⟨false, ⟨0⟩⟩ scheds = some (gf, outs)) :
    gf = ⟨false, ⟨0⟩⟩ ∧ outs.length = scheds.length ∧ ∀ o ∈ outs, o = expected := by
  induction scheds generalizing gf outs with
  | nil =>
    simp [execCalls] at h
    obtain ⟨h1, h2⟩ := h
    subst h1 h2
    simp
  | cons sched rest ih =>
    simp only [execCalls] at h
    split at h
    · rename_i g1 out hrun
      obtain ⟨-, hpost, -⟩ := run_total.1 sched _ hrun
      have heq := hpost (by simp [returned])
      simp at heq
      obtain ⟨hg1, hout⟩ := heq
      subst hg1 hout
      split at h
      · rename_i gf1 outs1 hrest
        simp at h
        obtain ⟨h1, h2⟩ := h
        subst h1 h2
        obtain ⟨i1, i2, i3⟩ := ih gf1 outs1 hrest
        refine ⟨i1, by simp [i2], ?_⟩
        intro o ho
        simp at ho
        rcases ho with rfl | ho
        · rfl
        · exact i3 o ho
      · simp at h
    · simp at h

theorem run_stage_step (d d1 : State) (t : Tid) (hs : step d t = some d1) :
    stage d1 = stage d ∨ stage d1 = stage d + 1 := by
  cases d with
  | top pc g out =>
    simp only [step] at hs
    split at hs
    · cases pc <;> simp [topStep] at hs <;> subst hs <;> simp [stage]
    · simp at hs
  | in1 s =>
    simp only [step] at hs
    split at hs
    · simp at hs
    · split at hs
      · simp at hs; subst hs; simp [stage]
      · simp only [Option.map_eq_some'] at hs
        obtain ⟨s1, -, rfl⟩ := hs
        simp [stage]
  | in2 s =>
    simp only [step] at hs
    split at hs
    · simp at hs
    · split at hs
      · simp at hs; subst hs; simp [stage]
      · simp only [Option.map_eq_some'] at hs
        obtain ⟨s1, -, rfl⟩ := hs
        simp [stage]
  | in3 s =>
    simp only [step] at hs
    split at hs
    · simp at hs
    · split at hs
      · simp at hs; subst hs; simp [stage]
      · simp only [Option.map_eq_some'] at hs
        obtain ⟨s1, -, rfl⟩ := hs
        simp [stage]

theorem run_output_stage (d : State) (h : Inv d) : output d ∈ outputAt (stage d) := by
  cases d with
  | top pc g out =>
    cases pc <;> simp only [Inv] at h <;> simp [output, stage, outputAt, h.2]
  | in1 s =>
    rcases testConcurrencyMethod1.m1_out_cases _ _ _ s h with h1 | h1
    · simp [output, stage, outputAt, h1]
    · rw [run_wrap_million] at h1
      simp [output, stage, outputAt, h1, expected]
  | in2 s =>
    rcases testConcurrencyMethod2.m2_out_cases _ _ _ s h with h1 | h1
    · simp [output, stage, outputAt, h1]
    · simp [output, stage, outputAt, h1, expected]
  | in3 s =>
    rcases testConcurrencyMethod3.m3_out_cases _ _ _ _ s h with h1 | h1
    · simp [output, stage, outputAt, h1]
    · simp [output, stage, outputAt, h1, expected]

end RunConcurrencyExample

end PerformanceExamples

/-! ## The claims -/

namespace PerformanceExamples

theorem alwaysReturns_imp {σ : Type} (step : σ → Tid → Option σ) (s0 : σ)
    (returned post post2 : σ → Prop) (bound bound2 : Int)
    (h : AlwaysReturns step s0 returned post bound)
    (hp : ∀ s, returned s → post s → post2 s)
    (hb : bound ≤ bound2) : AlwaysReturns step s0 returned post2 bound2 := by
  refine ⟨?_, h.2⟩
  intro sched s hs
  obtain ⟨h1, h2, h3⟩ := h.1 sched s hs
  exact ⟨by omega, fun hr => hp s hr (h2 hr), h3⟩

theorem wrap64_tens (n : Int) (h0 : 0 ≤ n) (h1 : n ≤ maxInt) :
    wrap64 (0 + 10 * (n / 10)) = 10 * (n / 10) := by
  rw [zero_add]
  apply wrap64_of_range
  · omega
  · unfold maxInt at *; omega

theorem wrap64_idem (x : Int) : wrap64 (wrap64 x) = wrap64 x := by
  unfold wrap64; omega

theorem wrap64_add (a b : Int) : wrap64 (wrap64 a + b) = wrap64 (a + b) := by
  unfold wrap64; omega

theorem tdiv_ten (n : Int) (h0 : 0 ≤ n) : Int.tdiv n 10 = n / 10 :=
  Int.tdiv_eq_ediv h0 (by decide)

theorem m3_stepOn_eq (limit n : Int) (h0 : 0 ≤ n) (h1 : n ≤ maxInt) (hl : n ≤ limit) :
    testConcurrencyMethod3.stepOn limit n = testConcurrencyMethod3.step n := by
  funext s t
  have hm : testConcurrencyMethod3.mainStepOn limit n s
      = testConcurrencyMethod3.mainStepOn maxInt n s := by
    have a1 : ¬ (n < 0 ∨ limit < n) := by omega
    have a2 : ¬ (n < 0 ∨ maxInt < n) := by omega
    unfold testConcurrencyMethod3.mainStepOn
    split <;> simp [a1, a2]
  simp only [testConcurrencyMethod3.step, testConcurrencyMethod3.stepOn, hm]

theorem m3_execOn_eq (limit n : Int) (h0 : 0 ≤ n) (h1 : n ≤ maxInt) (hl : n ≤ limit) :
    testConcurrencyMethod3.execOn limit n = testConcurrencyMethod3.exec n := by
  funext s sched
  simp only [testConcurrencyMethod3.execOn, testConcurrencyMethod3.exec,
    m3_stepOn_eq limit n h0 h1 hl]

/-- When `make(chan int, iterations)` is refused, the only execution of
`testConcurrencyMethod3` is the panic of its first statement. -/
theorem m3_make_refused (limit n : Int) (hl : n < 0 ∨ limit < n) (g : Globals)
    (out : List Event) (sched : List Tid) (s : testConcurrencyMethod3.State)
    (h : testConcurrencyMethod3.execOn limit n (testConcurrencyMethod3.init g out) sched
      = some s) :
    s.pc = .mkInc ∧ s.out = out ∧ s.workers = [] ∧ s.agg = none ∧
      (sched ≠ [] → sched = [.main] ∧ s.panicked = true) := by
  cases sched with
  | nil =>
    simp [testConcurrencyMethod3.execOn, runSchedule] at h
    subst h
    simp [testConcurrencyMethod3.init]
  | cons t rest =>
    cases t with
    | main =>
      cases rest with
      | nil =>
        simp [testConcurrencyMethod3.execOn, runSchedule, testConcurrencyMethod3.stepOn,
          testConcurrencyMethod3.mainStepOn, testConcurrencyMethod3.init, hl] at h
        subst h
        simp
      | cons t2 rest2 =>
        simp [testConcurrencyMethod3.execOn, runSchedule, testConcurrencyMethod3.stepOn,
          testConcurrencyMethod3.mainStepOn, testConcurrencyMethod3.init, hl] at h
    | worker k =>
      simp [testConcurrencyMethod3.execOn, runSchedule, testConcurrencyMethod3.stepOn,
        testConcurrencyMethod3.init] at h
    | aggregator =>
      simp [testConcurrencyMethod3.execOn, runSchedule, testConcurrencyMethod3.stepOn,
        testConcurrencyMethod3.init] at h

/-- Counterexample to C1 as stated: `iterations = 281474976710656` (`2 ^ 48`) is a
non-negative `int` above `maxChanCap`, so the first statement of
`testConcurrencyMethod3`, `make(chan int, iterations)` (line 104), panics: on
every runtime no schedule reaches the return and nothing is printed, the count
`10 * (iterations / 10)` is not reported. -/
theorem c1_exact_count_counterexample :
    (0 : Int) ≤ 281474976710656 ∧ (281474976710656 : Int) ≤ maxInt ∧
      testConcurrencyMethod3.maxChanCap < 281474976710656 ∧
      testConcurrencyMethod3.execOn testConcurrencyMethod3.maxChanCap 281474976710656
          (testConcurrencyMethod3.init ⟨false, ⟨0⟩⟩ []) [.main]
        = some { testConcurrencyMethod3.init ⟨false, ⟨0⟩⟩ [] with panicked := true } ∧
      ∀ (limit : Int), limit ≤ testConcurrencyMethod3.maxChanCap →
        ∀ (sched : List Tid) (s : testConcurrencyMethod3.State),
          testConcurrencyMethod3.execOn limit 281474976710656
              (testConcurrencyMethod3.init ⟨false, ⟨0⟩⟩ []) sched = some s →
            s.pc ≠ .ret ∧ s.out = [] := by
  refine ⟨by decide, by decide, by decide, by decide, ?_⟩
  intro limit hlim sched s h
  have hc : testConcurrencyMethod3.maxChanCap < 281474976710656 := by decide
  obtain ⟨h1, h2, -⟩ := m3_make_refused limit _ (Or.inr (by omega)) _ _ sched s h
  exact ⟨by rw [h1]; decide, h2⟩

/-- C1, amended: for every `iterations` with `0 <= iterations`, entered with the
counter at 0 and the mutex unlocked, `testConcurrencyMethod1` and
`testConcurrencyMethod2` return under every interleaving (every execution is
bounded, no state before the return is stuck, some schedule returns) and have
then printed exactly the count `10 * (iterations / 10)`; so does
`testConcurrencyMethod3` on every runtime that allocates a channel of capacity
`iterations` (`iterations <= limit`); the count is 0 when `iterations < 10`. -/
theorem c1_exact_count (limit n : Int) (h0 : 0 ≤ n) (h1 : n ≤ maxInt) (hl : n ≤ limit) :
    AlwaysReturns (testConcurrencyMethod1.step n)
        (testConcurrencyMethod1.init ⟨false, ⟨0⟩⟩ []) (fun s => s.pc = .ret)
        (fun s => s.out = [.count (10 * (n / 10))]) (70 * (n / 10) + 63) ∧
      AlwaysReturns (testConcurrencyMethod2.step n)
        (testConcurrencyMethod2.init ⟨false, ⟨0⟩⟩ []) (fun s => s.pc = .ret)
        (fun s => s.out = [.count (10 * (n / 10))]) (70 * (n / 10) + 95) ∧
      AlwaysReturns (testConcurrencyMethod3.stepOn limit n)
        (testConcurrencyMethod3.init ⟨false, ⟨0⟩⟩ []) (fun s => s.pc = .ret)
        (fun s => s.out = [.count (10 * (n / 10))]) (60 * (n / 10) + 69) ∧
      (n < 10 → 10 * (n / 10) = 0) := by
  have hpw := perWorker_of_nonneg n h0
  refine ⟨?_, ?_, ?_, by omega⟩
  · have h := testConcurrencyMethod1.m1_total n 0 [] h1 (by decide)
    rw [hpw, wrap64_tens n h0 h1] at h
    exact alwaysReturns_imp _ _ _ _ _ _ _ h (fun s _ hs => by simpa using hs.1) (le_refl _)
  · have h := testConcurrencyMethod2.m2_total n ⟨false, ⟨0⟩⟩ [] h1
    rw [hpw] at h
    exact alwaysReturns_imp _ _ _ _ _ _ _ h (fun s _ hs => by simpa using hs.1) (le_refl _)
  · have h := testConcurrencyMethod3.m3_total n ⟨false, ⟨0⟩⟩ [] h0 h1
    rw [hpw] at h
    rw [m3_stepOn_eq limit n h0 h1 hl]
    exact alwaysReturns_imp _ _ _ _ _ _ _ h (fun s _ hs => by simpa using hs.1) (le_refl _)

/-- Witness of the amended C1 at `iterations = 10`, on a runtime with the
capacity limit `maxChanCap`: every strategy prints the count 10. -/
theorem c1_exact_count_witness :
    (0 : Int) ≤ 10 ∧ (10 : Int) ≤ maxInt ∧ (10 : Int) ≤ testConcurrencyMethod3.maxChanCap ∧
      (AlwaysReturns (testConcurrencyMethod1.step 10)
        (testConcurrencyMethod1.init ⟨false, ⟨0⟩⟩ []) (fun s => s.pc = .ret)
        (fun s => s.out = [.count (10 * (10 / 10))]) (70 * (10 / 10) + 63) ∧
      AlwaysReturns (testConcurrencyMethod2.step 10)
        (testConcurrencyMethod2.init ⟨false, ⟨0⟩⟩ []) (fun s => s.pc = .ret)
        (fun s => s.out = [.count (10 * (10 / 10))]) (70 * (10 / 10) + 95) ∧
      AlwaysReturns (testConcurrencyMethod3.stepOn testConcurrencyMethod3.maxChanCap 10)
        (testConcurrencyMethod3.init ⟨false, ⟨0⟩⟩ []) (fun s => s.pc = .ret)
        (fun s => s.out = [.count (10 * (10 / 10))]) (60 * (10 / 10) + 69) ∧
      ((10 : Int) < 10 → 10 * ((10 : Int) / 10) = 0)) :=
  ⟨by decide, by decide, by decide,
    c1_exact_count testConcurrencyMethod3.maxChanCap 10 (by decide) (by decide) (by decide)⟩

/-- Counterexample to C2 as stated: with `iterations = 10`, two calls of
`testConcurrencyMethod1` in succession, the second entered with the globals the
first one left, both run to their return, print the counts 10 and 20; and with
`iterations = -1` the first statement of `testConcurrencyMethod3`,
`make(chan int, iterations)` (line 104), panics, so that on every runtime no
schedule reaches the return and no count is printed. -/
theorem c2_idempotence_counterexample :
    (testConcurrencyMethod1.exec 10 (testConcurrencyMethod1.init ⟨false, ⟨0⟩⟩ [])
        (seqSchedule 41 9 2)).bind
      (fun s1 =>
        (testConcurrencyMethod1.exec 10 (testConcurrencyMethod1.init s1.g [])
          (seqSchedule 41 9 2)).map
          (fun s2 => (s1.pc, s1.out, s2.pc, s2.out)))
      = some (.ret, [.count 10], .ret, [.count 20]) ∧
    testConcurrencyMethod3.execOn testConcurrencyMethod3.maxChanCap (-1)
        (testConcurrencyMethod3.init ⟨false, ⟨0⟩⟩ []) [.main]
      = some { testConcurrencyMethod3.init ⟨false, ⟨0⟩⟩ [] with panicked := true } ∧
    ∀ (limit : Int) (sched : List Tid) (s : testConcurrencyMethod3.State),
      testConcurrencyMethod3.execOn limit (-1)
          (testConcurrencyMethod3.init ⟨false, ⟨0⟩⟩ []) sched = some s →
        s.pc ≠ .ret ∧ s.out = [] := by
  refine ⟨by decide, by decide, ?_⟩
  intro limit sched s h
  obtain ⟨h1, h2, -⟩ := m3_make_refused limit _ (Or.inl (by decide)) _ _ sched s h
  exact ⟨by rw [h1]; decide, h2⟩

theorem m1_two_runs (n c : Int) (h1 : n ≤ maxInt) (hc : wrap64 c = c)
    (sched1 sched2 : List Tid) (s1 s2 : testConcurrencyMethod1.State)
    (e1 : testConcurrencyMethod1.exec n (testConcurrencyMethod1.init ⟨false, ⟨c⟩⟩ []) sched1
      = some s1) (r1 : s1.pc = .ret)
    (e2 : testConcurrencyMethod1.exec n (testConcurrencyMethod1.init s1.g []) sched2 = some s2)
    (r2 : s2.pc = .ret) :
    s1.out = [.count (wrap64 (c + 10 * perWorker n))] ∧
      s2.out = [.count (wrap64 (c + 20 * perWorker n))] := by
  have t1 := ((testConcurrencyMethod1.m1_total n c [] h1 hc).1 sched1 s1 e1).2.1 r1
  obtain ⟨o1, g1, -⟩ := t1
  rw [g1] at e2
  have t2 := ((testConcurrencyMethod1.m1_total n _ [] h1 (wrap64_idem _)).1 sched2 s2 e2).2.1 r2
  rw [wrap64_add] at t2
  refine ⟨by simpa using o1, ?_⟩
  have : c + 10 * perWorker n + 10 * perWorker n = c + 20 * perWorker n := by ring
  rw [this] at t2
  simpa using t2.1

theorem m1_two_runs_exist (n c : Int) (h1 : n ≤ maxInt) (hc : wrap64 c = c) :
    ∃ (sched1 sched2 : List Tid) (s1 s2 : testConcurrencyMethod1.State),
      testConcurrencyMethod1.exec n (testConcurrencyMethod1.init ⟨false, ⟨c⟩⟩ []) sched1
        = some s1 ∧ s1.pc = .ret ∧
      testConcurrencyMethod1.exec n (testConcurrencyMethod1.init s1.g []) sched2 = some s2 ∧
      s2.pc = .ret := by
  have t1 := testConcurrencyMethod1.m1_total n c [] h1 hc
  obtain ⟨sched1, s1, e1, r1⟩ := t1.2
  obtain ⟨-, g1, -⟩ := (t1.1 sched1 s1 e1).2.1 r1
  obtain ⟨sched2, s2, e2, r2⟩ :=
    (testConcurrencyMethod1.m1_total n _ [] h1 (wrap64_idem (c + 10 * perWorker n))).2
  exact ⟨sched1, sched2, s1, s2, e1, r1, by rw [g1]; exact e2, r2⟩

theorem perWorker_of_neg (n : Int) (h : n < 0) : perWorker n = 0 := by
  have h2 : Int.tdiv n 10 ≤ 0 := by
    have h3 : n = -(-n) := by omega
    rw [h3, Int.neg_tdiv, Int.tdiv_eq_ediv (by omega) (by decide)]
    omega
  unfold perWorker; omega

theorem perWorker_eq_zero_iff (n : Int) : perWorker n = 0 ↔ n < 10 := by
  by_cases hn : 0 ≤ n
  · rw [perWorker_of_nonneg n hn]; omega
  · rw [perWorker_of_neg n (by omega)]
    constructor <;> intro <;> omega

/-- The two counts of `testConcurrencyMethod1` differ as soon as a worker
increments at all. -/
theorem m1_counts_equal_iff (n c : Int) (h1 : n ≤ maxInt) :
    wrap64 (c + 10 * perWorker n) = wrap64 (c + 20 * perWorker n) ↔ n < 10 := by
  have hle := perWorker_le n h1
  have h0 := perWorker_nonneg n
  rw [← perWorker_eq_zero_iff]
  constructor
  · intro h
    unfold wrap64 at h
    obtain ⟨q, hq⟩ := Int.modEq_iff_dvd.1 (sub_left_injective h)
    have hk : 10 * perWorker n = 18446744073709551616 * q := by linarith
    unfold maxInt at hle
    rcases le_or_lt q 0 with hq0 | hq1
    · linarith
    · have : 1 ≤ q := hq1
      linarith
  · intro h
    rw [h, mul_zero, mul_zero]

theorem m2_two_runs (n : Int) (h1 : n ≤ maxInt) (g : Globals)
    (sched1 sched2 : List Tid) (s1 s2 : testConcurrencyMethod2.State)
    (e1 : testConcurrencyMethod2.exec n (testConcurrencyMethod2.init g []) sched1 = some s1)
    (r1 : s1.pc = .ret)
    (e2 : testConcurrencyMethod2.exec n (testConcurrencyMethod2.init s1.g []) sched2 = some s2)
    (r2 : s2.pc = .ret) :
    s1.out = [.count (10 * perWorker n)] ∧ s2.out = s1.out := by
  have t1 := ((testConcurrencyMethod2.m2_total n g [] h1).1 sched1 s1 e1).2.1 r1
  have t2 := ((testConcurrencyMethod2.m2_total n s1.g [] h1).1 sched2 s2 e2).2.1 r2
  have o1 : s1.out = [.count (10 * perWorker n)] := by simpa using t1.1
  exact ⟨o1, by rw [o1]; simpa using t2.1⟩

theorem m2_two_runs_exist (n : Int) (h1 : n ≤ maxInt) (g : Globals) :
    ∃ (sched1 sched2 : List Tid) (s1 s2 : testConcurrencyMethod2.State),
      testConcurrencyMethod2.exec n (testConcurrencyMethod2.init g []) sched1 = some s1 ∧
      s1.pc = .ret ∧
      testConcurrencyMethod2.exec n (testConcurrencyMethod2.init s1.g []) sched2 = some s2 ∧
      s2.pc = .ret := by
  obtain ⟨sched1, s1, e1, r1⟩ := (testConcurrencyMethod2.m2_total n g [] h1).2
  obtain ⟨sched2, s2, e2, r2⟩ := (testConcurrencyMethod2.m2_total n s1.g [] h1).2
  exact ⟨sched1, sched2, s1, s2, e1, r1, e2, r2⟩

theorem m3_two_runs (limit n : Int) (h0 : 0 ≤ n) (h1 : n ≤ maxInt) (hl : n ≤ limit)
    (g : Globals) (sched1 sched2 : List Tid) (s1 s2 : testConcurrencyMethod3.State)
    (e1 : testConcurrencyMethod3.execOn limit n (testConcurrencyMethod3.init g []) sched1
      = some s1)
    (r1 : s1.pc = .ret)
    (e2 : testConcurrencyMethod3.execOn limit n (testConcurrencyMethod3.init s1.g []) sched2
      = some s2)
    (r2 : s2.pc = .ret) :
    s1.out = [.count (10 * perWorker n)] ∧ s2.out = s1.out := by
  rw [m3_execOn_eq limit n h0 h1 hl] at e1 e2
  have t1 := ((testConcurrencyMethod3.m3_total n g [] h0 h1).1 sched1 s1 e1).2.1 r1
  have t2 := ((testConcurrencyMethod3.m3_total n s1.g [] h0 h1).1 sched2 s2 e2).2.1 r2
  have o1 : s1.out = [.count (10 * perWorker n)] := by simpa using t1.1
  exact ⟨o1, by rw [o1]; simpa using t2.1⟩

theorem m3_two_runs_exist (limit n : Int) (h0 : 0 ≤ n) (h1 : n ≤ maxInt) (hl : n ≤ limit)
    (g : Globals) :
    ∃ (sched1 sched2 : List Tid) (s1 s2 : testConcurrencyMethod3.State),
      testConcurrencyMethod3.execOn limit n (testConcurrencyMethod3.init g []) sched1
        = some s1 ∧
      s1.pc = .ret ∧
      testConcurrencyMethod3.execOn limit n (testConcurrencyMethod3.init s1.g []) sched2
        = some s2 ∧
      s2.pc = .ret := by
  rw [m3_execOn_eq limit n h0 h1 hl]
  obtain ⟨sched1, s1, e1, r1⟩ := (testConcurrencyMethod3.m3_total n g [] h0 h1).2
  obtain ⟨sched2, s2, e2, r2⟩ := (testConcurrencyMethod3.m3_total n s1.g [] h0 h1).2
  exact ⟨sched1, sched2, s1, s2, e1, r1, e2, r2⟩

/-- C2, amended: for every `iterations` of type `int`, with `k` the number of
increments of one worker (`iterations / 10` when `0 <= iterations`, 0 when
`iterations < 0`): two calls in succession of `testConcurrencyMethod2` print
the same count, `10 * k`; so do two calls in succession of
`testConcurrencyMethod3` on every runtime on which `make(chan int, iterations)`
succeeds (`0 <= iterations <= limit`), and where it does not, the first call
panics in its first statement, never returns and prints nothing; two calls in
succession of `testConcurrencyMethod1`, the first entered with counter value
`c` and the mutex unlocked, print `c + 10 * k` and `c + 20 * k` (as 64-bit
values), because the function adds to the package-level counter and does not
reset it, and these two counts are equal exactly when `iterations < 10`.  Pairs
of calls that both return exist for every strategy (for the third: where `make`
succeeds). -/
theorem c2_repeated_runs (limit n c : Int) (h1 : n ≤ maxInt) (hc : wrap64 c = c)
    (g : Globals) :
    ((0 ≤ n → perWorker n = n / 10) ∧ (n < 0 → perWorker n = 0)) ∧
    (∀ (sched1 sched2 : List Tid) (s1 s2 : testConcurrencyMethod1.State),
      testConcurrencyMethod1.exec n (testConcurrencyMethod1.init ⟨false, ⟨c⟩⟩ []) sched1
        = some s1 → s1.pc = .ret →
      testConcurrencyMethod1.exec n (testConcurrencyMethod1.init s1.g []) sched2 = some s2 →
      s2.pc = .ret →
      s1.out = [.count (wrap64 (c + 10 * perWorker n))] ∧
        s2.out = [.count (wrap64 (c + 20 * perWorker n))]) ∧
    (wrap64 (c + 10 * perWorker n) = wrap64 (c + 20 * perWorker n) ↔ n < 10) ∧
    (∀ (sched1 sched2 : List Tid) (s1 s2 : testConcurrencyMethod2.State),
      testConcurrencyMethod2.exec n (testConcurrencyMethod2.init g []) sched1 = some s1 →
      s1.pc = .ret →
      testConcurrencyMethod2.exec n (testConcurrencyMethod2.init s1.g []) sched2 = some s2 →
      s2.pc = .ret →
      s1.out = [.count (10 * perWorker n)] ∧ s2.out = s1.out) ∧
    (0 ≤ n → n ≤ limit →
      ∀ (sched1 sched2 : List Tid) (s1 s2 : testConcurrencyMethod3.State),
        testConcurrencyMethod3.execOn limit n (testConcurrencyMethod3.init g []) sched1
          = some s1 →
        s1.pc = .ret →
        testConcurrencyMethod3.execOn limit n (testConcurrencyMethod3.init s1.g []) sched2
          = some s2 →
        s2.pc = .ret →
        s1.out = [.count (10 * perWorker n)] ∧ s2.out = s1.out) ∧
    (n < 0 ∨ limit < n →
      testConcurrencyMethod3.execOn limit n (testConcurrencyMethod3.init g []) [.main]
        = some { testConcurrencyMethod3.init g [] with panicked := true } ∧
      ∀ (sched : List Tid) (s : testConcurrencyMethod3.State),
        testConcurrencyMethod3.execOn limit n (testConcurrencyMethod3.init g []) sched
          = some s →
        s.pc ≠ .ret ∧ s.out = []) ∧
    (∃ (sched1 sched2 : List Tid) (s1 s2 : testConcurrencyMethod1.State),
      testConcurrencyMethod1.exec n (testConcurrencyMethod1.init ⟨false, ⟨c⟩⟩ []) sched1
        = some s1 ∧ s1.pc = .ret ∧
      testConcurrencyMethod1.exec n (testConcurrencyMethod1.init s1.g []) sched2 = some s2 ∧
      s2.pc = .ret) ∧
    (∃ (sched1 sched2 : List Tid) (s1 s2 : testConcurrencyMethod2.State),
      testConcurrencyMethod2.exec n (testConcurrencyMethod2.init g []) sched1 = some s1 ∧
      s1.pc = .ret ∧
      testConcurrencyMethod2.exec n (testConcurrencyMethod2.init s1.g []) sched2 = some s2 ∧
      s2.pc = .ret) ∧
    (0 ≤ n → n ≤ limit →
      ∃ (sched1 sched2 : List Tid) (s1 s2 : testConcurrencyMethod3.State),
        testConcurrencyMethod3.execOn limit n (testConcurrencyMethod3.init g []) sched1
          = some s1 ∧
        s1.pc = .ret ∧
        testConcurrencyMethod3.execOn limit n (testConcurrencyMethod3.init s1.g []) sched2
          = some s2 ∧
        s2.pc = .ret) := by
  refine ⟨⟨perWorker_of_nonneg n, perWorker_of_neg n⟩,
    fun sched1 sched2 s1 s2 e1 r1 e2 r2 => m1_two_runs n c h1 hc sched1 sched2 s1 s2 e1 r1 e2 r2,
    m1_counts_equal_iff n c h1,
    fun sched1 sched2 s1 s2 e1 r1 e2 r2 => m2_two_runs n h1 g sched1 sched2 s1 s2 e1 r1 e2 r2,
    fun h0 hl sched1 sched2 s1 s2 e1 r1 e2 r2 =>
      m3_two_runs limit n h0 h1 hl g sched1 sched2 s1 s2 e1 r1 e2 r2,
    ?_, m1_two_runs_exist n c h1 hc, m2_two_runs_exist n h1 g,
    fun h0 hl => m3_two_runs_exist limit n h0 h1 hl g⟩
  intro hr
  refine ⟨?_, ?_⟩
  · simp [testConcurrencyMethod3.execOn, runSchedule, testConcurrencyMethod3.stepOn,
      testConcurrencyMethod3.mainStepOn, testConcurrencyMethod3.init, hr]
  · intro sched s h
    obtain ⟨p1, p2, -⟩ := m3_make_refused limit n hr g [] sched s h
    exact ⟨by rw [p1]; decide, p2⟩

/-- Witness of the amended C2 at `iterations = 10`, counter 0: the first call of
`testConcurrencyMethod1` under the sequential schedule prints 10, a second one
prints 20. -/
theorem c2_repeated_runs_witness :
    (10 : Int) ≤ maxInt ∧ wrap64 0 = 0 ∧
      ∀ (s1 s2 : testConcurrencyMethod1.State),
        testConcurrencyMethod1.exec 10 (testConcurrencyMethod1.init ⟨false, ⟨0⟩⟩ [])
          (seqSchedule 41 9 2) = some s1 → s1.pc = .ret →
        testConcurrencyMethod1.exec 10 (testConcurrencyMethod1.init s1.g [])
          (seqSchedule 41 9 2) = some s2 → s2.pc = .ret →
        s1.out = [.count (wrap64 (0 + 10 * perWorker 10))] ∧
          s2.out = [.count (wrap64 (0 + 20 * perWorker 10))] :=
  ⟨by decide, by decide,
    (c2_repeated_runs testConcurrencyMethod3.maxChanCap 10 0 (by decide) (by decide)
      ⟨false, ⟨0⟩⟩).2.1 (seqSchedule 41 9 2) (seqSchedule 41 9 2)⟩

theorem run_calls_exist (k : Nat) :
    ∃ scheds : List (List Tid), scheds.length = k ∧
      ∃ outs, RunConcurrencyExample.execCalls ⟨false, ⟨0⟩⟩ scheds = some (⟨false, ⟨0⟩⟩, outs) := by
  induction k with
  | zero => exact ⟨[], rfl, [], rfl⟩
  | succ k ih =>
    obtain ⟨scheds, hl, outs, hrun⟩ := ih
    obtain ⟨sched, d, hd, hr⟩ := RunConcurrencyExample.run_total.2
    have hpost := ((RunConcurrencyExample.run_total.1 sched d hd).2.1 hr)
    subst hpost
    refine ⟨sched :: scheds, by simp [hl], RunConcurrencyExample.expected :: outs, ?_⟩
    have hd1 : RunConcurrencyExample.exec (RunConcurrencyExample.init ⟨false, ⟨0⟩⟩) sched
        = some (.top .ret ⟨false, ⟨0⟩⟩ RunConcurrencyExample.expected) := hd
    simp [RunConcurrencyExample.execCalls, hd1, hrun]

/-- C3: entered with the package-level counter at 0 and the mutex unlocked,
`RunConcurrencyExample` returns under every interleaving, has then printed the
count 1000000 for each of the three strategies (after the banner, each count
followed by the elapsed-time line) and leaves the counter at 0 and the mutex
unlocked; hence in any sequence of calls in one process, each run to its
return, every call prints exactly that and the last one leaves the counter at
0, and such sequences exist for every number of calls. -/
theorem c3_every_call_clean :
    AlwaysReturns RunConcurrencyExample.step (RunConcurrencyExample.init ⟨false, ⟨0⟩⟩)
        RunConcurrencyExample.returned
        (fun d => d = .top .ret ⟨false, ⟨0⟩⟩
          [.banner, .count 1000000, .elapsed 1, .count 1000000, .elapsed 2, .count 1000000,
            .elapsed 3])
        20000238 ∧
      (∀ (scheds : List (List Tid)) (gf : Globals) (outs : List (List Event)),
        RunConcurrencyExample.execCalls ⟨false, ⟨0⟩⟩ scheds = some (gf, outs) →
          gf.counterExample.value = 0 ∧ gf.mutexExample = false ∧
          outs.length = scheds.length ∧
          ∀ o ∈ outs, o = [.banner, .count 1000000, .elapsed 1, .count 1000000, .elapsed 2,
            .count 1000000, .elapsed 3]) ∧
      ∀ k : Nat, ∃ scheds : List (List Tid), scheds.length = k ∧
        ∃ outs, RunConcurrencyExample.execCalls ⟨false, ⟨0⟩⟩ scheds
          = some (⟨false, ⟨0⟩⟩, outs) := by
  refine ⟨RunConcurrencyExample.run_total, ?_, run_calls_exist⟩
  intro scheds gf outs h
  obtain ⟨h1, h2, h3⟩ := RunConcurrencyExample.run_calls_clean scheds gf outs h
  subst h1
  exact ⟨rfl, rfl, h2, h3⟩

/-- Counterexample to C4 as stated: `iterations = 9223372036854775807`, the
largest `int`, is non-negative and above `maxChanCap`, so
`make(chan int, iterations)` (line 104) panics in `testConcurrencyMethod3`: on
every runtime, in every state that a schedule reaches no worker has been
started, the function has not returned and no total has been printed, so the
total `iterations - iterations % 10` is not reported. -/
theorem c4_remainder_dropped_counterexample :
    (0 : Int) ≤ 9223372036854775807 ∧ (9223372036854775807 : Int) ≤ maxInt ∧
      testConcurrencyMethod3.maxChanCap < 9223372036854775807 ∧
      testConcurrencyMethod3.execOn testConcurrencyMethod3.maxChanCap 9223372036854775807
          (testConcurrencyMethod3.init ⟨false, ⟨0⟩⟩ []) [.main]
        = some { testConcurrencyMethod3.init ⟨false, ⟨0⟩⟩ [] with panicked := true } ∧
      ∀ (limit : Int), limit ≤ testConcurrencyMethod3.maxChanCap →
        ∀ (sched : List Tid) (s : testConcurrencyMethod3.State),
          testConcurrencyMethod3.execOn limit 9223372036854775807
              (testConcurrencyMethod3.init ⟨false, ⟨0⟩⟩ []) sched = some s →
            s.workers = [] ∧ s.pc ≠ .ret ∧ s.out = [] := by
  refine ⟨by decide, by decide, by decide, by decide, ?_⟩
  intro limit hlim sched s h
  have hc : testConcurrencyMethod3.maxChanCap < 9223372036854775807 := by decide
  obtain ⟨h1, h2, h3, -⟩ := m3_make_refused limit _ (Or.inr (by omega)) _ _ sched s h
  exact ⟨h3, by rw [h1]; decide, h2⟩

/-- C4, amended: for `0 <= iterations`, `testConcurrencyMethod1` and
`testConcurrencyMethod2` return under every interleaving with each of their 10
workers having run its loop `iterations / 10` times (truncating division) and
with the printed count `iterations - iterations % 10`; so does
`testConcurrencyMethod3` on every runtime that allocates a channel of capacity
`iterations` (`iterations <= limit`); that count is at most `iterations` and
equals it exactly when 10 divides `iterations`. -/
theorem c4_remainder_dropped (limit n : Int) (h0 : 0 ≤ n) (h1 : n ≤ maxInt) (hl : n ≤ limit) :
    AlwaysReturns (testConcurrencyMethod1.step n)
        (testConcurrencyMethod1.init ⟨false, ⟨0⟩⟩ []) (fun s => s.pc = .ret)
        (fun s => s.out = [.count (n - n % 10)] ∧ s.workers.length = 10 ∧
          ∀ w ∈ s.workers, w.j = Int.tdiv n 10) (70 * (n / 10) + 63) ∧
      AlwaysReturns (testConcurrencyMethod2.step n)
        (testConcurrencyMethod2.init ⟨false, ⟨0⟩⟩ []) (fun s => s.pc = .ret)
        (fun s => s.out = [.count (n - n % 10)] ∧ s.workers.length = 10 ∧
          ∀ w ∈ s.workers, w.j = Int.tdiv n 10) (70 * (n / 10) + 95) ∧
      AlwaysReturns (testConcurrencyMethod3.stepOn limit n)
        (testConcurrencyMethod3.init ⟨false, ⟨0⟩⟩ []) (fun s => s.pc = .ret)
        (fun s => s.out = [.count (n - n % 10)] ∧ s.workers.length = 10 ∧
          ∀ w ∈ s.workers, w.j = Int.tdiv n 10) (60 * (n / 10) + 69) ∧
      n - n % 10 ≤ n ∧ (n - n % 10 = n ↔ 10 ∣ n) := by
  have hpw := perWorker_of_nonneg n h0
  have htd := tdiv_ten n h0
  have hval : 10 * (n / 10) = n - n % 10 := by omega
  refine ⟨?_, ?_, ?_, by omega, by omega⟩
  · have h := testConcurrencyMethod1.m1_total n 0 [] h1 (by decide)
    rw [hpw, wrap64_tens n h0 h1, hval] at h
    refine alwaysReturns_imp _ _ _ _ _ _ _ h (fun s _ hs => ?_) (le_refl _)
    exact ⟨by simpa using hs.1, hs.2.2.2.1, fun w hw => by rw [htd]; exact (hs.2.2.2.2 w hw).2⟩
  · have h := testConcurrencyMethod2.m2_total n ⟨false, ⟨0⟩⟩ [] h1
    rw [hpw, hval] at h
    refine alwaysReturns_imp _ _ _ _ _ _ _ h (fun s _ hs => ?_) (le_refl _)
    exact ⟨by simpa using hs.1, hs.2.2.2.1, fun w hw => by rw [htd]; exact (hs.2.2.2.2.1 w hw).2⟩
  · have h := testConcurrencyMethod3.m3_total n ⟨false, ⟨0⟩⟩ [] h0 h1
    rw [hpw, hval] at h
    rw [m3_stepOn_eq limit n h0 h1 hl]
    refine alwaysReturns_imp _ _ _ _ _ _ _ h (fun s _ hs => ?_) (le_refl _)
    exact ⟨by simpa using hs.1, hs.2.2.2.1, fun w hw => by rw [htd]; exact (hs.2.2.2.2.1 w hw).2⟩

/-- Witness of the amended C4 at `iterations = 25`, on a runtime with the
capacity limit `maxChanCap`: the count is `25 - 25 % 10`, that is 20. -/
theorem c4_remainder_dropped_witness :
    (0 : Int) ≤ 25 ∧ (25 : Int) ≤ maxInt ∧ (25 : Int) ≤ testConcurrencyMethod3.maxChanCap ∧
      (AlwaysReturns (testConcurrencyMethod1.step 25)
        (testConcurrencyMethod1.init ⟨false, ⟨0⟩⟩ []) (fun s => s.pc = .ret)
        (fun s => s.out = [.count (25 - 25 % 10)] ∧ s.workers.length = 10 ∧
          ∀ w ∈ s.workers, w.j = Int.tdiv 25 10) (70 * (25 / 10) + 63) ∧
      AlwaysReturns (testConcurrencyMethod2.step 25)
        (testConcurrencyMethod2.init ⟨false, ⟨0⟩⟩ []) (fun s => s.pc = .ret)
        (fun s => s.out = [.count (25 - 25 % 10)] ∧ s.workers.length = 10 ∧
          ∀ w ∈ s.workers, w.j = Int.tdiv 25 10) (70 * (25 / 10) + 95) ∧
      AlwaysReturns (testConcurrencyMethod3.stepOn testConcurrencyMethod3.maxChanCap 25)
        (testConcurrencyMethod3.init ⟨false, ⟨0⟩⟩ []) (fun s => s.pc = .ret)
        (fun s => s.out = [.count (25 - 25 % 10)] ∧ s.workers.length = 10 ∧
          ∀ w ∈ s.workers, w.j = Int.tdiv 25 10) (60 * (25 / 10) + 69) ∧
      (25 : Int) - 25 % 10 ≤ 25 ∧ ((25 : Int) - 25 % 10 = 25 ↔ (10 : Int) ∣ 25)) :=
  ⟨by decide, by decide, by decide,
    c4_remainder_dropped testConcurrencyMethod3.maxChanCap 25 (by decide) (by decide)
      (by decide)⟩

theorem counters_eq_replicate (cs : List CounterExample) (m : Int) (hl : cs.length = 10)
    (hv : ∀ c ∈ cs, c.value = m) : cs = List.replicate 10 ⟨m⟩ := by
  rw [List.eq_replicate_iff]
  refine ⟨hl, ?_⟩
  intro c hc
  have := hv c hc
  cases c
  simp at this
  simp [this]

/-- C5: for `0 <= iterations`, in every state of `testConcurrencyMethod2` that
any interleaving reaches with the caller past `wg.Wait()`, each of the 10 shard
counters holds `iterations / 10`; the function returns under every
interleaving, and the count it has then printed is the sum of the 10 shard
counters. -/
theorem c5_no_lost_shard (n : Int) (h0 : 0 ≤ n) (h1 : n ≤ maxInt) (g : Globals)
    (out0 : List Event) :
    Always (testConcurrencyMethod2.step n) (testConcurrencyMethod2.init g out0)
        (fun s => testConcurrencyMethod2.afterWait s.pc = true →
          s.counters = List.replicate 10 ⟨n / 10⟩) ∧
      AlwaysReturns (testConcurrencyMethod2.step n) (testConcurrencyMethod2.init g out0)
        (fun s => s.pc = .ret)
        (fun s => s.out = out0 ++ [.count (s.counters.map (fun c => c.value)).sum] ∧
          s.counters = List.replicate 10 ⟨n / 10⟩)
        (70 * (n / 10) + 95) := by
  have hpw := perWorker_of_nonneg n h0
  constructor
  · refine always_of_inv _ _ _ (testConcurrencyMethod2.Inv (perWorker n) g out0)
      (testConcurrencyMethod2.m2_inv_init _ g out0)
      (fun s t s1 h hs => testConcurrencyMethod2.m2_inv_step n g out0 s s1 t h1 h hs) ?_
    intro s h ha
    obtain ⟨hl, hv, -⟩ := testConcurrencyMethod2.m2_after_wait _ g out0 s h ha
    rw [hpw] at hv
    exact counters_eq_replicate s.counters _ hl hv
  · have h := testConcurrencyMethod2.m2_total n g out0 h1
    rw [hpw] at h
    refine alwaysReturns_imp _ _ _ _ _ _ _ h (fun s _ hs => ?_) (le_refl _)
    obtain ⟨ho, -, -, -, -, hl, hv, hsum⟩ := hs
    exact ⟨by rw [hsum]; exact ho, counters_eq_replicate s.counters _ hl hv⟩

/-- Witness of C5 at `iterations = 10`, from the zero globals and no output. -/
theorem c5_no_lost_shard_witness :
    (0 : Int) ≤ 10 ∧ (10 : Int) ≤ maxInt ∧
      (Always (testConcurrencyMethod2.step 10) (testConcurrencyMethod2.init ⟨false, ⟨0⟩⟩ [])
        (fun s => testConcurrencyMethod2.afterWait s.pc = true →
          s.counters = List.replicate 10 ⟨10 / 10⟩) ∧
      AlwaysReturns (testConcurrencyMethod2.step 10)
        (testConcurrencyMethod2.init ⟨false, ⟨0⟩⟩ [])
        (fun s => s.pc = .ret)
        (fun s => s.out = [] ++ [.count (s.counters.map (fun c => c.value)).sum] ∧
          s.counters = List.replicate 10 ⟨10 / 10⟩)
        (70 * (10 / 10) + 95)) :=
  ⟨by decide, by decide, c5_no_lost_shard 10 (by decide) (by decide) ⟨false, ⟨0⟩⟩ []⟩

theorem m2_blind (n : Int) (s : testConcurrencyMethod2.State) (t : Tid) (g1 : Globals) :
    testConcurrencyMethod2.step n { s with g := g1 } t
      = (testConcurrencyMethod2.step n s t).map (fun s1 => { s1 with g := g1 }) := by
  obtain ⟨g, out, p, wg, i, total, pc, cs, ms, ws⟩ := s
  cases p
  · cases t with
    | main =>
      cases pc <;> simp [testConcurrencyMethod2.step, testConcurrencyMethod2.mainStep] <;>
        split <;> simp
    | aggregator => simp [testConcurrencyMethod2.step]
    | worker k =>
      simp only [testConcurrencyMethod2.step]
      cases hk : ws[k]? with
      | none => simp [hk]
      | some w =>
        obtain ⟨wpc, id, j, tmp⟩ := w
        cases wpc <;> simp [hk, testConcurrencyMethod2.workerStep] <;> split <;> simp
  · simp [testConcurrencyMethod2.step]

theorem m2_frame (n : Int) (s s1 : testConcurrencyMethod2.State) (t : Tid)
    (h : testConcurrencyMethod2.step n s t = some s1) : s1.g = s.g := by
  obtain ⟨g, out, p, wg, i, total, pc, cs, ms, ws⟩ := s
  cases p
  · cases t with
    | main =>
      cases pc <;> simp [testConcurrencyMethod2.step, testConcurrencyMethod2.mainStep] at h <;>
        (try split at h) <;> (try simp at h) <;>
        first | (subst h; rfl) | (obtain ⟨-, rfl⟩ := h; rfl)
    | aggregator => simp [testConcurrencyMethod2.step] at h
    | worker k =>
      simp only [testConcurrencyMethod2.step] at h
      cases hk : ws[k]? with
      | none => simp [hk] at h
      | some w =>
        obtain ⟨wpc, id, j, tmp⟩ := w
        cases wpc <;> simp [hk, testConcurrencyMethod2.workerStep] at h <;>
          (try split at h) <;> (try simp at h) <;> subst h <;> rfl
  · simp [testConcurrencyMethod2.step] at h

theorem m3_blind (n : Int) (s : testConcurrencyMethod3.State) (t : Tid) (g1 : Globals) :
    testConcurrencyMethod3.step n { s with g := g1 } t
      = (testConcurrencyMethod3.step n s t).map (fun s1 => { s1 with g := g1 }) := by
  obtain ⟨g, out, p, wg, i, pc, ch, agg, ws⟩ := s
  cases p
  · cases t with
    | main =>
      cases pc <;> simp [testConcurrencyMethod3.step, testConcurrencyMethod3.stepOn,
        testConcurrencyMethod3.mainStep, testConcurrencyMethod3.mainStepOn] <;>
        split <;> simp
    | aggregator =>
      simp only [testConcurrencyMethod3.step, testConcurrencyMethod3.stepOn]
      cases agg with
      | none => simp
      | some a =>
        obtain ⟨apc, tot, inc⟩ := a
        cases apc <;> simp [testConcurrencyMethod3.aggStep] <;> split <;> simp
    | worker k =>
      simp only [testConcurrencyMethod3.step, testConcurrencyMethod3.stepOn]
      cases hk : ws[k]? with
      | none => simp [hk]
      | some w =>
        obtain ⟨wpc, j⟩ := w
        cases wpc <;> simp [hk, testConcurrencyMethod3.workerStep] <;> split <;> (try simp) <;>
          (try split) <;> (try simp) <;> (try split) <;> (try simp)
  · simp [testConcurrencyMethod3.step, testConcurrencyMethod3.stepOn]

theorem m3_frame (n : Int) (s s1 : testConcurrencyMethod3.State) (t : Tid)
    (h : testConcurrencyMethod3.step n s t = some s1) : s1.g = s.g := by
  obtain ⟨g, out, p, wg, i, pc, ch, agg, ws⟩ := s
  cases p
  · cases t with
    | main =>
      cases pc <;> simp [testConcurrencyMethod3.step, testConcurrencyMethod3.stepOn,
        testConcurrencyMethod3.mainStep, testConcurrencyMethod3.mainStepOn] at h <;>
        (try split at h) <;> (try simp at h) <;>
        first | (subst h; rfl) | (obtain ⟨-, rfl⟩ := h; rfl)
    | aggregator =>
      simp only [testConcurrencyMethod3.step, testConcurrencyMethod3.stepOn] at h
      cases agg with
      | none => simp at h
      | some a =>
        obtain ⟨apc, tot, inc⟩ := a
        cases apc <;> simp [testConcurrencyMethod3.aggStep] at h <;>
          (try split at h) <;> (try simp at h) <;>
          first | (subst h; rfl) | (obtain ⟨-, rfl⟩ := h; rfl)
    | worker k =>
      simp only [testConcurrencyMethod3.step, testConcurrencyMethod3.stepOn] at h
      cases hk : ws[k]? with
      | none => simp [hk] at h
      | some w =>
        obtain ⟨wpc, j⟩ := w
        cases wpc <;> simp [hk, testConcurrencyMethod3.workerStep] at h <;>
          (try split at h) <;> (try simp at h) <;> (try split at h) <;> (try simp at h) <;>
          (try split at h) <;> (try simp at h) <;>
          first | (subst h; rfl) | (obtain ⟨-, rfl⟩ := h; rfl)
  · simp [testConcurrencyMethod3.step, testConcurrencyMethod3.stepOn] at h

theorem m3_pc_step (n : Int) (s s1 : testConcurrencyMethod3.State) (t : Tid)
    (h : testConcurrencyMethod3.step n s t = some s1) :
    s1.pc = s.pc ∨ (s.pc = .recvDone ∧ s1.pc = .ret) ∨
      (s.pc ≠ .recvDone ∧ s.pc ≠ .ret ∧ s1.pc ≠ .ret) := by
  obtain ⟨g, out, p, wg, i, pc, ch, agg, ws⟩ := s
  cases p
  · cases t with
    | main =>
      cases pc <;> simp [testConcurrencyMethod3.step, testConcurrencyMethod3.stepOn,
        testConcurrencyMethod3.mainStep, testConcurrencyMethod3.mainStepOn] at h <;>
        (try split at h) <;> (try simp at h) <;>
        first | (subst h; simp) | (obtain ⟨-, rfl⟩ := h; simp)
    | aggregator =>
      simp only [testConcurrencyMethod3.step, testConcurrencyMethod3.stepOn] at h
      cases agg with
      | none => simp at h
      | some a =>
        obtain ⟨apc, tot, inc⟩ := a
        cases apc <;> simp [testConcurrencyMethod3.aggStep] at h <;>
          (try split at h) <;> (try simp at h) <;>
          first | (subst h; simp) | (obtain ⟨rfl, rfl⟩ := h; simp) | (obtain ⟨-, rfl⟩ := h; simp)
    | worker k =>
      simp only [testConcurrencyMethod3.step, testConcurrencyMethod3.stepOn] at h
      cases hk : ws[k]? with
      | none => simp [hk] at h
      | some w =>
        obtain ⟨wpc, j⟩ := w
        cases wpc <;> simp [hk, testConcurrencyMethod3.workerStep] at h <;>
          (try split at h) <;> (try simp at h) <;> (try split at h) <;> (try simp at h) <;>
          (try split at h) <;> (try simp at h) <;>
          first | (subst h; simp) | (obtain ⟨-, rfl⟩ := h; simp)
  · simp [testConcurrencyMethod3.step, testConcurrencyMethod3.stepOn] at h

/-- C6: `testConcurrencyMethod2` and `testConcurrencyMethod3` neither modify the
package-level variables (no step changes them) nor read them (a step from a
state with other globals is the same step), and both return, with the globals
they were entered with, under every interleaving, whatever these globals are;
the count `testConcurrencyMethod1` prints on return is a function of the
counter value on entry and of `iterations` alone: entered with value `c` it is
`c + 10 * max 0 (iterations / 10)` as a 64-bit value.  So no strategy's count
depends on whether another strategy ran before it. -/
theorem c6_no_cross_contamination :
    (∀ (n : Int) (s s1 : testConcurrencyMethod2.State) (t : Tid),
      testConcurrencyMethod2.step n s t = some s1 → s1.g = s.g) ∧
    (∀ (n : Int) (s : testConcurrencyMethod2.State) (t : Tid) (g1 : Globals),
      testConcurrencyMethod2.step n { s with g := g1 } t
        = (testConcurrencyMethod2.step n s t).map (fun s1 => { s1 with g := g1 })) ∧
    (∀ (n : Int) (s s1 : testConcurrencyMethod3.State) (t : Tid),
      testConcurrencyMethod3.step n s t = some s1 → s1.g = s.g) ∧
    (∀ (n : Int) (s : testConcurrencyMethod3.State) (t : Tid) (g1 : Globals),
      testConcurrencyMethod3.step n { s with g := g1 } t
        = (testConcurrencyMethod3.step n s t).map (fun s1 => { s1 with g := g1 })) ∧
    (∀ (n : Int) (g : Globals) (out0 : List Event), n ≤ maxInt →
      AlwaysReturns (testConcurrencyMethod2.step n) (testConcurrencyMethod2.init g out0)
        (fun s => s.pc = .ret)
        (fun s => s.g = g ∧ s.out = out0 ++ [.count (10 * perWorker n)])
        (70 * perWorker n + 95)) ∧
    (∀ (n : Int) (g : Globals) (out0 : List Event), 0 ≤ n → n ≤ maxInt →
      AlwaysReturns (testConcurrencyMethod3.step n) (testConcurrencyMethod3.init g out0)
        (fun s => s.pc = .ret)
        (fun s => s.g = g ∧ s.out = out0 ++ [.count (10 * perWorker n)])
        (60 * perWorker n + 69)) ∧
    (∀ (n c : Int) (out0 : List Event), n ≤ maxInt → wrap64 c = c →
      AlwaysReturns (testConcurrencyMethod1.step n)
        (testConcurrencyMethod1.init ⟨false, ⟨c⟩⟩ out0) (fun s => s.pc = .ret)
        (fun s => s.out = out0 ++ [.count (wrap64 (c + 10 * perWorker n))])
        (70 * perWorker n + 63)) := by
  refine ⟨fun n s s1 t h => m2_frame n s s1 t h, m2_blind, fun n s s1 t h => m3_frame n s s1 t h,
    m3_blind, ?_, ?_, ?_⟩
  · intro n g out0 h1
    exact alwaysReturns_imp _ _ _ _ _ _ _ (testConcurrencyMethod2.m2_total n g out0 h1)
      (fun s _ hs => ⟨hs.2.1, hs.1⟩) (le_refl _)
  · intro n g out0 h0 h1
    exact alwaysReturns_imp _ _ _ _ _ _ _ (testConcurrencyMethod3.m3_total n g out0 h0 h1)
      (fun s _ hs => ⟨hs.2.1, hs.1⟩) (le_refl _)
  · intro n c out0 h1 hc
    exact alwaysReturns_imp _ _ _ _ _ _ _ (testConcurrencyMethod1.m1_total n c out0 h1 hc)
      (fun s _ hs => hs.1) (le_refl _)

theorem m3_closed_iff (n m : Int) (g0 : Globals) (out0 : List Event)
    (s : testConcurrencyMethod3.State) (h : testConcurrencyMethod3.Inv n m g0 out0 s) :
    s.increments.closed = true ↔ (s.pc = .recvDone ∨ s.pc = .ret) := by
  obtain ⟨hp, hg0, hone, hbal, hw, hg, hmn, hag, hrt⟩ := h
  obtain ⟨g, out, p, wg, i, pc, ch, agg, ws⟩ := s
  cases pc <;> simp [testConcurrencyMethod3.MainOK] at hmn ⊢ <;> simp [hmn]

theorem m3_phase_step (n : Int) (g0 : Globals) (out0 : List Event)
    (s s1 : testConcurrencyMethod3.State) (t : Tid) (hn0 : 0 ≤ n) (hn : n ≤ maxInt)
    (h : testConcurrencyMethod3.Inv n (perWorker n) g0 out0 s)
    (hs : testConcurrencyMethod3.step n s t = some s1) :
    testConcurrencyMethod3.phase s1 = testConcurrencyMethod3.phase s ∨
      (testConcurrencyMethod3.phase s = .sending ∧
        testConcurrencyMethod3.phase s1 = .draining) ∨
      (testConcurrencyMethod3.phase s = .draining ∧
        testConcurrencyMethod3.phase s1 = .done) := by
  have h1 := (testConcurrencyMethod3.m3_ok_step n g0 out0 s s1 t hn0 hn h hs).1
  have c0 := m3_closed_iff n _ g0 out0 s h
  have c1 := m3_closed_iff n _ g0 out0 s1 h1
  rcases m3_pc_step n s s1 t hs with hpc | ⟨ha, hb⟩ | ⟨ha, hb, hc⟩
  · left
    have hcl : s1.increments.closed = s.increments.closed := by
      rw [hpc] at c1
      cases hx : s.increments.closed <;> cases hy : s1.increments.closed <;> simp_all
    simp [testConcurrencyMethod3.phase, hpc, hcl]
  · right; right
    have hcl : s.increments.closed = true := c0.2 (Or.inl ha)
    simp [testConcurrencyMethod3.phase, ha, hb, hcl]
  · have hcl : s.increments.closed = false := by
      cases hx : s.increments.closed
      · rfl
      · rcases c0.1 hx with h2 | h2
        · exact absurd h2 ha
        · exact absurd h2 hb
    cases hy : s1.increments.closed
    · left; simp [testConcurrencyMethod3.phase, hb, hc, hcl, hy]
    · right; left; simp [testConcurrencyMethod3.phase, hb, hc, hcl, hy]

theorem m3_agg_facts (n m : Int) (g0 : Globals) (out0 : List Event)
    (s : testConcurrencyMethod3.State) (h : testConcurrencyMethod3.Inv n m g0 out0 s) :
    (∀ a, s.agg = some a → a.pc = .sendDone ∨ a.pc = .dead →
      s.increments.closed = true ∧ s.increments.buf = [] ∧ a.total = 10 * m ∧
        s.out = out0 ++ [.count (10 * m)]) ∧
    (s.out = out0 ++ [.count (10 * m)] →
      ∃ a, s.agg = some a ∧ (a.pc = .sendDone ∨ a.pc = .dead)) ∧
    (s.pc = .ret → ∃ a, s.agg = some a ∧ a.pc = .dead) := by
  obtain ⟨hp, hg0, hone, hbal, hw, hg, hmn, hag, hrt⟩ := h
  obtain ⟨g, out, p, wg, i, pc, ch, agg, ws⟩ := s
  cases agg with
  | none =>
    simp [testConcurrencyMethod3.AggOK] at hag
    simp [testConcurrencyMethod3.aggDead] at hrt
    simp [hag, hrt]
  | some a =>
    obtain ⟨apc, tot, inc⟩ := a
    cases apc <;> simp [testConcurrencyMethod3.AggOK] at hag <;>
      simp [testConcurrencyMethod3.aggDead] at hrt <;> simp [hag, hrt]

/-- C7: for `0 <= iterations`, in every state of `testConcurrencyMethod3` that
any interleaving reaches: the process has not panicked (no send on a closed
channel); when `increments` is closed all 10 producers have been started, have
run their loop `iterations / 10` times and have returned; when the aggregator is
at or past its send on `done` the channel is closed and empty and the
aggregator has received everything; when the function has returned the
aggregator has completed that send; and a step either keeps the state of the
handshake or moves it from Sending to Draining or from Draining to Done.  The
handshake starts in Sending and the function returns, in Done, under every
interleaving. -/
theorem c7_shutdown_order (n : Int) (h0 : 0 ≤ n) (h1 : n ≤ maxInt) (g : Globals)
    (out0 : List Event) :
    Always (testConcurrencyMethod3.step n) (testConcurrencyMethod3.init g out0)
        (fun s =>
          s.panicked = false ∧
          (s.increments.closed = true →
            s.workers.length = 10 ∧ ∀ w ∈ s.workers, w.pc = .dead ∧ w.j = n / 10) ∧
          (∀ a, s.agg = some a → a.pc = .sendDone ∨ a.pc = .dead →
            s.increments.closed = true ∧ s.increments.buf = [] ∧ a.total = 10 * (n / 10)) ∧
          (s.pc = .ret → ∃ a, s.agg = some a ∧ a.pc = .dead) ∧
          ∀ (t : Tid) (s1 : testConcurrencyMethod3.State),
            testConcurrencyMethod3.step n s t = some s1 →
              testConcurrencyMethod3.phase s1 = testConcurrencyMethod3.phase s ∨
              (testConcurrencyMethod3.phase s = .sending ∧
                testConcurrencyMethod3.phase s1 = .draining) ∨
              (testConcurrencyMethod3.phase s = .draining ∧
                testConcurrencyMethod3.phase s1 = .done)) ∧
      testConcurrencyMethod3.phase (testConcurrencyMethod3.init g out0) = .sending ∧
      AlwaysReturns (testConcurrencyMethod3.step n) (testConcurrencyMethod3.init g out0)
        (fun s => s.pc = .ret) (fun s => testConcurrencyMethod3.phase s = .done)
        (60 * (n / 10) + 69) := by
  have hpw := perWorker_of_nonneg n h0
  refine ⟨?_, by simp [testConcurrencyMethod3.phase, testConcurrencyMethod3.init], ?_⟩
  · refine always_of_inv _ _ _ (testConcurrencyMethod3.Inv n (perWorker n) g out0)
      (testConcurrencyMethod3.m3_inv_init _ _ g out0)
      (fun s t s1 h hs => (testConcurrencyMethod3.m3_ok_step n g out0 s s1 t h0 h1 h hs).1) ?_
    intro s h
    obtain ⟨f1, -, f3⟩ := m3_agg_facts n _ g out0 s h
    rw [hpw] at f1
    refine ⟨h.1, ?_, ?_, f3, ?_⟩
    · intro hc
      have := testConcurrencyMethod3.m3_at_closed n _ g out0 s h hc
      rw [hpw] at this
      exact this.2
    · intro a ha hpc
      obtain ⟨x1, x2, x3, -⟩ := f1 a ha hpc
      exact ⟨x1, x2, x3⟩
    · intro t s1 hs
      exact m3_phase_step n g out0 s s1 t h0 h1 h hs
  · have h := testConcurrencyMethod3.m3_total n g out0 h0 h1
    rw [hpw] at h
    refine alwaysReturns_imp _ _ _ _ _ _ _ h (fun s hr _ => ?_) (le_refl _)
    simp only at hr
    simp [testConcurrencyMethod3.phase, hr]

/-- Witness of C7 at `iterations = 10`, from the zero globals and no output. -/
theorem c7_shutdown_order_witness :
    (0 : Int) ≤ 10 ∧ (10 : Int) ≤ maxInt ∧
      (Always (testConcurrencyMethod3.step 10) (testConcurrencyMethod3.init ⟨false, ⟨0⟩⟩ [])
        (fun s =>
          s.panicked = false ∧
          (s.increments.closed = true →
            s.workers.length = 10 ∧ ∀ w ∈ s.workers, w.pc = .dead ∧ w.j = 10 / 10) ∧
          (∀ a, s.agg = some a → a.pc = .sendDone ∨ a.pc = .dead →
            s.increments.closed = true ∧ s.increments.buf = [] ∧ a.total = 10 * (10 / 10)) ∧
          (s.pc = .ret → ∃ a, s.agg = some a ∧ a.pc = .dead) ∧
          ∀ (t : Tid) (s1 : testConcurrencyMethod3.State),
            testConcurrencyMethod3.step 10 s t = some s1 →
              testConcurrencyMethod3.phase s1 = testConcurrencyMethod3.phase s ∨
              (testConcurrencyMethod3.phase s = .sending ∧
                testConcurrencyMethod3.phase s1 = .draining) ∨
              (testConcurrencyMethod3.phase s = .draining ∧
                testConcurrencyMethod3.phase s1 = .done)) ∧
      testConcurrencyMethod3.phase (testConcurrencyMethod3.init ⟨false, ⟨0⟩⟩ []) = .sending ∧
      AlwaysReturns (testConcurrencyMethod3.step 10)
        (testConcurrencyMethod3.init ⟨false, ⟨0⟩⟩ [])
        (fun s => s.pc = .ret) (fun s => testConcurrencyMethod3.phase s = .done)
        (60 * (10 / 10) + 69)) :=
  ⟨by decide, by decide, c7_shutdown_order 10 (by decide) (by decide) ⟨false, ⟨0⟩⟩ []⟩

/-- Counterexample to C8 as stated: with `iterations = 10`, after the sequential
schedule and 22 statements of the aggregator, the count 10 is on the output
while the aggregator is still at its send on `done` (line 114 has not run) and
the caller still waits at `<-done`. -/
theorem c8_report_before_done_counterexample :
    (testConcurrencyMethod3.exec 10 (testConcurrencyMethod3.init ⟨false, ⟨0⟩⟩ [])
        (seqSchedule 44 6 2 ++ List.replicate 22 Tid.aggregator)).map
      (fun s => (s.out, s.agg.map (fun a => a.pc), s.pc))
      = some ([.count 10], some .sendDone, .recvDone) := by
  decide

/-- C8, amended: for `0 <= iterations`, in every state of
`testConcurrencyMethod3` that any interleaving reaches, the output is what it
was on entry or that followed by the one line with the count
`10 * (iterations / 10)`; once the count is on the output the channel is
closed and empty and the aggregator, having received that many values, is at
or past its send on `done`; conversely whenever the aggregator is at that
send, not yet done, or past it, the count is already on the output; and when
the function has returned the count is on the output.  The function returns
under every interleaving. -/
theorem c8_report_after_drain (n : Int) (h0 : 0 ≤ n) (h1 : n ≤ maxInt) (g : Globals)
    (out0 : List Event) :
    Always (testConcurrencyMethod3.step n) (testConcurrencyMethod3.init g out0)
        (fun s =>
          (s.out = out0 ∨ s.out = out0 ++ [.count (10 * (n / 10))]) ∧
          (s.out = out0 ++ [.count (10 * (n / 10))] →
            s.increments.closed = true ∧ s.increments.buf = [] ∧
            ∃ a, s.agg = some a ∧ (a.pc = .sendDone ∨ a.pc = .dead) ∧
              a.total = 10 * (n / 10)) ∧
          (∀ a, s.agg = some a → a.pc = .sendDone ∨ a.pc = .dead →
            s.out = out0 ++ [.count (10 * (n / 10))]) ∧
          (s.pc = .ret → s.out = out0 ++ [.count (10 * (n / 10))])) ∧
      AlwaysReturns (testConcurrencyMethod3.step n) (testConcurrencyMethod3.init g out0)
        (fun s => s.pc = .ret) (fun s => s.out = out0 ++ [.count (10 * (n / 10))])
        (60 * (n / 10) + 69) := by
  have hpw := perWorker_of_nonneg n h0
  constructor
  · refine always_of_inv _ _ _ (testConcurrencyMethod3.Inv n (perWorker n) g out0)
      (testConcurrencyMethod3.m3_inv_init _ _ g out0)
      (fun s t s1 h hs => (testConcurrencyMethod3.m3_ok_step n g out0 s s1 t h0 h1 h hs).1) ?_
    intro s h
    obtain ⟨f1, f2, f3⟩ := m3_agg_facts n _ g out0 s h
    have f0 := testConcurrencyMethod3.m3_out_cases n _ g out0 s h
    rw [hpw] at f0 f1 f2
    refine ⟨f0, ?_, ?_, ?_⟩
    · intro ho
      obtain ⟨a, ha, hpc⟩ := f2 ho
      obtain ⟨x1, x2, x3, -⟩ := f1 a ha hpc
      exact ⟨x1, x2, a, ha, hpc, x3⟩
    · intro a ha hpc
      exact (f1 a ha hpc).2.2.2
    · intro hr
      obtain ⟨a, ha, hpc⟩ := f3 hr
      exact (f1 a ha (Or.inr hpc)).2.2.2
  · have h := testConcurrencyMethod3.m3_total n g out0 h0 h1
    rw [hpw] at h
    exact alwaysReturns_imp _ _ _ _ _ _ _ h (fun s _ hs => hs.1) (le_refl _)

/-- Witness of the amended C8 at `iterations = 10`, from the zero globals and no
output. -/
theorem c8_report_after_drain_witness :
    (0 : Int) ≤ 10 ∧ (10 : Int) ≤ maxInt ∧
      (Always (testConcurrencyMethod3.step 10) (testConcurrencyMethod3.init ⟨false, ⟨0⟩⟩ [])
        (fun s =>
          (s.out = [] ∨ s.out = [] ++ [.count (10 * (10 / 10))]) ∧
          (s.out = [] ++ [.count (10 * (10 / 10))] →
            s.increments.closed = true ∧ s.increments.buf = [] ∧
            ∃ a, s.agg = some a ∧ (a.pc = .sendDone ∨ a.pc = .dead) ∧
              a.total = 10 * (10 / 10)) ∧
          (∀ a, s.agg = some a → a.pc = .sendDone ∨ a.pc = .dead →
            s.out = [] ++ [.count (10 * (10 / 10))]) ∧
          (s.pc = .ret → s.out = [] ++ [.count (10 * (10 / 10))])) ∧
      AlwaysReturns (testConcurrencyMethod3.step 10)
        (testConcurrencyMethod3.init ⟨false, ⟨0⟩⟩ [])
        (fun s => s.pc = .ret) (fun s => s.out = [] ++ [.count (10 * (10 / 10))])
        (60 * (10 / 10) + 69)) :=
  ⟨by decide, by decide, c8_report_after_drain 10 (by decide) (by decide) ⟨false, ⟨0⟩⟩ []⟩

theorem run_inner_step (d d1 : RunConcurrencyExample.State) (t : Tid)
    (hs : RunConcurrencyExample.step d t = some d1) :
    (∀ s s1, d = .in1 s → d1 = .in1 s1 → testConcurrencyMethod1.step 1000000 s t = some s1) ∧
    (∀ s s1, d = .in2 s → d1 = .in2 s1 → testConcurrencyMethod2.step 1000000 s t = some s1) ∧
    (∀ s s1, d = .in3 s → d1 = .in3 s1 → testConcurrencyMethod3.step 1000000 s t = some s1) := by
  refine ⟨?_, ?_, ?_⟩
  · intro s s1 hd hd1
    subst hd hd1
    simp only [RunConcurrencyExample.step] at hs
    split at hs
    · simp at hs
    · split at hs
      · simp at hs
      · simp only [Option.map_eq_some'] at hs
        obtain ⟨s2, h2, h3⟩ := hs
        simp at h3; subst h3; exact h2
  · intro s s1 hd hd1
    subst hd hd1
    simp only [RunConcurrencyExample.step] at hs
    split at hs
    · simp at hs
    · split at hs
      · simp at hs
      · simp only [Option.map_eq_some'] at hs
        obtain ⟨s2, h2, h3⟩ := hs
        simp at h3; subst h3; exact h2
  · intro s s1 hd hd1
    subst hd hd1
    simp only [RunConcurrencyExample.step] at hs
    split at hs
    · simp at hs
    · split at hs
      · simp at hs
      · simp only [Option.map_eq_some'] at hs
        obtain ⟨s2, h2, h3⟩ := hs
        simp at h3; subst h3; exact h2

/-- C9: `RunConcurrencyExample`, entered with the package-level variables at
their zero value, goes through its positions in source order (banner, call of
method 1, method 1 running, its elapsed-time line, reset, call of method 2,
method 2 running, its line, call of method 3, method 3 running, its line,
return): a step stays at a position or moves to the next one, so each strategy
runs once and none starts before the previous one has returned and its line is
printed; each call is entered with the current globals and output, and runs
with 1000000 iterations; at each position the output is the part of the
expected output that belongs there; and under every interleaving the function
returns with the whole expected output printed. -/
theorem c9_driver_order :
    RunConcurrencyExample.stage (RunConcurrencyExample.init ⟨false, ⟨0⟩⟩) = 0 ∧
    (∀ (d d1 : RunConcurrencyExample.State) (t : Tid),
      RunConcurrencyExample.step d t = some d1 →
        (RunConcurrencyExample.stage d1 = RunConcurrencyExample.stage d ∨
          RunConcurrencyExample.stage d1 = RunConcurrencyExample.stage d + 1) ∧
        (∀ s s1, d = .in1 s → d1 = .in1 s1 →
          testConcurrencyMethod1.step 1000000 s t = some s1) ∧
        (∀ s s1, d = .in2 s → d1 = .in2 s1 →
          testConcurrencyMethod2.step 1000000 s t = some s1) ∧
        (∀ s s1, d = .in3 s → d1 = .in3 s1 →
          testConcurrencyMethod3.step 1000000 s t = some s1)) ∧
    (∀ (g : Globals) (out : List Event),
      RunConcurrencyExample.step (.top .call1 g out) .main
          = some (.in1 (testConcurrencyMethod1.init g out)) ∧
        RunConcurrencyExample.step (.top .call2 g out) .main
          = some (.in2 (testConcurrencyMethod2.init g out)) ∧
        RunConcurrencyExample.step (.top .call3 g out) .main
          = some (.in3 (testConcurrencyMethod3.init g out))) ∧
    Always RunConcurrencyExample.step (RunConcurrencyExample.init ⟨false, ⟨0⟩⟩)
      (fun d => RunConcurrencyExample.output d
        ∈ RunConcurrencyExample.outputAt (RunConcurrencyExample.stage d)) ∧
    AlwaysReturns RunConcurrencyExample.step (RunConcurrencyExample.init ⟨false, ⟨0⟩⟩)
      RunConcurrencyExample.returned
      (fun d => RunConcurrencyExample.stage d = 11 ∧
        RunConcurrencyExample.output d =
          [.banner, .count 1000000, .elapsed 1, .count 1000000, .elapsed 2, .count 1000000,
            .elapsed 3])
      20000238 := by
  refine ⟨rfl, ?_, ?_, ?_, ?_⟩
  · intro d d1 t hs
    exact ⟨RunConcurrencyExample.run_stage_step d d1 t hs, run_inner_step d d1 t hs⟩
  · intro g out
    exact ⟨rfl, rfl, rfl⟩
  · exact always_of_inv _ _ _ RunConcurrencyExample.Inv RunConcurrencyExample.run_inv_init
      (fun d t d1 h hs => (RunConcurrencyExample.run_ok_step d d1 t h hs).1)
      RunConcurrencyExample.run_output_stage
  · refine alwaysReturns_imp _ _ _ _ _ _ _ RunConcurrencyExample.run_total
      (fun d _ hd => ?_) (le_refl _)
    subst hd
    exact ⟨rfl, rfl⟩

end PerformanceExamples

namespace CodeSmells

/-- C10, the code at a failing input: a cancelled order (`orderStatus =
Cancelled`) of 100 for a digital product, every other argument zero or false,
gets the discount 1, not 0: the rate is reset to 0 at the order-status step
(lines 218-220) and then raised by 0.01 at the product-type step (line 239). -/
theorem c10_cancelled_order_discounted :
    CalculateOrderDiscount 0 100 Regular 0 0 0 BankTransfer false false 0 Cancelled Digital 0
      false false 0 false false = 1 := by
  norm_num [CalculateOrderDiscount, discountRate, hoursSince, Regular, Premium, Enterprise,
    Admin, Guest, CreditCard, DebitCard, BankTransfer, DigitalWallet, GiftCard, StoredCredit,
    Pending, Processing, Shipped, Delivered, Cancelled, Returned, Refunded, Physical, Digital,
    Subscription, Service]

end CodeSmells

/-! ## Order discount and loyalty score -/

namespace CodeSmells

/-- C11: for every input with `orderTotal >= 0`, `CalculateOrderDiscount` returns
the order total times the accumulated rate capped at 0.50, and so at most
`0.50 * orderTotal`. -/
theorem c11_discount_capped (now : Int) (orderTotal : ℚ) (userType : Int)
    (userRegistrationDate : Int) (previousOrdersCount : Int) (totalSpent : ℚ)
    (paymentMethod : Int) (isHoliday hasPromoCode : Bool) (promoCodeValue : ℚ)
    (orderStatus productType : Int) (quantity : Int) (isFirstPurchase hasCoupon : Bool)
    (couponValue : ℚ) (isWeekend isFlashSale : Bool) (h : 0 ≤ orderTotal) :
    CalculateOrderDiscount now orderTotal userType userRegistrationDate previousOrdersCount
        totalSpent paymentMethod isHoliday hasPromoCode promoCodeValue orderStatus productType
        quantity isFirstPurchase hasCoupon couponValue isWeekend isFlashSale
      = orderTotal * min (discountRate now orderTotal userType userRegistrationDate
          previousOrdersCount totalSpent paymentMethod isHoliday hasPromoCode promoCodeValue
          orderStatus productType quantity isFirstPurchase hasCoupon couponValue isWeekend
          isFlashSale) (50 / 100)
    ∧ CalculateOrderDiscount now orderTotal userType userRegistrationDate previousOrdersCount
        totalSpent paymentMethod isHoliday hasPromoCode promoCodeValue orderStatus productType
        quantity isFirstPurchase hasCoupon couponValue isWeekend isFlashSale
      ≤ 50 / 100 * orderTotal := by
  unfold CalculateOrderDiscount
  generalize discountRate now orderTotal userType userRegistrationDate previousOrdersCount
    totalSpent paymentMethod isHoliday hasPromoCode promoCodeValue orderStatus productType
    quantity isFirstPurchase hasCoupon couponValue isWeekend isFlashSale = r
  constructor
  · by_cases hr : r > 50 / 100
    · simp only [hr, if_true]
      rw [min_eq_right (le_of_lt hr)]
    · simp only [hr, if_false]
      rw [min_eq_left (not_lt.1 hr)]
  · by_cases hr : r > 50 / 100
    · simp only [hr, if_true]
      linarith
    · simp only [hr, if_false]
      have h2 : r ≤ 50 / 100 := not_lt.1 hr
      nlinarith [mul_le_mul_of_nonneg_left h2 h]

/-- An Enterprise order of 20000 paid by credit card on a holiday flash sale, 25
units: the rate 0.60 is cut to 0.50 and the discount is 10000. -/
theorem c11_discount_capped_witness :
    (0 : ℚ) ≤ 20000
    ∧ discountRate 0 20000 Enterprise 0 0 0 CreditCard true false 0 Processing
        Physical 25 false false 0 false true = 60 / 100
    ∧ CalculateOrderDiscount 0 20000 Enterprise 0 0 0 CreditCard true false 0 Processing
        Physical 25 false false 0 false true ≤ 50 / 100 * 20000 :=
  ⟨by norm_num,
   by norm_num [discountRate, hoursSince, Regular, Premium, Enterprise, Admin, Guest, CreditCard,
     DebitCard, BankTransfer, DigitalWallet, GiftCard, StoredCredit, Pending, Processing,
     Shipped, Delivered, Cancelled, Returned, Refunded, Physical, Digital, Subscription, Service],
   (c11_discount_capped 0 20000 Enterprise 0 0 0 CreditCard true false 0 Processing
      Physical 25 false false 0 false true (by norm_num)).2⟩

namespace FeatureEnvy

/-- C12: for every user, every list of orders and every reading of the clock,
`CalculateUserLoyaltyScore` returns a score between 0 and 100 inclusive. -/
theorem c12_score_in_range (clock : Nat → Int) (user : User) (orders : List Order) :
    0 ≤ CalculateUserLoyaltyScore clock user orders
    ∧ CalculateUserLoyaltyScore clock user orders ≤ 100 := by
  unfold CalculateUserLoyaltyScore
  exact ⟨le_max_left _ _, max_le (by norm_num) (min_le_right _ _)⟩

end FeatureEnvy

end CodeSmells

/-! ## E-commerce system -/

namespace CodeSmells

namespace LargeClass

open PerformanceExamples (wrap64 maxInt)

theorem entry_iff_lookup {V : Type} (m : GoMap V) (visit : List (Σ _ : String, V))
    (hv : visit.Perm m.entries) (k : String) (v : V) :
    (⟨k, v⟩ : Σ _ : String, V) ∈ visit ↔ m.lookup k = some v := by
  rw [hv.mem_iff, ← AList.mem_lookup_iff]
  rfl

/-- C13: whatever order the loop visits the registered users in, `RegisterUser`
returns an error exactly when some registered user has the same username or the
same email; with an error the system is returned unchanged (and the identifier
is empty); without one the returned identifier is `user_N` for `N` one more than
the number of users before, the user stored under it is active and has the
given data, its preferences, empty address and payment-method lists and exactly
100 loyalty points are stored, and no other field of the system changes. -/
theorem c13_register_user (visit : List (Σ _ : String, User)) (clock : Nat → Int)
    (e : ECommerceSystem) (username email password firstName lastName phone : String)
    (hv : visit.Perm e.Users.entries) :
    ((RegisterUser visit clock e username email password firstName lastName phone).1.2.isSome
        ↔ ∃ id u, e.Users.lookup id = some u ∧ (u.Username = username ∨ u.Email = email))
    ∧ ((RegisterUser visit clock e username email password firstName lastName phone).1.2.isSome →
        (RegisterUser visit clock e username email password firstName lastName phone).2 = e
        ∧ (RegisterUser visit clock e username email password firstName lastName phone).1.1 = "")
    ∧ ((RegisterUser visit clock e username email password firstName lastName phone).1.2 = none →
        ∃ userID e1,
          RegisterUser visit clock e username email password firstName lastName phone
            = ((userID, none), e1)
          ∧ userID = "user_" ++ toString (e.Users.entries.length + 1)
          ∧ e1.Users.lookup userID
              = some ⟨userID, username, email, password, firstName, lastName, phone, clock 0,
                  zeroTime, true⟩
          ∧ e1.LoyaltyPoints.lookup userID = some 100
          ∧ e1.UserPreferences.lookup userID = some ⟨true, false, "zh-CN", "CNY", "default"⟩
          ∧ e1.UserAddresses.lookup userID = some []
          ∧ e1.UserPaymentMethods.lookup userID = some []
          ∧ e1 = { e with
              Users := e1.Users, UserPreferences := e1.UserPreferences,
              UserAddresses := e1.UserAddresses, UserPaymentMethods := e1.UserPaymentMethods,
              LoyaltyPoints := e1.LoyaltyPoints }
          ∧ ∀ id, id ≠ userID →
              e1.Users.lookup id = e.Users.lookup id
              ∧ e1.LoyaltyPoints.lookup id = e.LoyaltyPoints.lookup id
              ∧ e1.UserPreferences.lookup id = e.UserPreferences.lookup id
              ∧ e1.UserAddresses.lookup id = e.UserAddresses.lookup id
              ∧ e1.UserPaymentMethods.lookup id = e.UserPaymentMethods.lookup id) := by
  have key : ((visit.findSome? (fun x =>
        if x.2.Username = username then some Error.usernameExists
        else if x.2.Email = email then some Error.emailRegistered
        else none)).isSome
      ↔ ∃ id u, e.Users.lookup id = some u ∧ (u.Username = username ∨ u.Email = email)) := by
    rw [List.findSome?_isSome_iff]
    constructor
    · rintro ⟨⟨id, u⟩, hx, hf⟩
      refine ⟨id, u, (entry_iff_lookup e.Users visit hv id u).1 hx, ?_⟩
      by_cases h1 : u.Username = username
      · exact Or.inl h1
      · by_cases h2 : u.Email = email
        · exact Or.inr h2
        · simp [h1, h2] at hf
    · rintro ⟨id, u, hl, hor⟩
      refine ⟨⟨id, u⟩, (entry_iff_lookup e.Users visit hv id u).2 hl, ?_⟩
      by_cases h1 : u.Username = username
      · simp [h1]
      · have h2 : u.Email = email := hor.resolve_left h1
        simp [h1, h2]
  unfold RegisterUser
  cases hf : visit.findSome? (fun x =>
        if x.2.Username = username then some Error.usernameExists
        else if x.2.Email = email then some Error.emailRegistered
        else none) with
  | some err =>
    rw [hf] at key
    refine ⟨by simpa using key, fun _ => ⟨rfl, rfl⟩, fun h => by simp at h⟩
  | none =>
    rw [hf] at key
    refine ⟨by simpa using key, fun h => by simp at h, fun _ => ?_⟩
    refine ⟨_, _, rfl, rfl, ?_, ?_, ?_, ?_, ?_, rfl, ?_⟩
    · exact AList.lookup_insert _
    · exact AList.lookup_insert _
    · exact AList.lookup_insert _
    · exact AList.lookup_insert _
    · exact AList.lookup_insert _
    · intro id hid
      exact ⟨AList.lookup_insert_ne hid, AList.lookup_insert_ne hid, AList.lookup_insert_ne hid,
        AList.lookup_insert_ne hid, AList.lookup_insert_ne hid⟩

/-- In `aliceSystem` a second registration is refused exactly when it reuses the
username or the email of "alice". -/
theorem c13_register_user_witness :
    aliceSystem.Users.entries.Perm aliceSystem.Users.entries
    ∧ ((RegisterUser aliceSystem.Users.entries (fun _ => 0) aliceSystem "alice"
          "other@example.com" "pw" "A" "B" "2").1.2.isSome
        ↔ ∃ id u, aliceSystem.Users.lookup id = some u
            ∧ (u.Username = "alice" ∨ u.Email = "other@example.com")) :=
  ⟨List.Perm.refl _,
   (c13_register_user aliceSystem.Users.entries (fun _ => 0) aliceSystem "alice"
      "other@example.com" "pw" "A" "B" "2" (List.Perm.refl _)).1⟩

end LargeClass

end CodeSmells

namespace CodeSmells

namespace LargeClass

open PerformanceExamples (wrap64 maxInt)

/-- The five ways a `Login` call ends. -/
theorem login_cases (c : LoginCall) (e : ECommerceSystem) :
    (c.target = none ∧ c.run e = (("", some Error.userNotFound), e))
    ∨ (∃ id u, c.target = some ⟨id, u⟩ ∧ u.IsActive = false
        ∧ c.run e = (("", some Error.accountDisabled), e))
    ∨ (∃ id u, c.target = some ⟨id, u⟩ ∧ u.IsActive = true
        ∧ e.Configuration.MaxLoginAttempts ≤ intAt e.FailedLoginAttempts id
        ∧ c.run e = (("", some Error.accountLocked), e))
    ∨ (∃ id u, c.target = some ⟨id, u⟩ ∧ u.IsActive = true
        ∧ intAt e.FailedLoginAttempts id < e.Configuration.MaxLoginAttempts
        ∧ u.Password ≠ c.password
        ∧ c.run e = (("", some Error.wrongPassword),
            { e with FailedLoginAttempts :=
                e.FailedLoginAttempts.insert id (wrap64 (intAt e.FailedLoginAttempts id + 1)) }))
    ∨ (∃ id u, c.target = some ⟨id, u⟩ ∧ u.IsActive = true
        ∧ intAt e.FailedLoginAttempts id < e.Configuration.MaxLoginAttempts
        ∧ u.Password = c.password
        ∧ c.run e = ((id, none),
            { e with
              FailedLoginAttempts := e.FailedLoginAttempts.insert id 0
              LoggedInUsers := e.LoggedInUsers.insert id true
              UserSessions := e.UserSessions.insert id (c.clock 0 + e.Configuration.SessionTimeout)
              Users := e.Users.insert id { u with LastLogin := c.clock 1 } })) := by
  unfold LoginCall.run Login LoginCall.target
  cases hf : c.visit.find?
      (fun x => decide (x.2.Username = c.usernameOrEmail ∨ x.2.Email = c.usernameOrEmail)) with
  | none => exact Or.inl ⟨rfl, rfl⟩
  | some x =>
    obtain ⟨id, u⟩ := x
    right
    by_cases ha : u.IsActive = true
    · right
      by_cases hk : e.Configuration.MaxLoginAttempts ≤ intAt e.FailedLoginAttempts id
      · left
        refine ⟨id, u, rfl, ha, hk, ?_⟩
        simp [ha, hk]
      · right
        have hk2 : intAt e.FailedLoginAttempts id < e.Configuration.MaxLoginAttempts := by omega
        by_cases hp : u.Password = c.password
        · right
          refine ⟨id, u, rfl, ha, hk2, hp, ?_⟩
          simp [ha, hk, hp]
        · left
          refine ⟨id, u, rfl, ha, hk2, hp, ?_⟩
          simp [ha, hk, hp]
    · left
      have ha2 : u.IsActive = false := by simpa using ha
      refine ⟨id, u, rfl, ha2, ?_⟩
      simp [ha2]

theorem intAt_insert_ne (m : GoMap Int) (k k1 : String) (v : Int) (h : k ≠ k1) :
    intAt (m.insert k1 v) k = intAt m k := by
  unfold intAt
  rw [AList.lookup_insert_ne h]

theorem intAt_insert (m : GoMap Int) (k : String) (v : Int) :
    intAt (m.insert k v) k = v := by
  unfold intAt
  rw [AList.lookup_insert]
  rfl

/-- A `Login` call leaves a locked user's records as they are. -/
theorem login_keeps_locked (c : LoginCall) (e : ECommerceSystem) (id : String)
    (hk : e.Configuration.MaxLoginAttempts ≤ intAt e.FailedLoginAttempts id) :
    (c.run e).2.Configuration = e.Configuration
    ∧ (c.run e).2.Users.lookup id = e.Users.lookup id
    ∧ intAt (c.run e).2.FailedLoginAttempts id = intAt e.FailedLoginAttempts id
    ∧ (c.run e).2.LoggedInUsers.lookup id = e.LoggedInUsers.lookup id := by
  rcases login_cases c e with ⟨-, h⟩ | ⟨_, _, -, -, h⟩ | ⟨_, _, -, -, -, h⟩
    | ⟨id1, _, -, -, hlt, -, h⟩ | ⟨id1, _, -, -, hlt, -, h⟩
  · rw [h]; exact ⟨rfl, rfl, rfl, rfl⟩
  · rw [h]; exact ⟨rfl, rfl, rfl, rfl⟩
  · rw [h]; exact ⟨rfl, rfl, rfl, rfl⟩
  · have hne : id ≠ id1 := by
      rintro rfl
      omega
    rw [h]
    exact ⟨rfl, rfl, intAt_insert_ne _ _ _ _ hne, rfl⟩
  · have hne : id ≠ id1 := by
      rintro rfl
      omega
    rw [h]
    exact ⟨rfl, AList.lookup_insert_ne hne, intAt_insert_ne _ _ _ _ hne,
      AList.lookup_insert_ne hne⟩

/-- Any number of `Login` calls leave a locked user's records as they are. -/
theorem logins_keep_locked (cs : List LoginCall) (e : ECommerceSystem) (id : String)
    (hk : e.Configuration.MaxLoginAttempts ≤ intAt e.FailedLoginAttempts id) :
    (runLogins e cs).Configuration = e.Configuration
    ∧ (runLogins e cs).Users.lookup id = e.Users.lookup id
    ∧ intAt (runLogins e cs).FailedLoginAttempts id = intAt e.FailedLoginAttempts id
    ∧ (runLogins e cs).LoggedInUsers.lookup id = e.LoggedInUsers.lookup id := by
  induction cs generalizing e with
  | nil => exact ⟨rfl, rfl, rfl, rfl⟩
  | cons c cs ih =>
    obtain ⟨h1, h2, h3, h4⟩ := login_keeps_locked c e id hk
    have hk1 : (c.run e).2.Configuration.MaxLoginAttempts
        ≤ intAt (c.run e).2.FailedLoginAttempts id := by
      rw [h1, h3]; exact hk
    obtain ⟨g1, g2, g3, g4⟩ := ih (c.run e).2 hk1
    exact ⟨g1.trans h1, g2.trans h2, g3.trans h3, g4.trans h4⟩

/-- A `Login` call for an active user below the limit with a wrong password
counts one more failed attempt and changes nothing else. -/
theorem login_wrong (c : LoginCall) (e : ECommerceSystem) (id : String) (user : User)
    (hu : e.Users.lookup id = some user) (ha : user.IsActive = true)
    (hlt : intAt e.FailedLoginAttempts id < e.Configuration.MaxLoginAttempts)
    (hv : c.visit.Perm e.Users.entries) (ht : ∃ u, c.target = some ⟨id, u⟩)
    (hp : c.password ≠ user.Password) :
    c.run e = (("", some Error.wrongPassword),
      { e with FailedLoginAttempts :=
          e.FailedLoginAttempts.insert id (wrap64 (intAt e.FailedLoginAttempts id + 1)) }) := by
  obtain ⟨u, ht⟩ := ht
  have hmem : (⟨id, u⟩ : Σ _ : String, User) ∈ c.visit := List.mem_of_find?_eq_some ht
  have hu2 : e.Users.lookup id = some u := (entry_iff_lookup e.Users c.visit hv id u).1 hmem
  have huu : u = user := by
    rw [hu] at hu2
    exact (Option.some.inj hu2).symm
  subst huu
  rcases login_cases c e with ⟨h0, -⟩ | ⟨_, _, h0, h1, -⟩ | ⟨_, _, h0, -, h1, -⟩
    | ⟨_, _, h0, -, -, -, h⟩ | ⟨_, _, h0, -, -, h1, -⟩
  · rw [ht] at h0; cases h0
  · rw [ht] at h0; cases h0; rw [ha] at h1; cases h1
  · rw [ht] at h0; cases h0; omega
  · rw [ht] at h0; cases h0; exact h
  · rw [ht] at h0; cases h0; exact absurd h1.symm hp

/-- After `wrong.length` wrong-password calls for a user with `k` failed attempts
the count is `k + wrong.length`, as long as that is at most the limit. -/
theorem logins_wrong (wrong : List LoginCall) (e : ECommerceSystem) (id : String) (user : User)
    (hu : e.Users.lookup id = some user) (ha : user.IsActive = true)
    (hmax : e.Configuration.MaxLoginAttempts ≤ maxInt)
    (h0 : 0 ≤ intAt e.FailedLoginAttempts id)
    (hn : intAt e.FailedLoginAttempts id + (wrong.length : Int)
      ≤ e.Configuration.MaxLoginAttempts)
    (hw : ∀ w ∈ wrong, w.visit.Perm e.Users.entries ∧ (∃ u, w.target = some ⟨id, u⟩)
      ∧ w.password ≠ user.Password) :
    (runLogins e wrong).Configuration = e.Configuration
    ∧ (runLogins e wrong).Users = e.Users
    ∧ (runLogins e wrong).LoggedInUsers = e.LoggedInUsers
    ∧ intAt (runLogins e wrong).FailedLoginAttempts id
        = intAt e.FailedLoginAttempts id + (wrong.length : Int) := by
  induction wrong generalizing e with
  | nil => exact ⟨rfl, rfl, rfl, by simp [runLogins]⟩
  | cons c cs ih =>
    have hlen : ((c :: cs).length : Int) = (cs.length : Int) + 1 := by simp
    rw [hlen] at hn
    have hcs : (0 : Int) ≤ (cs.length : Int) := Int.ofNat_nonneg _
    obtain ⟨hv, ht, hp⟩ := hw c (List.mem_cons_self _ _)
    have hrun := login_wrong c e id user hu ha (by omega) hv ht hp
    have hwrap : wrap64 (intAt e.FailedLoginAttempts id + 1) = intAt e.FailedLoginAttempts id + 1 := by
      apply PerformanceExamples.wrap64_of_range
      · omega
      · omega
    have hi : intAt (c.run e).2.FailedLoginAttempts id = intAt e.FailedLoginAttempts id + 1 := by
      rw [hrun]
      exact (intAt_insert _ _ _).trans hwrap
    have hU : (c.run e).2.Users = e.Users := by rw [hrun]
    have hC : (c.run e).2.Configuration = e.Configuration := by rw [hrun]
    have hL : (c.run e).2.LoggedInUsers = e.LoggedInUsers := by rw [hrun]
    obtain ⟨g1, g2, g3, g4⟩ := ih (c.run e).2 (by rw [hU]; exact hu) (by rw [hC]; exact hmax)
      (by rw [hi]; omega) (by rw [hi, hC]; omega)
      (fun w hw1 => by rw [hU]; exact hw w (List.mem_cons_of_mem _ hw1))
    refine ⟨g1.trans hC, g2.trans hU, g3.trans hL, ?_⟩
    show intAt (runLogins (c.run e).2 cs).FailedLoginAttempts id = _
    rw [g4, hi, hlen]
    ring

/-- A call whose identifier is the username or the email of one user only is for
that user, whatever the order of the visit. -/
theorem target_of_unique (c : LoginCall) (e : ECommerceSystem) (id : String) (u : User)
    (hv : c.visit.Perm e.Users.entries) (hu : e.Users.lookup id = some u)
    (hm : u.Username = c.usernameOrEmail ∨ u.Email = c.usernameOrEmail)
    (huniq : ∀ id1 u1, e.Users.lookup id1 = some u1 →
      (u1.Username = c.usernameOrEmail ∨ u1.Email = c.usernameOrEmail) → id1 = id) :
    c.target = some ⟨id, u⟩ := by
  have hmem : (⟨id, u⟩ : Σ _ : String, User) ∈ c.visit :=
    (entry_iff_lookup e.Users c.visit hv id u).2 hu
  unfold LoginCall.target
  cases hf : c.visit.find?
      (fun x => decide (x.2.Username = c.usernameOrEmail ∨ x.2.Email = c.usernameOrEmail)) with
  | none =>
    rw [List.find?_eq_none] at hf
    have := hf ⟨id, u⟩ hmem
    simp only [decide_eq_true_eq] at this
    exact absurd hm this
  | some x =>
    obtain ⟨id1, u1⟩ := x
    have hx : (⟨id1, u1⟩ : Σ _ : String, User) ∈ c.visit := List.mem_of_find?_eq_some hf
    have hp := List.find?_some hf
    simp only [decide_eq_true_eq] at hp
    have hl := (entry_iff_lookup e.Users c.visit hv id1 u1).1 hx
    have hid := huniq id1 u1 hl hp
    subst hid
    rw [hu] at hl
    cases hl
    rfl

end LargeClass

end CodeSmells

namespace CodeSmells

namespace LargeClass

open PerformanceExamples (wrap64 maxInt)

/-- C14: let `userID` be an active user with no failed attempt, and let `wrong` be
`MaxLoginAttempts` consecutive `Login` calls for that user, each with a password
that is not the user's.  Then the count of failed attempts is `MaxLoginAttempts`
(5 in `NewECommerceSystem`) and, whatever `Login` calls `later` follow, a further
call `c` for that user fails with the lockout error whatever password it
supplies, returns the system unchanged, and the user's entry of `LoggedInUsers`
is still what it was before the first wrong password.  Moreover a `Login` call
that succeeds found the count below the limit, leaves it 0 and marks the user as
logged in.  A call is for a user when its loop stops at that user; that is so
for every call, whatever the order of its visit, whose identifier is the
username or the email of that user and of no other. -/
theorem c14_login_lockout (e : ECommerceSystem) (userID : String) (user : User)
    (wrong later : List LoginCall) (c : LoginCall)
    (hu : e.Users.lookup userID = some user) (ha : user.IsActive = true)
    (h0 : intAt e.FailedLoginAttempts userID = 0)
    (hmax : e.Configuration.MaxLoginAttempts ≤ maxInt)
    (hn : (wrong.length : Int) = e.Configuration.MaxLoginAttempts)
    (hw : ∀ w ∈ wrong, w.visit.Perm e.Users.entries ∧ (∃ u, w.target = some ⟨userID, u⟩)
      ∧ w.password ≠ user.Password)
    (hv : c.visit.Perm (runLogins (runLogins e wrong) later).Users.entries)
    (ht : ∃ u, c.target = some ⟨userID, u⟩) :
    c.run (runLogins (runLogins e wrong) later)
        = (("", some Error.accountLocked), runLogins (runLogins e wrong) later)
    ∧ (runLogins (runLogins e wrong) later).LoggedInUsers.lookup userID
        = e.LoggedInUsers.lookup userID
    ∧ intAt (runLogins e wrong).FailedLoginAttempts userID = e.Configuration.MaxLoginAttempts
    ∧ NewECommerceSystem.Configuration.MaxLoginAttempts = 5
    ∧ (∀ (e1 : ECommerceSystem) (c1 : LoginCall), (c1.run e1).1.2 = none →
        (∃ u, c1.target = some ⟨(c1.run e1).1.1, u⟩)
        ∧ intAt e1.FailedLoginAttempts (c1.run e1).1.1 < e1.Configuration.MaxLoginAttempts
        ∧ intAt (c1.run e1).2.FailedLoginAttempts (c1.run e1).1.1 = 0
        ∧ (c1.run e1).2.LoggedInUsers.lookup (c1.run e1).1.1 = some true)
    ∧ ∀ (e1 : ECommerceSystem) (c1 : LoginCall) (id : String) (u : User),
        c1.visit.Perm e1.Users.entries → e1.Users.lookup id = some u →
        (u.Username = c1.usernameOrEmail ∨ u.Email = c1.usernameOrEmail) →
        (∀ id1 u1, e1.Users.lookup id1 = some u1 →
          (u1.Username = c1.usernameOrEmail ∨ u1.Email = c1.usernameOrEmail) → id1 = id) →
        c1.target = some ⟨id, u⟩ := by
  obtain ⟨w1, w2, w3, w4⟩ := logins_wrong wrong e userID user hu ha hmax (by omega) (by omega) hw
  rw [h0, zero_add, hn] at w4
  have hk : (runLogins e wrong).Configuration.MaxLoginAttempts
      ≤ intAt (runLogins e wrong).FailedLoginAttempts userID := by
    rw [w1, w4]
  obtain ⟨l1, l2, l3, l4⟩ := logins_keep_locked later (runLogins e wrong) userID hk
  refine ⟨?_, ?_, w4, rfl, ?_,
    fun e1 c1 id u hv1 hu1 hm hq => target_of_unique c1 e1 id u hv1 hu1 hm hq⟩
  · obtain ⟨u, ht⟩ := ht
    have hmem : (⟨userID, u⟩ : Σ _ : String, User) ∈ c.visit := List.mem_of_find?_eq_some ht
    have hu2 := (entry_iff_lookup _ c.visit hv userID u).1 hmem
    rw [l2, w2, hu] at hu2
    have huu : u = user := (Option.some.inj hu2).symm
    subst huu
    rcases login_cases c (runLogins (runLogins e wrong) later) with ⟨g0, -⟩ | ⟨_, _, g0, g1, -⟩
      | ⟨_, _, -, -, -, g⟩ | ⟨_, _, g0, -, g1, -⟩ | ⟨_, _, g0, -, g1, -⟩
    · rw [ht] at g0; cases g0
    · rw [ht] at g0; cases g0; rw [ha] at g1; cases g1
    · exact g
    · rw [ht] at g0; cases g0; rw [l1, l3] at g1; omega
    · rw [ht] at g0; cases g0; rw [l1, l3] at g1; omega
  · rw [l4, w3]
  · intro e1 c1 hok
    rcases login_cases c1 e1 with ⟨-, g⟩ | ⟨_, _, -, -, g⟩ | ⟨_, _, -, -, -, g⟩
      | ⟨_, _, -, -, -, -, g⟩ | ⟨id1, u1, g0, -, g1, -, g⟩
    · rw [g] at hok; cases hok
    · rw [g] at hok; cases hok
    · rw [g] at hok; cases hok
    · rw [g] at hok; cases hok
    · rw [g]
      exact ⟨⟨u1, g0⟩, g1, intAt_insert _ _ _, AList.lookup_insert _⟩

/-- After five wrong passwords "alice" cannot log in with the right one, at the
first attempt or at the second. -/
theorem c14_login_lockout_witness :
    aliceSystem.Users.lookup "user_1" = some alice
    ∧ ((List.replicate 5 (aliceLogin "guess")).length : Int)
        = aliceSystem.Configuration.MaxLoginAttempts
    ∧ (aliceLogin "secret").run
          (runLogins (runLogins aliceSystem (List.replicate 5 (aliceLogin "guess")))
            [aliceLogin "secret"])
        = (("", some Error.accountLocked),
           runLogins (runLogins aliceSystem (List.replicate 5 (aliceLogin "guess")))
            [aliceLogin "secret"]) := by
  have h1 : aliceSystem.Users.lookup "user_1" = some alice := by decide
  have h2 : ((List.replicate 5 (aliceLogin "guess")).length : Int)
      = aliceSystem.Configuration.MaxLoginAttempts := by decide
  have h3 : alice.IsActive = true := rfl
  have h4 : intAt aliceSystem.FailedLoginAttempts "user_1" = 0 := by decide
  have h5 : aliceSystem.Configuration.MaxLoginAttempts ≤ maxInt := by decide
  have h6 : ∀ w ∈ List.replicate 5 (aliceLogin "guess"),
      w.visit.Perm aliceSystem.Users.entries ∧ (∃ u, w.target = some ⟨"user_1", u⟩)
        ∧ w.password ≠ alice.Password := by
    intro w hw
    rw [List.eq_of_mem_replicate hw]
    exact ⟨List.Perm.refl _, ⟨alice, by decide⟩, by decide⟩
  have h7 : (runLogins (runLogins aliceSystem (List.replicate 5 (aliceLogin "guess")))
      [aliceLogin "secret"]).Users.entries = aliceSystem.Users.entries := by decide
  have h8 : (aliceLogin "secret").visit.Perm
      (runLogins (runLogins aliceSystem (List.replicate 5 (aliceLogin "guess")))
        [aliceLogin "secret"]).Users.entries := by
    rw [h7]
    exact List.Perm.refl _
  have h9 : ∃ u, (aliceLogin "secret").target = some ⟨"user_1", u⟩ := ⟨alice, by decide⟩
  exact ⟨h1, h2, (c14_login_lockout aliceSystem "user_1" alice
    (List.replicate 5 (aliceLogin "guess")) [aliceLogin "secret"] (aliceLogin "secret")
    h1 h3 h4 h5 h2 h6 h8 h9).1⟩

end LargeClass

end CodeSmells

namespace CodeSmells

namespace LargeClass

open PerformanceExamples (wrap64 maxInt)

theorem addQuantity_none (productID : String) (quantity : Int) (items : List CartItem) :
    addQuantity productID quantity items = none
      ↔ ∀ item ∈ items, item.ProductID ≠ productID := by
  induction items with
  | nil => simp [addQuantity]
  | cons item rest ih =>
    by_cases h : item.ProductID = productID
    · simp [addQuantity, h]
    · simp [addQuantity, h, ih]

theorem quantityIn_absent (productID : String) (items : List CartItem)
    (h : ∀ item ∈ items, item.ProductID ≠ productID) : quantityIn productID items = 0 := by
  unfold quantityIn
  have : items.find? (fun item => decide (item.ProductID = productID)) = none := by
    rw [List.find?_eq_none]
    intro x hx
    simpa using h x hx
  rw [this]

theorem addQuantity_some (productID : String) (quantity : Int) (items l : List CartItem)
    (h : addQuantity productID quantity items = some l) :
    quantityIn productID l = wrap64 (quantityIn productID items + quantity)
    ∧ otherItems productID l = otherItems productID items
    ∧ l.length = items.length := by
  induction items generalizing l with
  | nil => simp [addQuantity] at h
  | cons item rest ih =>
    by_cases hp : item.ProductID = productID
    · simp [addQuantity, hp] at h
      subst h
      simp [quantityIn, otherItems, hp]
    · simp [addQuantity, hp] at h
      obtain ⟨l1, h1, rfl⟩ := h
      obtain ⟨g1, g2, g3⟩ := ih l1 h1
      refine ⟨?_, ?_, ?_⟩
      · simpa [quantityIn, hp] using g1
      · simp only [otherItems] at g2 ⊢
        rw [List.filter_cons, List.filter_cons, g2]
      · simp [g3]

/-- The system after a successful `AddToCart`: the cart of `userID` holds the new
items, nothing else changes. -/
theorem addToCart_ok (clock : Nat → Int) (e : ECommerceSystem) (userID productID : String)
    (quantity : Int) (h1 : (e.Users.lookup userID).isNone = false)
    (h2 : (e.Products.lookup productID).isNone = false)
    (h3 : ¬ intAt e.ProductInventory productID < quantity) :
    ∃ cart, AddToCart clock e userID productID quantity
        = (none, { e with Carts := e.Carts.insert userID cart })
      ∧ cart.Items = (match addQuantity productID quantity (cartItems e userID) with
          | some items => items
          | none => cartItems e userID ++ [⟨productID, quantity⟩]) := by
  unfold AddToCart cartItems
  simp only [h1, h2, h3, if_false, Bool.false_eq_true]
  cases e.Carts.lookup userID with
  | none => exact ⟨_, rfl, rfl⟩
  | some cart => exact ⟨_, rfl, rfl⟩

/-- C16: `AddToCart` returns an error exactly when the user is not in `Users`, the
product is not in `Products`, or the inventory of the product (0 when it has no
entry) is less than the requested quantity, and then it returns the system
unchanged.  Without an error the user has a cart; if the cart had an item for
the product, the quantity of the first such item is the previous one plus the
requested one as a 64-bit `int`, otherwise it is the requested one; in both
cases it is the previous quantity (0 if absent) plus the requested quantity
when that sum is in the range of an `int`; the items for other products, the
carts of the other users and all other fields of the system are unchanged. -/
theorem c16_add_to_cart (clock : Nat → Int) (e : ECommerceSystem) (userID productID : String)
    (quantity : Int) :
    ((AddToCart clock e userID productID quantity).1.isSome
        ↔ e.Users.lookup userID = none ∨ e.Products.lookup productID = none
          ∨ intAt e.ProductInventory productID < quantity)
    ∧ ((AddToCart clock e userID productID quantity).1.isSome →
        (AddToCart clock e userID productID quantity).2 = e)
    ∧ ((AddToCart clock e userID productID quantity).1 = none →
        (∃ cart, (AddToCart clock e userID productID quantity).2.Carts.lookup userID = some cart)
        ∧ ((∃ item ∈ cartItems e userID, item.ProductID = productID) →
            quantityIn productID (cartItems (AddToCart clock e userID productID quantity).2 userID)
              = wrap64 (quantityIn productID (cartItems e userID) + quantity))
        ∧ ((∀ item ∈ cartItems e userID, item.ProductID ≠ productID) →
            quantityIn productID (cartItems e userID) = 0
            ∧ quantityIn productID (cartItems (AddToCart clock e userID productID quantity).2 userID)
              = quantity)
        ∧ (-9223372036854775808 ≤ quantityIn productID (cartItems e userID) + quantity →
            quantityIn productID (cartItems e userID) + quantity ≤ maxInt →
            quantityIn productID (cartItems (AddToCart clock e userID productID quantity).2 userID)
              = quantityIn productID (cartItems e userID) + quantity)
        ∧ otherItems productID (cartItems (AddToCart clock e userID productID quantity).2 userID)
            = otherItems productID (cartItems e userID)
        ∧ (∀ u, u ≠ userID →
            (AddToCart clock e userID productID quantity).2.Carts.lookup u = e.Carts.lookup u)
        ∧ (AddToCart clock e userID productID quantity).2
            = { e with Carts := (AddToCart clock e userID productID quantity).2.Carts }) := by
  by_cases h1 : (e.Users.lookup userID).isNone = true
  · have hr : AddToCart clock e userID productID quantity = (some Error.userNotFound, e) := by
      unfold AddToCart; simp [h1]
    rw [hr]
    refine ⟨?_, fun _ => rfl, fun h => by cases h⟩
    simp only [Option.isSome_some, true_iff]
    exact Or.inl (Option.isNone_iff_eq_none.1 h1)
  have h1f : (e.Users.lookup userID).isNone = false := Bool.eq_false_iff.2 h1
  have h1n : e.Users.lookup userID ≠ none := fun hn => by rw [hn] at h1f; cases h1f
  by_cases h2 : (e.Products.lookup productID).isNone = true
  · have hr : AddToCart clock e userID productID quantity = (some Error.productNotFound, e) := by
      unfold AddToCart; simp [h1f, h2]
    rw [hr]
    refine ⟨?_, fun _ => rfl, fun h => by cases h⟩
    simp only [Option.isSome_some, true_iff]
    exact Or.inr (Or.inl (Option.isNone_iff_eq_none.1 h2))
  have h2f : (e.Products.lookup productID).isNone = false := Bool.eq_false_iff.2 h2
  have h2n : e.Products.lookup productID ≠ none := fun hn => by rw [hn] at h2f; cases h2f
  by_cases h3 : intAt e.ProductInventory productID < quantity
  · have hr : AddToCart clock e userID productID quantity = (some Error.insufficientStock, e) := by
      unfold AddToCart; simp [h1f, h2f, h3]
    rw [hr]
    refine ⟨?_, fun _ => rfl, fun h => by cases h⟩
    simp only [Option.isSome_some, true_iff]
    exact Or.inr (Or.inr h3)
  obtain ⟨cart, hr, hitems⟩ := addToCart_ok clock e userID productID quantity h1f h2f h3
  rw [hr]
  have hnew : cartItems { e with Carts := e.Carts.insert userID cart } userID = cart.Items := by
    unfold cartItems
    simp only [AList.lookup_insert]
  rw [hnew]
  refine ⟨?_, ?_, fun _ => ⟨⟨cart, AList.lookup_insert _⟩, ?_, ?_, ?_, ?_, ?_, rfl⟩⟩
  · simp only [Option.isSome_none, Bool.false_eq_true, false_iff]
    rintro (h | h | h)
    · exact h1n h
    · exact h2n h
    · exact h3 h
  · intro h
    simp at h
  · rintro ⟨item, hmem, hp⟩
    cases ha : addQuantity productID quantity (cartItems e userID) with
    | none => exact absurd hp ((addQuantity_none _ _ _).1 ha item hmem)
    | some l =>
      rw [ha] at hitems
      rw [hitems]
      exact (addQuantity_some _ _ _ _ ha).1
  · intro hall
    have ha := (addQuantity_none productID quantity _).2 hall
    rw [ha] at hitems
    refine ⟨quantityIn_absent _ _ hall, ?_⟩
    rw [hitems]
    unfold quantityIn
    rw [List.find?_append]
    have : (cartItems e userID).find? (fun item => decide (item.ProductID = productID)) = none := by
      rw [List.find?_eq_none]
      intro x hx
      simpa using hall x hx
    rw [this]
    simp
  · intro hlo hhi
    cases ha : addQuantity productID quantity (cartItems e userID) with
    | none =>
      have hall := (addQuantity_none productID quantity _).1 ha
      rw [ha] at hitems
      rw [hitems, quantityIn_absent _ _ hall, zero_add]
      unfold quantityIn
      rw [List.find?_append]
      have : (cartItems e userID).find? (fun item => decide (item.ProductID = productID))
          = none := by
        rw [List.find?_eq_none]
        intro x hx
        simpa using hall x hx
      rw [this]
      simp
    | some l =>
      rw [ha] at hitems
      rw [hitems, (addQuantity_some _ _ _ _ ha).1]
      exact PerformanceExamples.wrap64_of_range _ hlo hhi
  · cases ha : addQuantity productID quantity (cartItems e userID) with
    | none =>
      rw [ha] at hitems
      rw [hitems]
      unfold otherItems
      rw [List.filter_append]
      simp
    | some l =>
      rw [ha] at hitems
      rw [hitems]
      exact (addQuantity_some _ _ _ _ ha).2.1
  · intro u hu
    exact AList.lookup_insert_ne hu

end LargeClass

end CodeSmells

namespace CodeSmells

namespace LargeClass

open PerformanceExamples (wrap64 maxInt)

theorem wrap64_sub (a b : Int) : wrap64 (wrap64 a - b) = wrap64 (a - b) := by
  unfold wrap64; omega

theorem reserved_cons (productID : String) (item : CartItem) (rest : List CartItem) :
    reserved productID (item :: rest)
      = (if item.ProductID = productID then item.Quantity else 0) + reserved productID rest := by
  unfold reserved
  by_cases h : item.ProductID = productID
  · simp [List.filter_cons, h]
  · simp [List.filter_cons, h]

theorem reserved_absent (productID : String) (items : List CartItem)
    (h : ∀ item ∈ items, item.ProductID ≠ productID) : reserved productID items = 0 := by
  induction items with
  | nil => rfl
  | cons item rest ih =>
    rw [reserved_cons, if_neg (h item (List.mem_cons_self _ _)),
      ih (fun x hx => h x (List.mem_cons_of_mem _ hx))]
    rfl

/-- The inventory after a run of the order loop that ends without an error. -/
theorem orderLoop_inventory (e : ECommerceSystem) (items : List CartItem) (inventory : GoMap Int)
    (orderItems : List OrderItem) (totalAmount : ℚ) (r : List OrderItem × ℚ)
    (inventory1 : GoMap Int)
    (h : orderLoop e items inventory orderItems totalAmount = (Sum.inr r, inventory1)) (p : String) :
    ((∀ item ∈ items, item.ProductID ≠ p) → inventory1.lookup p = inventory.lookup p)
    ∧ ((∃ item ∈ items, item.ProductID = p) →
        inventory1.lookup p = some (wrap64 (intAt inventory p - reserved p items))) := by
  induction items generalizing inventory orderItems totalAmount with
  | nil =>
    simp only [orderLoop, Prod.mk.injEq] at h
    refine ⟨fun _ => by rw [h.2], ?_⟩
    rintro ⟨item, hmem, -⟩
    cases hmem
  | cons item rest ih =>
    unfold orderLoop at h
    by_cases hlt : intAt inventory item.ProductID < item.Quantity
    · simp [hlt] at h
    · simp only [hlt, if_false] at h
      obtain ⟨ih1, ih2⟩ := ih _ _ _ h
      by_cases hp : item.ProductID = p
      · refine ⟨fun hall => absurd hp (hall item (List.mem_cons_self _ _)), fun _ => ?_⟩
        by_cases hrest : ∃ x ∈ rest, x.ProductID = p
        · rw [ih2 hrest, reserved_cons, if_pos hp, ← hp, intAt_insert, wrap64_sub]
          congr 2
          ring
        · have hall : ∀ x ∈ rest, x.ProductID ≠ p := fun x hx hxp => hrest ⟨x, hx, hxp⟩
          rw [ih1 hall, reserved_cons, if_pos hp, reserved_absent _ _ hall, ← hp,
            AList.lookup_insert, add_zero]
      · have hne : p ≠ item.ProductID := fun hh => hp hh.symm
        refine ⟨fun hall => ?_, ?_⟩
        · rw [ih1 (fun x hx => hall x (List.mem_cons_of_mem _ hx)), AList.lookup_insert_ne hne]
        · rintro ⟨x, hx, hxp⟩
          have hx2 : x ∈ rest := by
            rcases List.mem_cons.1 hx with rfl | hx2
            · exact absurd hxp hp
            · exact hx2
          rw [ih2 ⟨x, hx2, hxp⟩, reserved_cons, if_neg hp, zero_add, intAt_insert_ne _ _ _ _ hne]

/-- What a `CreateOrder` call without an error went through and returns. -/
theorem createOrder_ok (clock : Nat → Int) (e : ECommerceSystem)
    (userID shippingAddressID billingAddressID paymentMethodID : String)
    (h : (CreateOrder clock e userID shippingAddressID billingAddressID paymentMethodID).1.2
      = none) :
    ∃ cart orderItems totalAmount inventory order,
      e.Users.lookup userID ≠ none
      ∧ e.Carts.lookup userID = some cart ∧ cart.Items ≠ []
      ∧ orderLoop e cart.Items e.ProductInventory [] 0
          = (Sum.inr (orderItems, totalAmount), inventory)
      ∧ (CreateOrder clock e userID shippingAddressID billingAddressID paymentMethodID).1.1
          = "order_" ++ toString (e.Orders.entries.length + 1)
      ∧ (CreateOrder clock e userID shippingAddressID billingAddressID paymentMethodID).2.ProductInventory
          = inventory
      ∧ (CreateOrder clock e userID shippingAddressID billingAddressID paymentMethodID).2.Carts
          = e.Carts.erase userID
      ∧ (CreateOrder clock e userID shippingAddressID billingAddressID paymentMethodID).2.OrderStatuses
          = e.OrderStatuses.insert ("order_" ++ toString (e.Orders.entries.length + 1)) "已创建"
      ∧ (CreateOrder clock e userID shippingAddressID billingAddressID paymentMethodID).2.Orders
          = e.Orders.insert ("order_" ++ toString (e.Orders.entries.length + 1)) order
      ∧ order.ID = "order_" ++ toString (e.Orders.entries.length + 1)
      ∧ order.UserID = userID ∧ order.Products = orderItems
      ∧ order.TotalAmount = totalAmount := by
  by_cases hU : (e.Users.lookup userID).isNone = true
  · simp [CreateOrder, hU] at h
  have hUf : (e.Users.lookup userID).isNone = false := Bool.eq_false_iff.2 hU
  have hUn : e.Users.lookup userID ≠ none := fun hn => by rw [hn] at hUf; cases hUf
  cases hC : e.Carts.lookup userID with
  | none => simp [CreateOrder, hUf, hC] at h
  | some cart =>
    by_cases hI : cart.Items.length = 0
    · simp [CreateOrder, hUf, hC, hI] at h
    have hne : cart.Items ≠ [] := fun hn => hI (by rw [hn]; rfl)
    cases hS : findAddress shippingAddressID ((e.UserAddresses.lookup userID).getD []) with
    | none => simp [CreateOrder, hUf, hC, hI, hS] at h
    | some shippingAddress =>
      cases hB : findAddress billingAddressID ((e.UserAddresses.lookup userID).getD []) with
      | none => simp [CreateOrder, hUf, hC, hI, hS, hB] at h
      | some billingAddress =>
        cases hP : List.find? (fun pm => decide (pm.Type_ = paymentMethodID))
            ((e.UserPaymentMethods.lookup userID).getD []) with
        | none => simp [CreateOrder, hUf, hC, hI, hS, hB, hP] at h
        | some paymentMethod =>
          cases hL : orderLoop e cart.Items e.ProductInventory [] 0 with
          | mk res inventory =>
            cases res with
            | inl err => simp [CreateOrder, hUf, hC, hI, hS, hB, hP, hL] at h
            | inr r =>
              obtain ⟨orderItems, totalAmount⟩ := r
              refine ⟨cart, orderItems, totalAmount, inventory,
                ⟨"order_" ++ toString (e.Orders.entries.length + 1), userID, orderItems,
                  totalAmount, shippingAddress, billingAddress, paymentMethod, clock 0, clock 1⟩,
                hUn, rfl, hne, hL, ?_, ?_, ?_, ?_, ?_, rfl, rfl, rfl, rfl⟩
              all_goals simp [CreateOrder, hUf, hC, hI, hS, hB, hP, hL]

/-- C15: when `CreateOrder` returns without an error, the inventory of every
product named by an item of the user's cart is the previous inventory (0 when it
had no entry) less the quantities of the cart items for that product, as a 64-bit
`int`: less exactly the item's quantity when no other item of the cart is for the
same product.  The inventory entries of all other products are unchanged, the
user's cart is no longer in `Carts` while the other carts are unchanged, and the
returned identifier `order_N`, `N` one more than the number of orders before,
has the status "已创建" and an order of this user stored under it. -/
theorem c15_create_order (clock : Nat → Int) (e : ECommerceSystem)
    (userID shippingAddressID billingAddressID paymentMethodID : String)
    (h : (CreateOrder clock e userID shippingAddressID billingAddressID paymentMethodID).1.2
      = none) :
    cartItems e userID ≠ []
    ∧ (∀ p, (∃ item ∈ cartItems e userID, item.ProductID = p) →
        (CreateOrder clock e userID shippingAddressID billingAddressID
            paymentMethodID).2.ProductInventory.lookup p
          = some (wrap64 (intAt e.ProductInventory p - reserved p (cartItems e userID))))
    ∧ (∀ item ∈ cartItems e userID,
        (cartItems e userID).filter (fun i => i.ProductID = item.ProductID) = [item] →
        (CreateOrder clock e userID shippingAddressID billingAddressID
            paymentMethodID).2.ProductInventory.lookup item.ProductID
          = some (wrap64 (intAt e.ProductInventory item.ProductID - item.Quantity))
        ∧ (-9223372036854775808 ≤ intAt e.ProductInventory item.ProductID - item.Quantity →
            intAt e.ProductInventory item.ProductID - item.Quantity ≤ maxInt →
            intAt (CreateOrder clock e userID shippingAddressID billingAddressID
                paymentMethodID).2.ProductInventory item.ProductID
              = intAt e.ProductInventory item.ProductID - item.Quantity))
    ∧ (∀ p, (∀ item ∈ cartItems e userID, item.ProductID ≠ p) →
        (CreateOrder clock e userID shippingAddressID billingAddressID
            paymentMethodID).2.ProductInventory.lookup p
          = e.ProductInventory.lookup p)
    ∧ (CreateOrder clock e userID shippingAddressID billingAddressID
          paymentMethodID).2.Carts.lookup userID = none
    ∧ (∀ u, u ≠ userID →
        (CreateOrder clock e userID shippingAddressID billingAddressID
            paymentMethodID).2.Carts.lookup u = e.Carts.lookup u)
    ∧ (CreateOrder clock e userID shippingAddressID billingAddressID paymentMethodID).1.1
        = "order_" ++ toString (e.Orders.entries.length + 1)
    ∧ (CreateOrder clock e userID shippingAddressID billingAddressID
          paymentMethodID).2.OrderStatuses.lookup
          (CreateOrder clock e userID shippingAddressID billingAddressID paymentMethodID).1.1
        = some "已创建"
    ∧ ∃ order,
        (CreateOrder clock e userID shippingAddressID billingAddressID
          paymentMethodID).2.Orders.lookup
          (CreateOrder clock e userID shippingAddressID billingAddressID paymentMethodID).1.1
          = some order
        ∧ order.UserID = userID := by
  obtain ⟨cart, orderItems, totalAmount, inventory, order, -, hC, hne, hL, h1, h2, h3, h4, h5,
    -, h7, -, -⟩ := createOrder_ok clock e userID shippingAddressID billingAddressID
      paymentMethodID h
  have hitems : cartItems e userID = cart.Items := by
    unfold cartItems
    rw [hC]
  rw [hitems, h1, h2, h3, h4, h5]
  have hsum : ∀ p, (∃ item ∈ cart.Items, item.ProductID = p) →
      inventory.lookup p = some (wrap64 (intAt e.ProductInventory p - reserved p cart.Items)) :=
    fun p hp => (orderLoop_inventory e cart.Items e.ProductInventory [] 0 _ inventory hL p).2 hp
  refine ⟨hne, hsum, ?_, ?_, AList.lookup_erase _ _, ?_, rfl, AList.lookup_insert _,
    order, AList.lookup_insert _, h7⟩
  · intro item hmem hone
    have hres : reserved item.ProductID cart.Items = item.Quantity := by
      unfold reserved
      rw [hone]
      simp
    have hl := hsum item.ProductID ⟨item, hmem, rfl⟩
    rw [hres] at hl
    refine ⟨hl, fun hlo hhi => ?_⟩
    unfold intAt at hlo hhi ⊢
    rw [hl]
    exact PerformanceExamples.wrap64_of_range _ hlo hhi
  · intro p hall
    exact (orderLoop_inventory e cart.Items e.ProductInventory [] 0 _ inventory hL p).1 hall
  · intro u hu
    exact AList.lookup_erase_ne hu

/-- The order of "alice" in `shopSystem`, two pens of ten in stock, goes through. -/
theorem c15_create_order_witness :
    (CreateOrder (fun _ => 0) shopSystem "user_1" "home" "home" "card").1.2 = none
    ∧ (CreateOrder (fun _ => 0) shopSystem "user_1" "home" "home" "card").2.ProductInventory.lookup
        "prod_1" = some 8
    ∧ (CreateOrder (fun _ => 0) shopSystem "user_1" "home" "home" "card").2.Carts.lookup "user_1"
        = none :=
  ⟨by decide, by decide,
   (c15_create_order (fun _ => 0) shopSystem "user_1" "home" "home" "card" (by decide)).2.2.2.2.1⟩

end LargeClass

end CodeSmells

namespace CodeSmells

namespace LargeClass

open PerformanceExamples (wrap64 maxInt)

theorem price035_eq : price035 = 3152519739159347 / 9007199254740992 := by
  rw [← Rat.num_div_den price035]; norm_num [price035]

theorem price040_eq : price040 = 3602879701896397 / 9007199254740992 := by
  rw [← Rat.num_div_den price040]; norm_num [price040]

theorem minimum145_eq : minimum145 = 6530219459687219 / 4503599627370496 := by
  rw [← Rat.num_div_den minimum145]; norm_num [minimum145]

theorem minimum145_exact : halfCoupon.MinPurchase = 3 * price035 + 1 * price040 := by
  have h : halfCoupon.MinPurchase = minimum145 := rfl
  rw [h, price035_eq, price040_eq, minimum145_eq]; norm_num

set_option maxRecDepth 20000 in
/-- Counterexample to C17 as stated: in `couponSystem` the user "user_1" exists,
the coupon "HALF" exists, is active and is not past its expiry date, the cart
holds three units of a product at 0.35 and one unit of a product at 0.4 (the
`float64` values nearest to these numbers), and the sum over the cart items of
price times quantity, `3 * price035 + 1 * price040`, is equal to the coupon's
`MinPurchase`, the `float64` nearest to 1.45.  Yet `ApplyCoupon` returns 0 with
the error of line 577, not the sum times `Discount`: the total its loop
accumulates in `float64` is `6530219459687218 * 2^(-52)`, one unit in the last
place below the minimum `6530219459687219 * 2^(-52)`, whether the compiler fuses
the multiplication and the addition or not. -/
theorem c17_apply_coupon_counterexample :
    (couponSystem.Users.lookup "user_1").isSome = true
    ∧ couponSystem.CouponCodes.lookup "HALF" = some halfCoupon
    ∧ halfCoupon.IsActive = true ∧ (0 : Int) ≤ halfCoupon.ExpiryDate
    ∧ cartItems couponSystem "user_1" = [⟨"prod_1", 3⟩, ⟨"prod_2", 1⟩]
    ∧ (couponSystem.Products.lookup "prod_1").map (fun p => p.Price) = some price035
    ∧ (couponSystem.Products.lookup "prod_2").map (fun p => p.Price) = some price040
    ∧ halfCoupon.MinPurchase = 3 * price035 + 1 * price040
    ∧ F64.ofRat halfCoupon.MinPurchase = .finite false 6530219459687219 (-52)
    ∧ cartTotal false couponSystem (cartItems couponSystem "user_1")
        = .finite false 6530219459687218 (-52)
    ∧ cartTotal true couponSystem (cartItems couponSystem "user_1")
        = .finite false 6530219459687218 (-52)
    ∧ (ApplyCoupon false (fun _ => 0) couponSystem "user_1" "HALF").1
        = (F64.zero, some (Error.belowMinPurchase halfCoupon.MinPurchase))
    ∧ (ApplyCoupon true (fun _ => 0) couponSystem "user_1" "HALF").1
        = (F64.zero, some (Error.belowMinPurchase halfCoupon.MinPurchase)) :=
  ⟨by decide, rfl, by decide, by decide, by decide, by decide, by decide,
    minimum145_exact, by decide, by decide, by decide, by decide, by decide⟩

/-- C17, amended: `ApplyCoupon` returns the system it received.  With `t` the
`float64` total that its loop accumulates from 0 over the items of the user's
cart, in their order, by `t += price * float64(quantity)` (price 0 for a product
not in `Products`): when the user is in `Users`, the coupon is in `CouponCodes`,
is active, the clock is not after its expiry date, the cart has an item and the
`float64` comparison `t < MinPurchase` is false, the result is the `float64`
product of `t` and the coupon's `Discount`, without an error; in every other
case it is 0 with an error. -/
theorem c17_apply_coupon (fused : Bool) (clock : Nat → Int) (e : ECommerceSystem)
    (userID couponCode : String) :
    (ApplyCoupon fused clock e userID couponCode).2 = e
    ∧ cartTotal fused e (cartItems e userID)
        = (cartItems e userID).foldl
            (fun t item =>
              if fused then
                F64.fma (F64.ofRat ((e.Products.lookup item.ProductID).getD Product.zero).Price)
                  (F64.ofInt item.Quantity) t
              else
                F64.add t
                  (F64.mul (F64.ofRat ((e.Products.lookup item.ProductID).getD Product.zero).Price)
                    (F64.ofInt item.Quantity)))
            F64.zero
    ∧ (∀ coupon, e.Users.lookup userID ≠ none → e.CouponCodes.lookup couponCode = some coupon →
        coupon.IsActive = true → clock 0 ≤ coupon.ExpiryDate → cartItems e userID ≠ [] →
        F64.lt (cartTotal fused e (cartItems e userID)) (F64.ofRat coupon.MinPurchase) = false →
        (ApplyCoupon fused clock e userID couponCode).1
          = (F64.mul (cartTotal fused e (cartItems e userID)) (F64.ofRat coupon.Discount), none))
    ∧ ((¬ ∃ coupon, e.Users.lookup userID ≠ none ∧ e.CouponCodes.lookup couponCode = some coupon
          ∧ coupon.IsActive = true ∧ clock 0 ≤ coupon.ExpiryDate ∧ cartItems e userID ≠ []
          ∧ F64.lt (cartTotal fused e (cartItems e userID)) (F64.ofRat coupon.MinPurchase)
              = false) →
        (ApplyCoupon fused clock e userID couponCode).1.1 = F64.zero
        ∧ (ApplyCoupon fused clock e userID couponCode).1.2.isSome = true) := by
  refine ⟨?_, rfl, ?_⟩
  · unfold ApplyCoupon
    repeat' split
    all_goals first | rfl | (dsimp only; split <;> rfl)
  by_cases hU : (e.Users.lookup userID).isNone = true
  · have hn : e.Users.lookup userID = none := Option.isNone_iff_eq_none.1 hU
    have hr : ApplyCoupon fused clock e userID couponCode
        = ((F64.zero, some Error.userNotFound), e) := by
      unfold ApplyCoupon; simp [hU]
    rw [hr]
    exact ⟨fun _ h _ => absurd hn h, fun _ => ⟨rfl, rfl⟩⟩
  have hUf : (e.Users.lookup userID).isNone = false := Bool.eq_false_iff.2 hU
  have hUn : e.Users.lookup userID ≠ none := fun hn => by rw [hn] at hUf; cases hUf
  cases hK : e.CouponCodes.lookup couponCode with
  | none =>
    have hr : ApplyCoupon fused clock e userID couponCode
        = ((F64.zero, some Error.couponNotFound), e) := by
      unfold ApplyCoupon; simp [hUf, hK]
    rw [hr]
    exact ⟨fun _ _ h => (by cases h), fun _ => ⟨rfl, rfl⟩⟩
  | some coupon =>
    by_cases hA : coupon.IsActive = true
    swap
    · have hr : ApplyCoupon fused clock e userID couponCode
          = ((F64.zero, some Error.couponInactive), e) := by
        unfold ApplyCoupon; simp [hUf, hK, hA]
      rw [hr]
      refine ⟨fun c _ hc ha => ?_, fun _ => ⟨rfl, rfl⟩⟩
      cases hc
      exact absurd ha hA
    by_cases hE : clock 0 > coupon.ExpiryDate
    · have hr : ApplyCoupon fused clock e userID couponCode
          = ((F64.zero, some Error.couponExpired), e) := by
        unfold ApplyCoupon; simp [hUf, hK, hA, hE]
      rw [hr]
      refine ⟨fun c _ hc _ he => ?_, fun _ => ⟨rfl, rfl⟩⟩
      cases hc
      omega
    cases hC : e.Carts.lookup userID with
    | none =>
      have hr : ApplyCoupon fused clock e userID couponCode
          = ((F64.zero, some Error.cartEmpty), e) := by
        unfold ApplyCoupon; simp [hUf, hK, hA, hE, hC]
      have hi : cartItems e userID = [] := by unfold cartItems; rw [hC]
      rw [hr]
      exact ⟨fun _ _ _ _ _ h => absurd hi h, fun _ => ⟨rfl, rfl⟩⟩
    | some cart =>
      have hi : cartItems e userID = cart.Items := by unfold cartItems; rw [hC]
      by_cases hI : cart.Items.length = 0
      · have hr : ApplyCoupon fused clock e userID couponCode
            = ((F64.zero, some Error.cartEmpty), e) := by
          unfold ApplyCoupon; simp [hUf, hK, hA, hE, hC, hI]
        have hnil : cartItems e userID = [] := by rw [hi]; exact List.length_eq_zero.1 hI
        rw [hr]
        exact ⟨fun _ _ _ _ _ h => absurd hnil h, fun _ => ⟨rfl, rfl⟩⟩
      have hne : cartItems e userID ≠ [] := by
        rw [hi]
        exact fun hn => hI (by rw [hn]; rfl)
      by_cases hM : F64.lt (cartTotal fused e cart.Items) (F64.ofRat coupon.MinPurchase) = true
      · have hr : ApplyCoupon fused clock e userID couponCode
            = ((F64.zero, some (Error.belowMinPurchase coupon.MinPurchase)), e) := by
          unfold ApplyCoupon; simp [hUf, hK, hA, hE, hC, hI, hM]
        rw [hr, hi]
        refine ⟨fun c _ hc _ _ _ hm => ?_, fun _ => ⟨rfl, rfl⟩⟩
        cases hc
        rw [hM] at hm
        cases hm
      · have hMf : F64.lt (cartTotal fused e cart.Items) (F64.ofRat coupon.MinPurchase)
            = false := Bool.eq_false_iff.2 hM
        have hr : ApplyCoupon fused clock e userID couponCode
            = ((F64.mul (cartTotal fused e cart.Items) (F64.ofRat coupon.Discount), none), e) := by
          unfold ApplyCoupon; simp [hUf, hK, hA, hE, hC, hI, hMf]
        rw [hr, hi]
        refine ⟨fun c _ hc _ _ _ _ => ?_, fun hnot => ?_⟩
        · cases hc
          rfl
        · exact absurd ⟨coupon, hUn, rfl, hA, by omega, by rw [← hi]; exact hne, hMf⟩ hnot

end LargeClass

end CodeSmells

/-! ## Fibonacci -/

namespace PerformanceExamples

theorem fibonacciSequence_le_one (n : Int) (h : n ≤ 1) : fibonacciSequence n = n := by
  rw [fibonacciSequence, if_pos h]

theorem fibonacciSequence_step (n : Int) (h : 2 ≤ n) :
    fibonacciSequence n = wrap64 (fibonacciSequence (n - 1) + fibonacciSequence (n - 2)) := by
  rw [fibonacciSequence, if_neg (by omega)]

/-- The recursion returns when its nested calls fit the stack. -/
theorem fibonacciRecursive_spec (stack : Nat) (n : Int) (h1 : 1 ≤ stack)
    (hn : n ≤ (stack : Int)) : fibonacciRecursive stack n = some (fibonacciSequence n) := by
  induction stack generalizing n with
  | zero => omega
  | succ k ih =>
    by_cases hle : n ≤ 1
    · rw [fibonacciRecursive, if_pos hle, fibonacciSequence_le_one n hle]
    · have hk : 1 ≤ k := by
        have : (2 : Int) ≤ ((k + 1 : Nat) : Int) := by omega
        omega
      have hk1 : n - 1 ≤ (k : Int) := by
        have : n ≤ ((k : Int) + 1) := by exact_mod_cast hn
        omega
      rw [fibonacciRecursive, if_neg hle, ih (n - 1) hk hk1, ih (n - 2) hk (by omega)]
      simp only
      rw [← fibonacciSequence_step n (by omega)]

/-- The recursion overflows the stack when its nested calls do not fit. -/
theorem fibonacciRecursive_overflow (stack : Nat) (n : Int)
    (h : stack = 0 ∨ (stack : Int) < n) : fibonacciRecursive stack n = none := by
  induction stack generalizing n with
  | zero => rfl
  | succ k ih =>
    have hlt : ((k : Int) + 1) < n := by
      rcases h with h | h
      · omega
      · exact_mod_cast h
    have hk0 : (0 : Int) ≤ (k : Int) := Int.ofNat_nonneg k
    rw [fibonacciRecursive, if_neg (by omega), ih (n - 1) (Or.inr (by omega))]

/-- From `i - 2` and `i - 1` the loop reaches `n`, given fuel for its `n + 2 - i`
evaluations of the condition. -/
theorem fibonacciLoop_spec (n : Int) (hn : n < maxInt) (k : Nat) (fuel : Nat) (i : Int)
    (hi : 2 ≤ i) (hk : i + (k : Int) = n + 1) (hf : k + 1 ≤ fuel) :
    fibonacciLoop n fuel i (fibonacciSequence (i - 2)) (fibonacciSequence (i - 1))
      = some (fibonacciSequence n) := by
  induction k generalizing fuel i with
  | zero =>
    obtain ⟨f, rfl⟩ : ∃ f, fuel = f + 1 := ⟨fuel - 1, by omega⟩
    have hin : i = n + 1 := by simpa using hk
    rw [fibonacciLoop, if_neg (by omega), hin]
    congr 2
    ring
  | succ k ih =>
    obtain ⟨f, rfl⟩ : ∃ f, fuel = f + 1 := ⟨fuel - 1, by omega⟩
    have hk2 : i + ((k : Int) + 1) = n + 1 := by
      rw [← hk]; push_cast; ring
    have hkn : (0 : Int) ≤ (k : Int) := Int.ofNat_nonneg k
    have hle : i ≤ n := by omega
    have hw : wrap64 (i + 1) = i + 1 := by
      apply wrap64_of_range
      · omega
      · omega
    rw [fibonacciLoop, if_pos hle, hw, add_comm (fibonacciSequence (i - 2)),
      ← fibonacciSequence_step i hi]
    have h1 : fibonacciSequence (i - 1) = fibonacciSequence (i + 1 - 2) := by
      congr 1; ring
    have h2 : fibonacciSequence i = fibonacciSequence (i + 1 - 1) := by
      congr 1; ring
    rw [h1, h2]
    exact ih f (i + 1) (by omega) (by omega) (by omega)

theorem fibonacciIterative_spec (n : Int) (hn : n < maxInt) (fuel : Nat)
    (hf : n ≤ (fuel : Int)) : fibonacciIterative fuel n = some (fibonacciSequence n) := by
  by_cases h1 : n ≤ 1
  · rw [fibonacciIterative, if_pos h1, fibonacciSequence_le_one n h1]
  · rw [fibonacciIterative, if_neg h1]
    have h0 : fibonacciSequence (2 - 2) = 0 := fibonacciSequence_le_one _ (by decide)
    have h1r : fibonacciSequence (2 - 1) = 1 := fibonacciSequence_le_one _ (by decide)
    have hspec := fibonacciLoop_spec n hn (n - 1).toNat fuel 2 (le_refl 2) (by omega) (by omega)
    rw [h0, h1r] at hspec
    exact hspec

theorem wrap64_range (x : Int) : -9223372036854775808 ≤ wrap64 x ∧ wrap64 x ≤ maxInt := by
  unfold wrap64 maxInt; omega

/-- With `n` the largest `int` the loop condition `i <= n` never fails. -/
theorem fibonacciLoop_maxInt (fuel : Nat) (i a b : Int) (hi : i ≤ maxInt) :
    fibonacciLoop maxInt fuel i a b = none := by
  induction fuel generalizing i a b with
  | zero => rfl
  | succ f ih =>
    rw [fibonacciLoop, if_pos hi]
    exact ih _ _ _ (wrap64_range _).2

/-- Counterexample to C18 as stated: for `n = 9223372036854775807`, the largest
`int`, neither implementation returns a value.  The loop of
`fibonacciIterative` is still running after any number of evaluations of its
condition `i <= n`, which holds for every `int` `i`; and the nested calls of
`fibonacciRecursive` overflow every stack that holds fewer than `n` of them. -/
theorem c18_fibonacci_counterexample :
    maxInt = 9223372036854775807 ∧
      (∀ fuel : Nat, fibonacciIterative fuel maxInt = none) ∧
      ∀ stack : Nat, (stack : Int) < maxInt → fibonacciRecursive stack maxInt = none := by
  refine ⟨rfl, fun fuel => ?_, fun stack h => fibonacciRecursive_overflow stack maxInt (Or.inr h)⟩
  rw [fibonacciIterative, if_neg (by decide)]
  exact fibonacciLoop_maxInt fuel 2 0 1 (by decide)

/-- C18, amended: for every `int` `n` below the largest `int`,
`fibonacciIterative` returns after at most `n` evaluations of its loop
condition, and for every `int` `n`, `fibonacciRecursive` returns exactly when
its nested calls fit the stack (one call for `n <= 1`, `n` nested calls for
`n >= 2`); where they return, both return the same value `F n`, with `F n = n`
for `n <= 1` and `F n` the 64-bit sum of `F (n - 1)` and `F (n - 2)` for
`n >= 2`: the value of `fibonacciRecursive` at `n >= 2` is the 64-bit sum of its
values at `n - 1` and `n - 2`, and so is the value of `fibonacciIterative`.  For
the `n = 40` of `RunFibonacciExample` both return 102334155. -/
theorem c18_fibonacci :
    (∀ (n : Int) (fuel stack : Nat), n < maxInt → n ≤ (fuel : Int) → 1 ≤ stack →
        n ≤ (stack : Int) →
        fibonacciIterative fuel n = some (fibonacciSequence n) ∧
          fibonacciRecursive stack n = some (fibonacciSequence n)) ∧
      (∀ (n : Int) (stack : Nat),
        (fibonacciRecursive stack n).isSome = true ↔ (1 ≤ stack ∧ n ≤ (stack : Int))) ∧
      (∀ (n : Int), n ≤ 1 → fibonacciSequence n = n ∧
        (∀ fuel : Nat, fibonacciIterative fuel n = some n) ∧
        ∀ stack : Nat, fibonacciRecursive (stack + 1) n = some n) ∧
      (∀ (n : Int), 2 ≤ n →
        fibonacciSequence n = wrap64 (fibonacciSequence (n - 1) + fibonacciSequence (n - 2))) ∧
      (∀ (n : Int) (stack : Nat), 2 ≤ n → n ≤ (stack : Int) →
        ∃ x y, fibonacciRecursive stack (n - 1) = some x ∧
          fibonacciRecursive stack (n - 2) = some y ∧
          fibonacciRecursive (stack + 1) n = some (wrap64 (x + y)) ∧
          fibonacciRecursive stack n = some (wrap64 (x + y))) ∧
      (∀ (n : Int) (fuel : Nat), 2 ≤ n → n < maxInt → n ≤ (fuel : Int) →
        ∃ x y, fibonacciIterative fuel (n - 1) = some x ∧
          fibonacciIterative fuel (n - 2) = some y ∧
          fibonacciIterative fuel n = some (wrap64 (x + y))) ∧
      fibonacciIterative 40 40 = some 102334155 ∧
      fibonacciRecursive 40 40 = some 102334155 := by
  have h40 : fibonacciIterative 40 40 = some 102334155 := by decide
  refine ⟨fun n fuel stack hn hf hs1 hs => ⟨fibonacciIterative_spec n hn fuel hf,
      fibonacciRecursive_spec stack n hs1 hs⟩, fun n stack => ?_, fun n h => ?_,
    fibonacciSequence_step, fun n stack h2 hs => ?_, fun n fuel h2 hn hf => ?_, h40, ?_⟩
  · constructor
    · intro h
      by_contra hc
      have hov : fibonacciRecursive stack n = none :=
        fibonacciRecursive_overflow stack n (by omega)
      rw [hov] at h
      simp at h
    · intro h
      rw [fibonacciRecursive_spec stack n h.1 h.2]
      rfl
  · refine ⟨fibonacciSequence_le_one n h, fun fuel => ?_, fun stack => ?_⟩
    · rw [fibonacciIterative, if_pos h]
    · rw [fibonacciRecursive, if_pos h]
  · have hs1 : 1 ≤ stack := by omega
    refine ⟨fibonacciSequence (n - 1), fibonacciSequence (n - 2),
      fibonacciRecursive_spec stack _ hs1 (by omega),
      fibonacciRecursive_spec stack _ hs1 (by omega), ?_, ?_⟩
    · rw [fibonacciRecursive_spec (stack + 1) n (by omega) (by push_cast; omega),
        fibonacciSequence_step n h2]
    · rw [fibonacciRecursive_spec stack n hs1 hs, fibonacciSequence_step n h2]
  · refine ⟨fibonacciSequence (n - 1), fibonacciSequence (n - 2),
      fibonacciIterative_spec _ (by omega) fuel (by omega),
      fibonacciIterative_spec _ (by omega) fuel (by omega), ?_⟩
    rw [fibonacciIterative_spec n hn fuel hf, fibonacciSequence_step n h2]
  · have h1 := fibonacciIterative_spec 40 (by decide) 40 (by decide)
    rw [h40] at h1
    rw [fibonacciRecursive_spec 40 40 (by decide) (by decide), ← h1]

end PerformanceExamples

/-! ## Shard ownership -/

namespace PerformanceExamples

theorem m2_ids_range (ws : List testConcurrencyMethod2.Worker)
    (hid : ∀ (k : Nat) (w : testConcurrencyMethod2.Worker), ws[k]? = some w → w.id = k) :
    ws.map (fun w => w.id) = List.range ws.length := by
  apply List.ext_getElem?
  intro k
  rw [List.getElem?_map]
  by_cases hk : k < ws.length
  · rw [List.getElem?_range hk, List.getElem?_eq_getElem hk]
    simp only [Option.map_some']
    rw [hid k ws[k] (List.getElem?_eq_getElem hk)]
  · have h1 : ws[k]? = none := List.getElem?_eq_none (by omega)
    have h2 : (List.range ws.length)[k]? = none := List.getElem?_eq_none (by simpa using hk)
    rw [h1, h2]
    rfl

/-- A step of the caller, or of a worker other than the one started `j`-th whose
`id` is its position, leaves shard `j` as it is. -/
theorem m2_shard_frame (n : Int) (s s1 : testConcurrencyMethod2.State) (t : Tid)
    (hid : ∀ (k : Nat) (w : testConcurrencyMethod2.Worker), s.workers[k]? = some w → w.id = k)
    (h : testConcurrencyMethod2.step n s t = some s1) (j : Nat) (hj : t ≠ Tid.worker j) :
    s1.counters[j]? = s.counters[j]? ∧ s1.mutexes[j]? = s.mutexes[j]? := by
  obtain ⟨g, out, p, wg, i, total, pc, cs, ms, ws⟩ := s
  cases p
  · cases t with
    | main =>
      cases pc <;> simp [testConcurrencyMethod2.step, testConcurrencyMethod2.mainStep] at h <;>
        (try split at h) <;> (try simp at h) <;>
        first | (subst h; exact ⟨rfl, rfl⟩) | (obtain ⟨-, rfl⟩ := h; exact ⟨rfl, rfl⟩)
    | aggregator => simp [testConcurrencyMethod2.step] at h
    | worker k =>
      have hkj : k ≠ j := fun hh => hj (by rw [hh])
      simp only [testConcurrencyMethod2.step] at h
      cases hk : ws[k]? with
      | none => simp [hk] at h
      | some w =>
        have hwid : w.id = k := hid k w hk
        obtain ⟨wpc, id, j1, tmp⟩ := w
        simp only at hwid
        subst hwid
        cases wpc <;> simp [hk, testConcurrencyMethod2.workerStep] at h <;>
          (try split at h) <;> (try simp at h) <;> subst h <;>
          (first | exact ⟨rfl, rfl⟩ | exact ⟨rfl, List.getElem?_set_ne hkj⟩ |
            exact ⟨List.getElem?_set_ne hkj, rfl⟩)
  · simp [testConcurrencyMethod2.step] at h

/-- C19: in every state `testConcurrencyMethod2` can reach, for every
`iterations`, nothing has panicked, both arrays have length 10, at most 10
workers have been started and the `id` of the worker started `k`-th is `k`, so the
ids are pairwise distinct, below 10, equal to `id % 10` and within both arrays;
a step of the caller or of a worker other than `j` leaves `counters[j]` and
`mutexes[j]` as they are and leads to no panic.  Every execution returns, and
then the ids of the workers are exactly 0..9 in the order they were started. -/
theorem c19_shard_ownership (n : Int) (hn : n ≤ maxInt) (g : Globals) (out0 : List Event) :
    Always (testConcurrencyMethod2.step n) (testConcurrencyMethod2.init g out0)
      (fun s =>
        s.panicked = false ∧ s.counters.length = 10 ∧ s.mutexes.length = 10
        ∧ s.workers.length ≤ 10
        ∧ s.workers.map (fun w => w.id) = List.range s.workers.length
        ∧ (∀ (k : Nat) (w : testConcurrencyMethod2.Worker), s.workers[k]? = some w →
            w.id = k ∧ w.id % 10 = w.id ∧ w.id < s.counters.length ∧ w.id < s.mutexes.length)
        ∧ (∀ (t : Tid) (s1 : testConcurrencyMethod2.State),
            testConcurrencyMethod2.step n s t = some s1 →
            s1.panicked = false
            ∧ ∀ j : Nat, t ≠ Tid.worker j →
                s1.counters[j]? = s.counters[j]? ∧ s1.mutexes[j]? = s.mutexes[j]?))
    ∧ AlwaysReturns (testConcurrencyMethod2.step n) (testConcurrencyMethod2.init g out0)
        (fun s => s.pc = .ret)
        (fun s => s.workers.map (fun w => w.id) = List.range 10)
        (70 * perWorker n + 95) := by
  constructor
  · refine always_of_inv _ _ _ (testConcurrencyMethod2.Inv (perWorker n) g out0)
      (testConcurrencyMethod2.m2_inv_init _ g out0)
      (fun s t s1 h hs => testConcurrencyMethod2.m2_inv_step n g out0 s s1 t hn h hs) ?_
    intro s h
    have hfull := h
    obtain ⟨hp, -, hcl, hml, hid, -, -, -, -, hmn, -⟩ := h
    have hlen := testConcurrencyMethod2.m2_len_le _ s hmn
    refine ⟨hp, hcl, hml, hlen, m2_ids_range s.workers hid, ?_, ?_⟩
    · intro k w hk
      have hkl : k < s.workers.length := by
        by_contra hc
        rw [List.getElem?_eq_none (by omega)] at hk
        cases hk
      have hwk := hid k w hk
      refine ⟨hwk, ?_, ?_, ?_⟩ <;> omega
    · intro t s1 hs
      exact ⟨(testConcurrencyMethod2.m2_inv_step n g out0 s s1 t hn hfull hs).1,
        fun j hj => m2_shard_frame n s s1 t hid hs j hj⟩
  · apply alwaysReturns_of_inv (testConcurrencyMethod2.step n) _ _ _ _
      (testConcurrencyMethod2.Inv (perWorker n) g out0)
      (testConcurrencyMethod2.measure (perWorker n))
    · exact testConcurrencyMethod2.m2_inv_init _ g out0
    · intro s t s1 h hs; exact testConcurrencyMethod2.m2_inv_step n g out0 s s1 t hn h hs
    · intro s t s1 h hs
      exact le_of_eq (testConcurrencyMethod2.m2_measure_step n g out0 s s1 t hn h hs)
    · intro s h
      exact testConcurrencyMethod2.m2_measure_nonneg _ g out0 s (perWorker_nonneg n) h
    · intro s h hr; exact testConcurrencyMethod2.m2_progress n _ g out0 s h hr
    · intro s h hr
      have hl := (testConcurrencyMethod2.m2_at_ret _ g out0 s h hr).2.2.2.1
      have hids := m2_ids_range s.workers h.2.2.2.2.1
      rw [hl] at hids
      exact hids
    · simp [testConcurrencyMethod2.measure, testConcurrencyMethod2.mainRemaining,
        testConcurrencyMethod2.init]; ring_nf; rfl

/-- Witness of C19 at `iterations = 10`, from the zero globals and no output. -/
theorem c19_shard_ownership_witness :
    (10 : Int) ≤ maxInt
    ∧ AlwaysReturns (testConcurrencyMethod2.step 10)
        (testConcurrencyMethod2.init ⟨false, ⟨0⟩⟩ [])
        (fun s => s.pc = .ret)
        (fun s => s.workers.map (fun w => w.id) = List.range 10)
        (70 * perWorker 10 + 95) :=
  ⟨by decide, (c19_shard_ownership 10 (by decide) ⟨false, ⟨0⟩⟩ []).2⟩

end PerformanceExamples

/-! ## Console entry point -/

namespace PerformanceExamples

theorem listedNames_eq :
    listedNames = ["cache", "fibonacci", "file", "counter", "concurrency", "database"] := by
  decide

theorem selected_isSome_iff (name : String) :
    (main.selected name).isSome ↔ name ∈ listedNames := by
  rw [listedNames_eq]
  unfold main.selected
  split_ifs <;> simp_all

/-- Where `main` is when it is at or inside a call. -/
theorem main_at_call (osArgs : List String) :
    Always (main.step osArgs) main.init (fun s =>
      match s with
      | .top (.switch name) _ _ => ∃ prog rest, osArgs = prog :: name :: rest
      | .top (.unknown name) _ _ =>
        ∃ prog rest, osArgs = prog :: name :: rest ∧ main.selected name = none
      | .top (.call f) _ _ =>
        ∃ prog name rest, osArgs = prog :: name :: rest ∧ main.selected name = some f
      | .run f _ _ =>
        ∃ prog name rest, osArgs = prog :: name :: rest ∧ main.selected name = some f
      | _ => True) := by
  refine always_of_inv _ _ _ _ ?_ ?_ (fun s h => h)
  · simp [main.init]
  · intro s t s1 h hs
    cases s with
    | top pc out printed =>
      simp only [main.step] at hs
      split at hs
      · cases pc with
        | argsTest =>
          match osArgs, hs with
          | [], hs => simp at hs; subst hs; trivial
          | [_], hs => simp at hs; subst hs; trivial
          | prog :: name :: rest, hs =>
            simp at hs; subst hs
            exact ⟨prog, rest, rfl⟩
        | usage => simp at hs; subst hs; trivial
        | switch name =>
          obtain ⟨prog, rest, hargs⟩ := h
          cases hsel : main.selected name with
          | none =>
            simp [hsel] at hs; subst hs
            exact ⟨prog, rest, hargs, hsel⟩
          | some f =>
            simp [hsel] at hs; subst hs
            exact ⟨prog, name, rest, hargs, hsel⟩
        | unknown name => simp at hs; subst hs; trivial
        | call f =>
          cases f <;> simp at hs <;> subst hs <;> exact h
        | ret => simp at hs
      · simp at hs
    | run f out d =>
      simp only [main.step] at hs
      split at hs
      · split at hs
        · simp at hs; subst hs; trivial
        · simp at hs
      · simp only [Option.map_eq_some'] at hs
        obtain ⟨d1, -, rfl⟩ := hs
        exact h

/-- With no argument `main` prints the usage text and returns. -/
theorem main_usage (osArgs : List String) (h : osArgs.length < 2) :
    AlwaysReturns (main.step osArgs) main.init (fun s => main.returned s = true)
      (fun s => s = .top .ret printUsage []) 2 := by
  have key : ∀ (s : main.State) (t : Tid) (s1 : main.State),
      (s = .top .argsTest [] [] ∨ s = .top .usage [] [] ∨ s = .top .ret printUsage []) →
      main.step osArgs s t = some s1 →
      (s1 = .top .argsTest [] [] ∨ s1 = .top .usage [] [] ∨ s1 = .top .ret printUsage [])
      ∧ (match s1 with
          | .top .argsTest _ _ => (2 : Int)
          | .top .usage _ _ => 1
          | _ => 0) + 1
        ≤ (match s with
          | .top .argsTest _ _ => (2 : Int)
          | .top .usage _ _ => 1
          | _ => 0) := by
    rintro s t s1 (rfl | rfl | rfl) hs
    · simp only [main.step] at hs
      split at hs
      · match osArgs, h, hs with
        | [], _, hs => simp at hs; subst hs; exact ⟨Or.inr (Or.inl rfl), by decide⟩
        | [_], _, hs => simp at hs; subst hs; exact ⟨Or.inr (Or.inl rfl), by decide⟩
        | _ :: _ :: _, h, _ => simp only [List.length_cons] at h; omega
      · simp at hs
    · simp only [main.step] at hs
      split at hs
      · simp at hs; subst hs; exact ⟨Or.inr (Or.inr rfl), by decide⟩
      · simp at hs
    · simp [main.step] at hs
  apply alwaysReturns_of_inv (main.step osArgs) _ _ _ _
    (fun s => s = .top .argsTest [] [] ∨ s = .top .usage [] [] ∨ s = .top .ret printUsage [])
    (fun s => match s with
      | .top .argsTest _ _ => (2 : Int)
      | .top .usage _ _ => 1
      | _ => 0)
  · exact Or.inl rfl
  · intro s t s1 hI hs; exact (key s t s1 hI hs).1
  · intro s t s1 hI hs; exact (key s t s1 hI hs).2
  · rintro s (rfl | rfl | rfl) <;> decide
  · rintro s (rfl | rfl | rfl) hr
    · match osArgs, h with
      | [], _ => exact ⟨.main, _, rfl⟩
      | [_], _ => exact ⟨.main, _, rfl⟩
      | _ :: _ :: _, h => simp only [List.length_cons] at h; omega
    · exact ⟨.main, _, rfl⟩
    · simp [main.returned] at hr
  · rintro s (rfl | rfl | rfl) hr
    · simp [main.returned] at hr
    · simp [main.returned] at hr
    · rfl
  · simp [main.init]

/-- With an argument that is none of the six names `main` prints the
unknown-example line, then the usage text, and returns. -/
theorem main_unknown (prog name : String) (rest : List String)
    (h : main.selected name = none) :
    AlwaysReturns (main.step (prog :: name :: rest)) main.init
      (fun s => main.returned s = true)
      (fun s => s = .top .ret (("未知示例: " ++ name) :: printUsage) []) 4 := by
  have key : ∀ (s : main.State) (t : Tid) (s1 : main.State),
      (s = .top .argsTest [] [] ∨ s = .top (.switch name) [] [] ∨ s = .top (.unknown name) [] []
        ∨ s = .top .usage ["未知示例: " ++ name] []
        ∨ s = .top .ret (("未知示例: " ++ name) :: printUsage) []) →
      main.step (prog :: name :: rest) s t = some s1 →
      (s1 = .top .argsTest [] [] ∨ s1 = .top (.switch name) [] []
        ∨ s1 = .top (.unknown name) [] []
        ∨ s1 = .top .usage ["未知示例: " ++ name] []
        ∨ s1 = .top .ret (("未知示例: " ++ name) :: printUsage) [])
      ∧ (match s1 with
          | .top .argsTest _ _ => (4 : Int)
          | .top (.switch _) _ _ => 3
          | .top (.unknown _) _ _ => 2
          | .top .usage _ _ => 1
          | _ => 0) + 1
        ≤ (match s with
          | .top .argsTest _ _ => (4 : Int)
          | .top (.switch _) _ _ => 3
          | .top (.unknown _) _ _ => 2
          | .top .usage _ _ => 1
          | _ => 0) := by
    rintro s t s1 (rfl | rfl | rfl | rfl | rfl) hs
    · simp only [main.step] at hs
      split at hs
      · simp at hs; subst hs; exact ⟨Or.inr (Or.inl rfl), by simp⟩
      · simp at hs
    · simp only [main.step] at hs
      split at hs
      · simp [h] at hs; subst hs; exact ⟨Or.inr (Or.inr (Or.inl rfl)), by simp⟩
      · simp at hs
    · simp only [main.step] at hs
      split at hs
      · simp at hs; subst hs; exact ⟨Or.inr (Or.inr (Or.inr (Or.inl rfl))), by simp⟩
      · simp at hs
    · simp only [main.step] at hs
      split at hs
      · simp at hs; subst hs; exact ⟨Or.inr (Or.inr (Or.inr (Or.inr rfl))), by simp⟩
      · simp at hs
    · simp [main.step] at hs
  apply alwaysReturns_of_inv (main.step (prog :: name :: rest)) _ _ _ _
    (fun s => s = .top .argsTest [] [] ∨ s = .top (.switch name) [] []
        ∨ s = .top (.unknown name) [] []
        ∨ s = .top .usage ["未知示例: " ++ name] []
        ∨ s = .top .ret (("未知示例: " ++ name) :: printUsage) [])
    (fun s => match s with
      | .top .argsTest _ _ => (4 : Int)
      | .top (.switch _) _ _ => 3
      | .top (.unknown _) _ _ => 2
      | .top .usage _ _ => 1
      | _ => 0)
  · exact Or.inl rfl
  · intro s t s1 hI hs; exact (key s t s1 hI hs).1
  · intro s t s1 hI hs; exact (key s t s1 hI hs).2
  · rintro s (rfl | rfl | rfl | rfl | rfl) <;> simp
  · rintro s (rfl | rfl | rfl | rfl | rfl) hr
    · exact ⟨.main, _, rfl⟩
    · exact ⟨.main, .top (.unknown name) [] [], by simp [main.step, h]⟩
    · exact ⟨.main, _, rfl⟩
    · exact ⟨.main, _, rfl⟩
    · simp [main.returned] at hr
  · rintro s (rfl | rfl | rfl | rfl | rfl) hr
    · simp [main.returned] at hr
    · simp [main.returned] at hr
    · simp [main.returned] at hr
    · simp [main.returned] at hr
    · rfl
  · simp [main.init]

theorem main_step_run (osArgs : List String) (f : main.Callee) (out : List String)
    (d : RunConcurrencyExample.State) (t : Tid) (hr : ¬ RunConcurrencyExample.returned d) :
    main.step osArgs (.run f out d) t = (RunConcurrencyExample.step d t).map (.run f out) := by
  cases d with
  | top pc g printed =>
    cases pc <;> first | rfl | exact absurd trivial hr
  | in1 s => rfl
  | in2 s => rfl
  | in3 s => rfl

/-- With "concurrency" or "counter" as its argument `main` runs the three
strategies and returns. -/
theorem main_core (prog name : String) (rest : List String) (f : main.Callee)
    (hsel : main.selected name = some f)
    (hf : f = .RunConcurrencyExample ∨ f = .RunCounterExample) :
    AlwaysReturns (main.step (prog :: name :: rest)) main.init
      (fun s => main.returned s = true)
      (fun s => s = .top .ret [] RunConcurrencyExample.expected)
      20000242 := by
  have key : ∀ (s : main.State) (t : Tid) (s1 : main.State),
      (s = .top .argsTest [] [] ∨ s = .top (.switch name) [] [] ∨ s = .top (.call f) [] []
        ∨ (∃ d, s = .run f [] d ∧ RunConcurrencyExample.Inv d)
        ∨ s = .top .ret [] RunConcurrencyExample.expected) →
      main.step (prog :: name :: rest) s t = some s1 →
      (s1 = .top .argsTest [] [] ∨ s1 = .top (.switch name) [] [] ∨ s1 = .top (.call f) [] []
        ∨ (∃ d, s1 = .run f [] d ∧ RunConcurrencyExample.Inv d)
        ∨ s1 = .top .ret [] RunConcurrencyExample.expected)
      ∧ (match s1 with
          | .top .argsTest _ _ => (20000242 : Int)
          | .top (.switch _) _ _ => 20000241
          | .top (.call _) _ _ => 20000240
          | .run _ _ d => RunConcurrencyExample.measure d + 1
          | _ => 0) + 1
        ≤ (match s with
          | .top .argsTest _ _ => (20000242 : Int)
          | .top (.switch _) _ _ => 20000241
          | .top (.call _) _ _ => 20000240
          | .run _ _ d => RunConcurrencyExample.measure d + 1
          | _ => 0) := by
    rintro s t s1 (rfl | rfl | rfl | ⟨d, rfl, hd⟩ | rfl) hs
    · simp only [main.step] at hs
      split at hs
      · simp at hs; subst hs; exact ⟨Or.inr (Or.inl rfl), by simp⟩
      · simp at hs
    · simp only [main.step] at hs
      split at hs
      · simp [hsel] at hs; subst hs; exact ⟨Or.inr (Or.inr (Or.inl rfl)), by simp⟩
      · simp at hs
    · simp only [main.step] at hs
      split at hs
      · rcases hf with rfl | rfl
        · simp at hs; subst hs
          exact ⟨Or.inr (Or.inr (Or.inr (Or.inl ⟨_, rfl, RunConcurrencyExample.run_inv_init⟩))),
            by simp [RunConcurrencyExample.measure, RunConcurrencyExample.init]⟩
        · simp at hs; subst hs
          exact ⟨Or.inr (Or.inr (Or.inr (Or.inl ⟨_, rfl, RunConcurrencyExample.run_inv_init⟩))),
            by simp [RunConcurrencyExample.measure, RunConcurrencyExample.init]⟩
      · simp at hs
    · by_cases hr : RunConcurrencyExample.returned d
      · have hd2 := RunConcurrencyExample.run_at_ret d hd hr
        subst hd2
        simp only [main.step] at hs
        split at hs
        · simp at hs; subst hs
          exact ⟨Or.inr (Or.inr (Or.inr (Or.inr rfl))), by simp [RunConcurrencyExample.measure]⟩
        · simp at hs
      · rw [main_step_run _ _ _ _ _ hr] at hs
        simp only [Option.map_eq_some'] at hs
        obtain ⟨d1, hd1, rfl⟩ := hs
        obtain ⟨hi, hm⟩ := RunConcurrencyExample.run_ok_step d d1 t hd hd1
        refine ⟨Or.inr (Or.inr (Or.inr (Or.inl ⟨d1, rfl, hi⟩))), ?_⟩
        simp only
        omega
    · simp [main.step] at hs
  apply alwaysReturns_of_inv (main.step (prog :: name :: rest)) _ _ _ _
    (fun s => s = .top .argsTest [] [] ∨ s = .top (.switch name) [] [] ∨ s = .top (.call f) [] []
        ∨ (∃ d, s = .run f [] d ∧ RunConcurrencyExample.Inv d)
        ∨ s = .top .ret [] RunConcurrencyExample.expected)
    (fun s => match s with
      | .top .argsTest _ _ => (20000242 : Int)
      | .top (.switch _) _ _ => 20000241
      | .top (.call _) _ _ => 20000240
      | .run _ _ d => RunConcurrencyExample.measure d + 1
      | _ => 0)
  · exact Or.inl rfl
  · intro s t s1 hI hs; exact (key s t s1 hI hs).1
  · intro s t s1 hI hs; exact (key s t s1 hI hs).2
  · rintro s (rfl | rfl | rfl | ⟨d, rfl, hd⟩ | rfl)
    · simp
    · simp
    · simp
    · have := RunConcurrencyExample.run_measure_nonneg d hd
      simp only
      omega
    · simp
  · rintro s (rfl | rfl | rfl | ⟨d, rfl, hd⟩ | rfl) hr
    · exact ⟨.main, _, rfl⟩
    · exact ⟨.main, .top (.call f) [] [], by simp [main.step, hsel]⟩
    · rcases hf with rfl | rfl
      · exact ⟨.main, _, rfl⟩
      · exact ⟨.main, _, rfl⟩
    · by_cases hret : RunConcurrencyExample.returned d
      · have hd2 := RunConcurrencyExample.run_at_ret d hd hret
        subst hd2
        exact ⟨.main, _, rfl⟩
      · obtain ⟨t, d1, hd1⟩ := RunConcurrencyExample.run_progress d hd hret
        exact ⟨t, .run f [] d1, by rw [main_step_run _ _ _ _ _ hret, hd1]; rfl⟩
    · simp [main.returned] at hr
  · rintro s (rfl | rfl | rfl | ⟨d, rfl, hd⟩ | rfl) hr
    · simp [main.returned] at hr
    · simp [main.returned] at hr
    · simp [main.returned] at hr
    · simp [main.returned] at hr
    · rfl
  · simp [main.init]

/-- C20: the function `main` dispatches as the claim says, but the program is
not the console entry point the claim describes.  The names listed by
`printUsage` are the six names cache, fibonacci, file, counter, concurrency and
database, and they are the arguments for which the `switch` of `main` selects a
function: `RunConcurrencyExample` for "concurrency" and `RunCounterExample` for
"counter".  Once entered, `main` reaches the call of a function exactly when
`os.Args` has a first argument for which the `switch` selects that function;
with no argument every run prints the usage text, nothing else, and ends with
`main` returned; with a first argument that is none of the six names every run
prints the unknown-example line and then the usage text and ends with `main`
returned; with "concurrency" or "counter" every run, under every interleaving of
the goroutines, ends with `main` returned after the three strategies have each
reported 1000000.  But the package clause of `main.go` is not `package main`:
the command of the usage text, `go run main.go` followed by an example name such
as "concurrency", is refused by the go tool, which starts no process and ends
with the failure status 1. -/
theorem c20_console_dispatch :
    listedNames = ["cache", "fibonacci", "file", "counter", "concurrency", "database"]
    ∧ (∀ name, (main.selected name).isSome ↔ name ∈ listedNames)
    ∧ main.selected "concurrency" = some .RunConcurrencyExample
    ∧ main.selected "counter" = some .RunCounterExample
    ∧ (∀ (osArgs : List String) (f : main.Callee),
        (∃ sched out printed,
            runSchedule (main.step osArgs) main.init sched = some (.top (.call f) out printed))
          ↔ ∃ prog name rest, osArgs = prog :: name :: rest ∧ main.selected name = some f)
    ∧ (∀ osArgs : List String, osArgs.length < 2 →
        AlwaysReturns (main.step osArgs) main.init (fun s => main.returned s = true)
          (fun s => s = .top .ret printUsage []) 2)
    ∧ (∀ (prog name : String) (rest : List String), name ∉ listedNames →
        AlwaysReturns (main.step (prog :: name :: rest)) main.init
          (fun s => main.returned s = true)
          (fun s => s = .top .ret (("未知示例: " ++ name) :: printUsage) []) 4)
    ∧ (∀ (prog name : String) (rest : List String), name = "concurrency" ∨ name = "counter" →
        AlwaysReturns (main.step (prog :: name :: rest)) main.init
          (fun s => main.returned s = true)
          (fun s => s = .top .ret []
                [.banner, .count 1000000, .elapsed 1, .count 1000000, .elapsed 2,
                  .count 1000000, .elapsed 3])
          20000242)
    ∧ packageClause ≠ "main"
    ∧ goRunCheck packageClause = some 1 := by
  refine ⟨listedNames_eq, selected_isSome_iff, by decide, by decide, ?_, ?_, ?_, ?_, by decide,
    by decide⟩
  · intro osArgs f
    constructor
    · rintro ⟨sched, out, printed, h⟩
      exact main_at_call osArgs sched _ h
    · rintro ⟨prog, name, rest, rfl, hsel⟩
      exact ⟨[.main, .main], [], [], by simp [runSchedule, main.step, main.init, hsel]⟩
  · intro osArgs h
    exact main_usage osArgs h
  · intro prog name rest h
    have hsel : main.selected name = none := by
      cases hs : main.selected name with
      | none => rfl
      | some f =>
        have := (selected_isSome_iff name).1 (by rw [hs]; rfl)
        exact absurd this h
    exact main_unknown prog name rest hsel
  · intro prog name rest h
    rcases h with rfl | rfl
    · exact main_core prog "concurrency" rest .RunConcurrencyExample (by decide) (Or.inl rfl)
    · exact main_core prog "counter" rest .RunCounterExample (by decide) (Or.inr rfl)

end PerformanceExamples
